import Mathlib

/-!
# Tk-JPEG photo image format handler (`imgJPEG.c`)

A shallow embedding of the header sniffer `CommonMatchJPEG`, the decode driver
`CommonReadJPEG`, the encode driver `CommonWriteJPEG`, the source and
destination managers and the handlers around the drivers, with the properties
of the specification stated and proved over it.

Conventions.
* A byte (`char`, `JOCTET`, `JSAMPLE`) is a `Fin 256`; `b & 0x0ff` is `b.val`.
* C `int` values are `Int`.  The region arithmetic of `CommonReadJPEG` (sums
  and differences of its `int` arguments and of the image dimensions) is
  reduced by `wrapInt`: two's complement wrap-around, which is what the
  compiled code does where C leaves signed overflow undefined.  The conversion
  of the raster's `int` dimensions to the unsigned `JDIMENSION` in
  `CommonWriteJPEG` is `JDIMENSION_of_int`.
* External calls (libjpeg, Tk, Tcl) are recorded as events of a trace, in call
  order.
-/

namespace TkJPEG

/-- One octet. -/
abbrev Byte := Fin 256

/-! ## The header sniffer: `CommonMatchJPEG` -/

/-- State of one run of `CommonMatchJPEG`: the bytes the handle has not yet
delivered, the 256-byte scratch buffer `buf`, and the log of the reads issued
so far, each as (bytes requested, bytes returned). -/
structure MState where
  handle : List Byte
  buf : Nat → Byte
  reads : List (Nat × Nat)

/-- Modelled from the spec: `ImgRead(handle, dst, count)` of the image library
(declared in `pTk/imgInt.h`, not part of this repository's sources).  It
delivers the next `count` bytes of the stream into `dst[0..]`, or fewer when
the stream ends first ("possibly fewer than requested"), and returns the number
of bytes delivered. -/
def ImgRead (st : MState) (count : Nat) : Nat × MState :=
  let got := min count st.handle.length
  (got,
   { handle := st.handle.drop got,
     buf := fun j => if j < got then st.handle.getD j 0 else st.buf j,
     reads := st.reads ++ [(count, got)] })

/-- The assignment `buf[0] = b`. -/
def MState.setBuf0 (st : MState) (b : Byte) : MState :=
  { handle := st.handle, buf := fun j => if j = 0 then b else st.buf j, reads := st.reads }

/-- The state in which `CommonMatchJPEG` starts: nothing read yet, `buf` holding
whatever the stack held. -/
def initState (handle : List Byte) (buf0 : Nat → Byte) : MState :=
  { handle := handle, buf := buf0, reads := [] }

/-- C `strncmp(a, b, n) != 0` on byte strings: the first `n` characters are
compared, stopping at a NUL that both strings share. -/
def strncmp_ne (a b : Nat → Byte) : Nat → Nat → Bool
  | _, 0 => false
  | k, n + 1 =>
    if a k ≠ b k then true
    else if a k = 0 then false
    else strncmp_ne a b (k + 1) n

/-- The string literal `"\377\330\377"`, NUL-terminated. -/
def soiSignature : Nat → Byte := fun j => [0xff, 0xd8, 0xff].getD j 0

/-- Outcome of a loop of `CommonMatchJPEG`: the loop ran out of fuel, the
function executed `return 0`, or the loop was left normally. -/
inductive Loop where
  | diverge : Loop
  | return0 : MState → Loop
  | done : MState → Loop

/-- Lines 596-600: `while (buf[0] == (char) 0xff) { if (ImgRead(handle, buf, 1)
!= 1) return 0; }`. -/
def padLoop : Nat → MState → Loop
  | 0, _ => Loop.diverge
  | fuel + 1, st =>
    if st.buf 0 = 0xff then
      let r := ImgRead st 1
      if r.1 ≠ 1 then Loop.return0 r.2 else padLoop fuel r.2
    else Loop.done st

/-- Lines 612-615: `while (i > 256) { ImgRead(handle, buf, 256); i -= 256; }`.
The result of the read is not inspected. -/
def chunkLoop : Nat → Int → MState → Option (Int × MState)
  | 0, _, _ => none
  | fuel + 1, i, st =>
    if i > 256 then chunkLoop fuel (i - 256) (ImgRead st 256).2
    else some (i, st)

/-- Lines 621-625: `while (buf[0] != (char) 0xff) { if (ImgRead(handle, buf, 1)
!= 1) return 0; }`. -/
def junkLoop : Nat → MState → Loop
  | 0, _ => Loop.diverge
  | fuel + 1, st =>
    if st.buf 0 ≠ 0xff then
      let r := ImgRead st 1
      if r.1 ≠ 1 then Loop.return0 r.2 else junkLoop fuel r.2
    else Loop.done st

/-- Lines 608-619: read the 2-byte segment length, skip the segment in chunks
of at most 256 bytes, and keep the last byte read in `buf[0]`.  The fuel
handed to the chunk loop is the value of `i`, which bounds the number of chunk
reads. -/
def skipSegment (st : MState) : Loop :=
  let r := ImgRead st 2
  if r.1 ≠ 2 then Loop.return0 r.2
  else
    let i : Int := ((((r.2.buf 0).val <<< 8) + (r.2.buf 1).val : Nat) : Int) - 1
    match chunkLoop (i.toNat + 1) i r.2 with
    | none => Loop.diverge
    | some (i, st1) =>
      if i < 1 then Loop.return0 st1
      else
        let r2 := ImgRead st1 i.toNat
        if (r2.1 : Int) ≠ i then Loop.return0 r2.2
        else
          Loop.done (r2.2.setBuf0 (r2.2.buf (i - 1).toNat))

/-- Lines 594-626: the marker loop `for (;;)`.  `done` is the `break` taken at
a start-of-frame marker (SOF0, SOF1 or SOF2). -/
def markerLoop : Nat → MState → Loop
  | 0, _ => Loop.diverge
  | fuel + 1, st =>
    match padLoop (st.handle.length + 1) st with
    | Loop.diverge => Loop.diverge
    | Loop.return0 s => Loop.return0 s
    | Loop.done st1 =>
      if st1.buf 0 = 0xc0 ∨ st1.buf 0 = 0xc1 ∨ st1.buf 0 = 0xc2 then Loop.done st1
      else
        match skipSegment st1 with
        | Loop.diverge => Loop.diverge
        | Loop.return0 s => Loop.return0 s
        | Loop.done st2 =>
          match junkLoop (st2.handle.length + 1) st2 with
          | Loop.diverge => Loop.diverge
          | Loop.return0 s => Loop.return0 s
          | Loop.done st3 => markerLoop fuel st3

/-- What a call of `CommonMatchJPEG` leaves behind: its return value, the
values stored through `widthPtr` and `heightPtr` (`none` when the call stores
nothing there), and the final state of the handle and the read log. -/
structure MatchResult where
  ret : Int
  width : Option Int
  height : Option Int
  final : MState

/-- `CommonMatchJPEG(handle, widthPtr, heightPtr)`, lines 577-635.  `buf0` is
the (uninitialised) content of the local `buf` on entry.  The result is `none`
only if a loop runs out of fuel. -/
def CommonMatchJPEG (handle : List Byte) (buf0 : Nat → Byte) : Option MatchResult :=
  let r := ImgRead (initState handle buf0) 3
  if r.1 ≠ 3 ∨ strncmp_ne r.2.buf soiSignature 0 3 then
    some { ret := 0, width := none, height := none, final := r.2 }
  else
    let st : MState := r.2.setBuf0 (r.2.buf 2)
    match markerLoop (st.handle.length + 1) st with
    | Loop.diverge => none
    | Loop.return0 s => some { ret := 0, width := none, height := none, final := s }
    | Loop.done st1 =>
      let r7 := ImgRead st1 7
      if r7.1 ≠ 7 then some { ret := 0, width := none, height := none, final := r7.2 }
      else
        some { ret := 1,
               width := some ((((r7.2.buf 5).val <<< 8) + (r7.2.buf 6).val : Nat) : Int),
               height := some ((((r7.2.buf 3).val <<< 8) + (r7.2.buf 4).val : Nat) : Int),
               final := r7.2 }

/-- The state a loop outcome carries, if any. -/
def Loop.final : Loop → Option MState
  | Loop.diverge => none
  | Loop.return0 s => some s
  | Loop.done s => some s

/-- `Reach st st1`: state `st1` arises from `st` by reads of 1 to 256 bytes
and by assignments to `buf`. -/
inductive Reach : MState → MState → Prop
  | refl (st : MState) : Reach st st
  | read (st st1 : MState) (n : Nat) (h1 : 1 ≤ n) (h2 : n ≤ 256) :
      Reach st st1 → Reach st (ImgRead st1 n).2
  | setBuf (st st1 : MState) (b : Byte) :
      Reach st st1 → Reach st (st1.setBuf0 b)

/-- Some read logged in `st` returned fewer bytes than it requested. -/
def ShortRead (st : MState) : Prop := ∃ e ∈ st.reads, e.2 < e.1

/-! ### Streams in marker-segment form -/

/-- A marker segment `FF t Lhi Llo payload` ahead of the start-of-frame
marker. -/
structure Segment where
  t : Byte
  Lhi : Byte
  Llo : Byte
  payload : List Byte

/-- The declared length `L = 256*Lhi + Llo` of a segment. -/
def Segment.L (g : Segment) : Nat := 256 * g.Lhi.val + g.Llo.val

/-- The type byte is neither `FF` nor a start-of-frame, the declared length is
at least 2 and the payload has exactly `L - 2` bytes. -/
def Segment.wellFormed (g : Segment) : Prop :=
  g.t ≠ 0xff ∧ g.t ≠ 0xc0 ∧ g.t ≠ 0xc1 ∧ g.t ≠ 0xc2 ∧ 2 ≤ g.L ∧ g.payload.length = g.L - 2

/-- The bytes of a segment on the wire. -/
def Segment.bytes (g : Segment) : List Byte :=
  [0xff, g.t, g.Lhi, g.Llo] ++ g.payload

/-- The stream `FF D8`, the segments, `FF s`, then the bytes `frame`. -/
def jpegStream (segs : List Segment) (s : Byte) (frame : List Byte) : List Byte :=
  [0xff, 0xd8] ++ ((segs.map Segment.bytes).flatten ++ ([0xff, s] ++ frame))

/-- What follows the first `FF` of the remaining markers. -/
def afterFF (s : Byte) (frame : List Byte) : List Segment → List Byte
  | [] => s :: frame
  | g :: gs => g.t :: g.Lhi :: g.Llo :: ((g.payload ++ [0xff]) ++ afterFF s frame gs)

/-- A state at the top of the marker loop: `buf[0]` holds the type byte `E0`, the stream continues
with the length `00 04`, two payload bytes and the next marker. -/
def segmentState : MState :=
  { handle := [0, 4, 1, 2, 0xff, 0xc0], buf := fun _ => 0xe0, reads := [] }

/-! ## Shared declarations of the decode and encode drivers -/

/-- `INT_MAX` of `limits.h`, `int` being 32 bits wide. -/
def INT_MAX : Int := 2147483647

/-- `INT_MIN` of `limits.h`, `int` being 32 bits wide. -/
def INT_MIN : Int := -2147483648

/-- The value a 32-bit `int` holds when the exact result of an addition or
subtraction is `x`: `x` itself when `INT_MIN <= x <= INT_MAX`, and `x` reduced
modulo `2^32` into that range otherwise. -/
def wrapInt (x : Int) : Int :=
  (x + 2147483648) % 4294967296 - 2147483648

/-- Conversion of an `int` to `JDIMENSION` (`unsigned int`, 32 bits): the
value modulo `2^32`, that is, `2^32` is added to a negative value. -/
def JDIMENSION_of_int (v : Int) : Int :=
  if v < 0 then v + 4294967296 else v

/-- `TCL_OK` of `tcl.h`. -/
def TCL_OK : Int := 0

/-- `TCL_ERROR` of `tcl.h`. -/
def TCL_ERROR : Int := 1

/-- `J_COLOR_SPACE` of `jpeglib.h`. -/
inductive J_COLOR_SPACE where
  | JCS_UNKNOWN
  | JCS_GRAYSCALE
  | JCS_RGB
  | JCS_YCbCr
  | JCS_CMYK
  | JCS_YCCK
  deriving DecidableEq, Repr

/-- The `formatString` argument: `NULL`, a value `Tcl_ListObjGetElements`
splits into the words `args`, or a value it rejects (returning something other
than `TCL_OK` and leaving `err` in the interpreter result). -/
inductive FormatArg where
  | null : FormatArg
  | list (args : List String) : FormatArg
  | notList (err : String) : FormatArg
  deriving DecidableEq, Repr

/-- `Tk_PhotoImageBlock` of `tk.h`: `pixelPtr` is an address into the memory
`mem`; the sample of channel `c` of the pixel in column `x` of row `y` lives at
`pixelPtr + y*pitch + x*pixelSize + offset[c]`. -/
structure Tk_PhotoImageBlock where
  mem : Int → Byte
  pixelPtr : Int
  width : Int
  height : Int
  pitch : Int
  pixelSize : Int
  offset0 : Int
  offset1 : Int
  offset2 : Int
  offset3 : Int

/-- The red, green and blue samples Tk takes for the pixel in column `x` of
row `y` of a block. -/
def Tk_PhotoImageBlock.pixel (b : Tk_PhotoImageBlock) (x y : Int) : Byte × Byte × Byte :=
  (b.mem (b.pixelPtr + y * b.pitch + x * b.pixelSize + b.offset0),
   b.mem (b.pixelPtr + y * b.pitch + x * b.pixelSize + b.offset1),
   b.mem (b.pixelPtr + y * b.pitch + x * b.pixelSize + b.offset2))

/-! ## The decode driver: `CommonReadJPEG` -/

/-- What libjpeg reports about the stream behind a `j_decompress_ptr`: the
sample precision found by `jpeg_read_header`, the output colour space and
dimensions valid after `jpeg_start_decompress` (`JDIMENSION` is unsigned), and
the decoded scanlines, row `k` holding `output_width * output_components`
samples. -/
structure Decompress where
  data_precision : Int
  out_color_space : J_COLOR_SPACE
  output_width : Nat
  output_height : Nat
  output_components : Nat
  scanline : Nat → List Byte

/-- External calls made by `CommonReadJPEG`, in the order made. -/
inductive REvent where
  | read_header : REvent
  | listObjGetElements : REvent
  | start_decompress : REvent
  | photoExpand (width height : Int) : REvent
  | alloc_sarray (samplesperrow numrows : Int) : REvent
  | read_scanlines (output_scanline : Nat) : REvent
  | photoPutBlock (block : Tk_PhotoImageBlock) (x y width height : Int) : REvent
  | finish_decompress : REvent
  | abort_decompress : REvent
  | appendResult (msg : String) : REvent

/-- Mutable part of a decode session: `cinfo->output_scanline`, the content of
the one-row sample array `buffer[0]`, and the trace of external calls. -/
structure RState where
  output_scanline : Nat
  buffer : List Byte
  trace : List REvent

/-- The memory a pointer into `buffer[0]` sees, `buffer[0]` sitting at
address 0. -/
def rowMem (row : List Byte) : Int → Byte :=
  fun a => if 0 ≤ a then row.getD a.toNat 0 else 0

/-- `jpeg_read_scanlines(cinfo, buffer, 1)`: the next scanline, if the image
has one left, is decoded into `buffer[0]` and `output_scanline` advances. -/
def jpeg_read_scanlines (cinfo : Decompress) (st : RState) : RState :=
  if st.output_scanline < cinfo.output_height then
    { output_scanline := st.output_scanline + 1,
      buffer := cinfo.scanline st.output_scanline,
      trace := st.trace ++ [REvent.read_scanlines st.output_scanline] }
  else
    { st with trace := st.trace ++ [REvent.read_scanlines st.output_scanline] }

/-- `sizeof(JSAMPLE)` and `sizeof(unsigned char)`: libjpeg built for 8-bit
samples declares `JSAMPLE` as `unsigned char`. -/
def sizeof_JSAMPLE : Nat := 1

/-- See `sizeof_JSAMPLE`. -/
def sizeof_unsigned_char : Nat := 1

/-- Lines 926-930: the local `outWidth`; the sum and the difference are `int`
arithmetic. -/
def outWidth (fileWidth width srcX : Int) : Int :=
  if wrapInt (srcX + width) > fileWidth then wrapInt (fileWidth - srcX) else width

/-- Lines 931-935: the local `outHeight`; the sum and the difference are `int`
arithmetic. -/
def outHeight (fileHeight height srcY : Int) : Int :=
  if wrapInt (srcY + height) > fileHeight then wrapInt (fileHeight - srcY) else height

/-- Lines 942-960: the `switch` on `cinfo->out_color_space`, giving
`block.pixelSize` and `block.offset[0..2]`; `none` is the `default` branch. -/
def blockLayout : J_COLOR_SPACE → Option (Int × Int × Int × Int)
  | J_COLOR_SPACE.JCS_GRAYSCALE => some (1, 0, 0, 0)
  | J_COLOR_SPACE.JCS_RGB => some (3, 0, 1, 2)
  | _ => none

/-- Lines 945-972: the block handed to `Tk_PhotoPutBlock`, describing the
current content of `buffer[0]`: `layout` is `(pixelSize, offset[0], offset[1],
offset[2])`, `pixelPtr = buffer[0] + srcX * pixelSize`. -/
def readBlock (layout : Int × Int × Int × Int) (fileWidth outW srcX : Int)
    (buffer : List Byte) : Tk_PhotoImageBlock :=
  { mem := rowMem buffer,
    pixelPtr := srcX * layout.1,
    width := outW,
    height := 1,
    pitch := layout.1 * fileWidth,
    pixelSize := layout.1,
    offset0 := layout.2.1, offset1 := layout.2.2.1, offset2 := layout.2.2.2, offset3 := 0 }

/-- Lines 977-983: `for (curY = 0; curY < stopY; curY++)`, entered with `n`
iterations to go (the loop runs for `curY = 0, ..., stopY - 1`).  Each
iteration reads one scanline and, from row `srcY` on, hands `block` to
`Tk_PhotoPutBlock` at `(destX, outY)`.  `outY++` is `int` arithmetic; `curY++`
stays below `stopY` and cannot overflow. -/
def scanLoop (cinfo : Decompress) (block : List Byte → Tk_PhotoImageBlock)
    (destX outW srcY : Int) : Nat → Int → Int → RState → RState
  | 0, _, _, st => st
  | n + 1, curY, outY, st =>
    let st1 := jpeg_read_scanlines cinfo st
    if curY ≥ srcY then
      scanLoop cinfo block destX outW srcY n (curY + 1) (wrapInt (outY + 1))
        { st1 with trace := st1.trace ++
            [REvent.photoPutBlock (block st1.buffer) destX outY outW 1] }
    else
      scanLoop cinfo block destX outW srcY n (curY + 1) outY st1

/-- What a call of `CommonReadJPEG` leaves behind: the completion code, the
interpreter result and the trace of external calls. -/
structure ReadResult where
  code : Int
  interp : String
  trace : List REvent

/-- `CommonReadJPEG(interp, cinfo, formatString, imageHandle, destX, destY,
width, height, srcX, srcY)`, lines 864-992.  `interp` is the interpreter result
on entry.  The statics `fast` and `grayscale` are assigned but never read here
(the option parser is compiled out with `#if 0`) and are left out.  The sums
`destX + outWidth`, `destY + outHeight` and `stopY = srcY + outHeight` are
`int` arithmetic. -/
def CommonReadJPEG (interp : String) (cinfo : Decompress) (formatString : FormatArg)
    (destX destY width height srcX srcY : Int) : ReadResult :=
  let tr0 := [REvent.read_header]
  if cinfo.data_precision ≠ 8 ∨ sizeof_JSAMPLE ≠ sizeof_unsigned_char then
    { code := TCL_ERROR, interp := interp ++ "Unsupported JPEG precision",
      trace := tr0 ++ [REvent.appendResult "Unsupported JPEG precision"] }
  else
    match formatString with
    | FormatArg.notList err =>
      { code := TCL_ERROR, interp := err,
        trace := tr0 ++ [REvent.listObjGetElements] }
    | _ =>
      let tr1 := tr0 ++ (if formatString ≠ FormatArg.null then [REvent.listObjGetElements] else [])
        ++ [REvent.start_decompress]
      let fileWidth : Int := cinfo.output_width
      let fileHeight : Int := cinfo.output_height
      let outW := outWidth fileWidth width srcX
      let outH := outHeight fileHeight height srcY
      if outW ≤ 0 ∨ outH ≤ 0 ∨ srcX ≥ fileWidth ∨ srcY ≥ fileHeight then
        { code := TCL_OK, interp := interp, trace := tr1 }
      else
        match blockLayout cinfo.out_color_space with
        | none =>
          { code := TCL_ERROR, interp := interp ++ "Unsupported JPEG color space",
            trace := tr1 ++ [REvent.appendResult "Unsupported JPEG color space"] }
        | some layout =>
          let block := readBlock layout fileWidth outW srcX
          let tr2 := tr1 ++ [REvent.photoExpand (wrapInt (destX + outW)) (wrapInt (destY + outH)),
            REvent.alloc_sarray ((cinfo.output_width : Int) * cinfo.output_components) 1]
          let stopY := wrapInt (srcY + outH)
          let st := scanLoop cinfo block destX outW srcY stopY.toNat 0 destY
            { output_scanline := 0, buffer := [], trace := tr2 }
          if st.output_scanline = cinfo.output_height then
            { code := TCL_OK, interp := interp,
              trace := st.trace ++ [REvent.finish_decompress] }
          else
            { code := TCL_OK, interp := interp,
              trace := st.trace ++ [REvent.abort_decompress] }

/-- The event is a `jpeg_read_scanlines` call. -/
def REvent.readsScanline : REvent → Bool
  | REvent.read_scanlines _ => true
  | _ => false

/-- The event is a call that expands or writes the destination raster
(`Tk_PhotoExpand`, `Tk_PhotoPutBlock`). -/
def REvent.touchesRaster : REvent → Bool
  | REvent.photoExpand _ _ => true
  | REvent.photoPutBlock _ _ _ _ _ => true
  | _ => false

/-- One `Tk_PhotoPutBlock(imageHandle, &block, x, y, width, height)` call: the
block is written to the raster rectangle `[x, x+width) x [y, y+height)`. -/
structure RasterWrite where
  block : Tk_PhotoImageBlock
  x : Int
  y : Int
  width : Int
  height : Int

/-- The event is a `Tk_PhotoPutBlock` call. -/
def REvent.put? : REvent → Option RasterWrite
  | REvent.photoPutBlock b x y w h => some { block := b, x := x, y := y, width := w, height := h }
  | _ => none

/-- The raster writes of a trace, in call order. -/
def rasterWrites (tr : List REvent) : List RasterWrite :=
  tr.filterMap REvent.put?

/-- The pixel in column `col` of decoded row `row`, in libjpeg's scanline
layout: one sample per pixel for a Grayscale image (standing for equal red,
green and blue), three contiguous samples otherwise. -/
def decodedPixel (cinfo : Decompress) (row col : Nat) : Byte × Byte × Byte :=
  match cinfo.out_color_space with
  | J_COLOR_SPACE.JCS_GRAYSCALE =>
    ((cinfo.scanline row).getD col 0, (cinfo.scanline row).getD col 0,
     (cinfo.scanline row).getD col 0)
  | _ =>
    ((cinfo.scanline row).getD (3 * col) 0, (cinfo.scanline row).getD (3 * col + 1) 0,
     (cinfo.scanline row).getD (3 * col + 2) 0)

/-- A 4x4 RGB test image with 8-bit samples; the sample at index `i` of row
`k` is `16*k + i`. -/
def rgb4x4 : Decompress :=
  { data_precision := 8, out_color_space := J_COLOR_SPACE.JCS_RGB,
    output_width := 4, output_height := 4, output_components := 3,
    scanline := fun k => (List.range 12).map (fun i => ((16 * k + i : Nat) : Byte)) }

/-- A 4x4 CMYK test image with 8-bit samples. -/
def cmyk4x4 : Decompress :=
  { data_precision := 8, out_color_space := J_COLOR_SPACE.JCS_CMYK,
    output_width := 4, output_height := 4, output_components := 4,
    scanline := fun k => (List.range 16).map (fun i => ((16 * k + i : Nat) : Byte)) }

/-- A 4x4 RGB test image whose header reports 12-bit samples. -/
def rgb4x4_12bit : Decompress :=
  { rgb4x4 with data_precision := 12 }

/-! ## The encode driver: `CommonWriteJPEG` -/

/-- External calls made by `CommonWriteJPEG`, in the order made.
`write_scanlines row` is `jpeg_write_scanlines(cinfo, rows, 1)` with `row` the
`image_width * input_components` samples found at `rows[0]`. -/
inductive WEvent where
  | set_defaults : WEvent
  | listObjGetElements : WEvent
  | set_colorspace (cs : J_COLOR_SPACE) : WEvent
  | start_compress : WEvent
  | alloc_sarray (samplesperrow numrows : Int) : WEvent
  | write_scanlines (row : List Byte) : WEvent
  | finish_compress : WEvent
  deriving DecidableEq, Repr

/-- The scanline an event pushes to the codec, if it pushes one. -/
def WEvent.scanline? : WEvent → Option (List Byte)
  | WEvent.write_scanlines row => some row
  | _ => none

/-- The scanlines a trace pushes to the codec, in call order. -/
def pushedScanlines (tr : List WEvent) : List (List Byte) :=
  tr.filterMap WEvent.scanline?

/-- The block describes a raster: its dimensions and the byte offsets of its
colour samples within a pixel are not negative. -/
def Tk_PhotoImageBlock.isRaster (b : Tk_PhotoImageBlock) : Prop :=
  0 ≤ b.width ∧ 0 ≤ b.height ∧ 0 ≤ b.offset0 ∧ 0 ≤ b.offset1 ∧ 0 ≤ b.offset2

/-- Lines 1157-1165: the local `alphaOffset`, relative to the red sample; 0
stands for "no alpha byte". -/
def alphaOffset (blockPtr : Tk_PhotoImageBlock) : Int :=
  let a0 := blockPtr.offset0
  let a1 := if a0 < blockPtr.offset2 then blockPtr.offset2 else a0
  let a2 := a1 + 1
  if a2 < blockPtr.pixelSize then a2 - blockPtr.offset0 else 0

/-- Lines 1239-1250: the three samples stored for the pixel at `pixelPtr`;
`0xd9` three times when the pixel has an alpha byte and that byte is 0. -/
def reformatPixel (mem : Int → Byte) (alphaOff greenOffset blueOffset : Int)
    (pixelPtr : Int) : List Byte :=
  if alphaOff ≠ 0 ∧ mem (pixelPtr + alphaOff) = 0 then [0xd9, 0xd9, 0xd9]
  else [mem pixelPtr, mem (pixelPtr + greenOffset), mem (pixelPtr + blueOffset)]

/-- Lines 1238-1252: `for (w = blockPtr->width; w > 0; w--)`, with `w`
iterations to go; the result is what the loop stores through `bufferPtr`. -/
def reformatRow (mem : Int → Byte) (alphaOff greenOffset blueOffset pixelSize : Int) :
    Nat → Int → List Byte
  | 0, _ => []
  | w + 1, pixelPtr =>
    reformatPixel mem alphaOff greenOffset blueOffset pixelPtr ++
      reformatRow mem alphaOff greenOffset blueOffset pixelSize w (pixelPtr + pixelSize)

/-- The `n` samples `jpeg_write_scanlines` reads at `ptr`. -/
def samplesAt (mem : Int → Byte) (ptr : Int) (n : Nat) : List Byte :=
  (List.range n).map (fun t : Nat => mem (ptr + (t : Int)))

/-- Lines 1225-1229: `for (h = blockPtr->height; h > 0; h--)` of the direct
path, with `h` iterations to go. -/
def directLoop (mem : Int → Byte) (samples : Nat) (pitch : Int) : Nat → Int → List WEvent
  | 0, _ => []
  | h + 1, pixLinePtr =>
    WEvent.write_scanlines (samplesAt mem pixLinePtr samples) ::
      directLoop mem samples pitch h (pixLinePtr + pitch)

/-- Lines 1235-1255: `for (h = blockPtr->height; h > 0; h--)` of the
reformatting path, with `h` iterations to go. -/
def reformatLoop (mem : Int → Byte) (alphaOff greenOffset blueOffset pixelSize : Int)
    (width : Nat) (pitch : Int) : Nat → Int → List WEvent
  | 0, _ => []
  | h + 1, pixLinePtr =>
    WEvent.write_scanlines
        (reformatRow mem alphaOff greenOffset blueOffset pixelSize width pixLinePtr) ::
      reformatLoop mem alphaOff greenOffset blueOffset pixelSize width pitch h
        (pixLinePtr + pitch)

/-- `jpeg_set_colorspace != NULL`: the function is linked into the handler. -/
def jpeg_set_colorspace_present : Bool := true

/-- What a call of `CommonWriteJPEG` leaves behind: the completion code, the
interpreter result, the parameters stored in `cinfo`, the static `grayscale`
flag, and the trace of external calls. -/
structure WriteResult where
  code : Int
  interp : String
  image_width : Int
  image_height : Int
  input_components : Int
  in_color_space : J_COLOR_SPACE
  grayscale : Int
  trace : List WEvent

/-- `CommonWriteJPEG(interp, cinfo, formatString, blockPtr)`, lines 1140-1261.
The statics `quality`, `smooth`, `optimize` and `progressive` are assigned but
never read (the option parser is compiled out with `#if 0`) and are left out.
`cinfo->image_width` and `cinfo->image_height` are `JDIMENSION`s: lines
1168-1169 convert the raster's `int` dimensions. -/
def CommonWriteJPEG (interp : String) (formatString : FormatArg)
    (blockPtr : Tk_PhotoImageBlock) : WriteResult :=
  let grayscale : Int := 0
  let alphaOff := alphaOffset blockPtr
  let image_width := JDIMENSION_of_int blockPtr.width
  let image_height := JDIMENSION_of_int blockPtr.height
  let input_components : Int := 3
  let tr0 := [WEvent.set_defaults]
  match formatString with
  | FormatArg.notList err =>
    { code := TCL_ERROR, interp := err, image_width := image_width,
      image_height := image_height, input_components := input_components,
      in_color_space := J_COLOR_SPACE.JCS_RGB, grayscale := grayscale,
      trace := tr0 ++ [WEvent.listObjGetElements] }
  | _ =>
    let tr1 := tr0 ++ (if formatString ≠ FormatArg.null then [WEvent.listObjGetElements] else [])
    let pixLinePtr := blockPtr.pixelPtr + blockPtr.offset0
    let greenOffset := blockPtr.offset1 - blockPtr.offset0
    let blueOffset := blockPtr.offset2 - blockPtr.offset0
    let tr2 := tr1 ++
      (if jpeg_set_colorspace_present = true ∧
          (grayscale ≠ 0 ∨ (greenOffset = 0 ∧ blueOffset = 0)) then
        [WEvent.set_colorspace J_COLOR_SPACE.JCS_GRAYSCALE] else []) ++
      [WEvent.start_compress]
    let tr3 :=
      if greenOffset = 1 ∧ blueOffset = 2 ∧ blockPtr.pixelSize = 3 then
        tr2 ++ directLoop blockPtr.mem (image_width * input_components).toNat blockPtr.pitch
          blockPtr.height.toNat pixLinePtr
      else
        tr2 ++ [WEvent.alloc_sarray (image_width * input_components) 1] ++
          reformatLoop blockPtr.mem alphaOff greenOffset blueOffset blockPtr.pixelSize
            blockPtr.width.toNat blockPtr.pitch blockPtr.height.toNat pixLinePtr
    { code := TCL_OK, interp := interp, image_width := image_width,
      image_height := image_height, input_components := input_components,
      in_color_space := J_COLOR_SPACE.JCS_RGB, grayscale := grayscale,
      trace := tr3 ++ [WEvent.finish_compress] }

/-- Lines 1239: the test `alphaOffset && !pixelPtr[alphaOffset]` for the pixel
in column `j` of row `k`: the pixel is treated as transparent. -/
def treatedTransparent (blockPtr : Tk_PhotoImageBlock) (k j : Int) : Prop :=
  alphaOffset blockPtr ≠ 0 ∧
    blockPtr.mem (blockPtr.pixelPtr + blockPtr.offset0 + k * blockPtr.pitch +
      j * blockPtr.pixelSize + alphaOffset blockPtr) = 0

/-- A 2x2 raster of 4-byte pixels `R G B A`, rows 12 bytes apart (4 bytes of
padding per row); the byte at address `a` is `a + 1`, except that the alpha
byte of pixel (row 0, column 1), at address 7, is 0. -/
def rgba2x2 : Tk_PhotoImageBlock :=
  { mem := fun a => if a = 7 then 0 else ((a + 1).toNat : Byte),
    pixelPtr := 0, width := 2, height := 2, pitch := 12, pixelSize := 4,
    offset0 := 0, offset1 := 1, offset2 := 2, offset3 := 3 }

/-- The trace asks the codec for the Grayscale colour space
(`jpeg_set_colorspace(cinfo, JCS_GRAYSCALE)`). -/
def requestsGrayscale (tr : List WEvent) : Prop :=
  WEvent.set_colorspace J_COLOR_SPACE.JCS_GRAYSCALE ∈ tr

/-- A 2x2 raster holding one sample per pixel: red, green and blue are read
from the same byte (all three offsets 0, `pixelSize` 1). -/
def gray2x2 : Tk_PhotoImageBlock :=
  { mem := fun a => ((a + 1).toNat : Byte),
    pixelPtr := 0, width := 2, height := 2, pitch := 2, pixelSize := 1,
    offset0 := 0, offset1 := 0, offset2 := 0, offset3 := 0 }

/-- A 2x2 raster of 3-byte pixels `R G B` in which every byte is 128, so that
red == green == blue for every pixel. -/
def allGray2x2 : Tk_PhotoImageBlock :=
  { mem := fun _ => 128,
    pixelPtr := 0, width := 2, height := 2, pitch := 6, pixelSize := 3,
    offset0 := 0, offset1 := 1, offset2 := 2, offset3 := 0 }

/-- The event is the `jpeg_finish_decompress` call. -/
def REvent.isFinish : REvent → Bool
  | REvent.finish_decompress => true
  | _ => false

/-- The event is the `jpeg_abort_decompress` call. -/
def REvent.isAbort : REvent → Bool
  | REvent.abort_decompress => true
  | _ => false

/-- The number of `jpeg_read_scanlines` calls in a trace. -/
def scanlineReads (tr : List REvent) : Nat :=
  tr.countP REvent.readsScanline

/-! ## The source managers: reading from a base64 string and from a channel -/

/-- `STRING_BUF_SIZE`, line 166. -/
def STRING_BUF_SIZE : Nat := 4096

/-- `JPEG_EOI` of `jpeglib.h`: the end-of-image marker code. -/
def JPEG_EOI : Byte := 0xd9

/-- Warning codes of `jerror.h` raised through `WARNMS`. -/
inductive JWarning where
  | JWRN_JPEG_EOF
  deriving DecidableEq, Repr

/-- A source manager (`struct str_source_mgr`, `struct chan_source_mgr`): the
bytes the transport (base64 handle or channel) has not yet delivered, the
`STRING_BUF_SIZE`-byte `buffer`, the public fields `next_input_byte` (an index
into `buffer`, `none` for `NULL`) and `bytes_in_buffer`, and the warnings
raised so far on the codec's error manager. -/
structure SourceMgr where
  transport : List Byte
  buffer : Nat → Byte
  next_input_byte : Option Nat
  bytes_in_buffer : Nat
  warnings : List JWarning

/-- The assignment `buffer[i] = b`. -/
def setByte (buffer : Nat → Byte) (i : Nat) (b : Byte) : Nat → Byte :=
  fun j => if j = i then b else buffer j

/-- Modelled from the spec: `ImgGetc(handle)` of the image library (declared in
`pTk/imgInt.h`, not part of this repository's sources).  It yields the next
decoded byte of the base64 stream, or `IMG_DONE` (`none`) at the end of the
data. -/
def ImgGetc (transport : List Byte) : Option Byte × List Byte :=
  match transport with
  | [] => (none, [])
  | c :: rest => (some c, rest)

/-- Modelled from the spec: `Tcl_Read(chan, buf, toRead)` of Tcl (not part of
this repository's sources).  It blocks until `toRead` bytes are read or the
channel is exhausted, stores them in `buf[0..]` and returns their number. -/
def Tcl_Read (transport : List Byte) (buf : Nat → Byte) (toRead : Nat) :
    Int × (Nat → Byte) × List Byte :=
  let got := min toRead transport.length
  ((got : Int), fun j => if j < got then transport.getD j 0 else buf j, transport.drop got)

/-- Lines 1299-1302: `while (nbytes < STRING_BUF_SIZE && (c = ImgGetc(...)) !=
IMG_DONE) buffer[nbytes++] = c;`.  The first argument counts the iterations
still possible before `nbytes` reaches `STRING_BUF_SIZE`. -/
def strFillLoop : Nat → Nat → (Nat → Byte) → List Byte → Nat × (Nat → Byte) × List Byte
  | 0, nbytes, buffer, transport => (nbytes, buffer, transport)
  | room + 1, nbytes, buffer, transport =>
    if nbytes < STRING_BUF_SIZE then
      match ImgGetc transport with
      | (none, t1) => (nbytes, buffer, t1)
      | (some c, t1) => strFillLoop room (nbytes + 1) (setByte buffer nbytes c) t1
    else (nbytes, buffer, transport)

/-- `str_fill_input_buffer(cinfo)`, lines 1290-1315; the first component is the
returned `boolean`. -/
def str_fill_input_buffer (src : SourceMgr) : Bool × SourceMgr :=
  let r := strFillLoop STRING_BUF_SIZE 0 src.buffer src.transport
  if r.1 ≤ 0 then
    (true, { transport := r.2.2,
             buffer := setByte (setByte r.2.1 0 0xff) 1 JPEG_EOI,
             next_input_byte := some 0,
             bytes_in_buffer := 2,
             warnings := src.warnings })
  else
    (true, { transport := r.2.2,
             buffer := r.2.1,
             next_input_byte := some 0,
             bytes_in_buffer := r.1,
             warnings := src.warnings })

/-- `chan_fill_input_buffer(cinfo)`, lines 1375-1396; the first component is
the returned `boolean`. -/
def chan_fill_input_buffer (src : SourceMgr) : Bool × SourceMgr :=
  let r := Tcl_Read src.transport src.buffer STRING_BUF_SIZE
  if r.1 ≤ 0 then
    (true, { transport := r.2.2,
             buffer := setByte (setByte r.2.1 0 0xff) 1 JPEG_EOI,
             next_input_byte := some 0,
             bytes_in_buffer := 2,
             warnings := src.warnings ++ [JWarning.JWRN_JPEG_EOF] })
  else
    (true, { transport := r.2.2,
             buffer := r.2.1,
             next_input_byte := some 0,
             bytes_in_buffer := r.1.toNat,
             warnings := src.warnings })

/-- Subtraction in `size_t` (64 bits): it wraps when the subtrahend exceeds the
minuend. -/
def size_t_sub (a b : Nat) : Nat :=
  if b ≤ a then a - b else a + 2 ^ 64 - b

/-- Lines 1325-1328 and 1406-1409: `while (num_bytes > (long)
src->pub.bytes_in_buffer) { num_bytes -= ...; fill_input_buffer(cinfo); }`.
The result is `num_bytes` and the source on leaving the loop, `none` if the
fuel runs out. -/
def skipLoop (fill : SourceMgr → Bool × SourceMgr) :
    Nat → Int → SourceMgr → Option (Int × SourceMgr)
  | 0, _, _ => none
  | fuel + 1, num_bytes, src =>
    if num_bytes > (src.bytes_in_buffer : Int) then
      skipLoop fill fuel (num_bytes - (src.bytes_in_buffer : Int)) (fill src).2
    else some (num_bytes, src)

/-- The body shared by `str_skip_input_data` and `chan_skip_input_data`. -/
def skip_input_data (fill : SourceMgr → Bool × SourceMgr) (src : SourceMgr)
    (num_bytes : Int) : Option SourceMgr :=
  if num_bytes > 0 then
    match skipLoop fill (num_bytes.toNat + 1) num_bytes src with
    | none => none
    | some (n, s) =>
      some { transport := s.transport,
             buffer := s.buffer,
             next_input_byte := s.next_input_byte.map (fun p => p + n.toNat),
             bytes_in_buffer := size_t_sub s.bytes_in_buffer n.toNat,
             warnings := s.warnings }
  else some src

/-- `str_skip_input_data(cinfo, num_bytes)`, lines 1317-1332. -/
def str_skip_input_data (src : SourceMgr) (num_bytes : Int) : Option SourceMgr :=
  skip_input_data str_fill_input_buffer src num_bytes

/-- `chan_skip_input_data(cinfo, num_bytes)`, lines 1398-1413. -/
def chan_skip_input_data (src : SourceMgr) (num_bytes : Int) : Option SourceMgr :=
  skip_input_data chan_fill_input_buffer src num_bytes

/-- Modelled from the spec: the codec's side of the pull interface (libjpeg,
not part of this repository's sources).  To take one byte it calls
`fill_input_buffer` when `bytes_in_buffer` is 0, then reads
`*next_input_byte++` and decrements `bytes_in_buffer`. -/
def inputByte (fill : SourceMgr → Bool × SourceMgr) (src : SourceMgr) : Byte × SourceMgr :=
  let s := if src.bytes_in_buffer = 0 then (fill src).2 else src
  (match s.next_input_byte with
   | some p => s.buffer p
   | none => 0,
   { transport := s.transport,
     buffer := s.buffer,
     next_input_byte := s.next_input_byte.map (fun p => p + 1),
     bytes_in_buffer := s.bytes_in_buffer - 1,
     warnings := s.warnings })

/-- The first `m` bytes the source delivers to the codec. -/
def deliver (fill : SourceMgr → Bool × SourceMgr) : Nat → SourceMgr → List Byte
  | 0, _ => []
  | m + 1, src => (inputByte fill src).1 :: deliver fill m (inputByte fill src).2

/-- The source after the codec has taken `k` bytes. -/
def advance (fill : SourceMgr → Bool × SourceMgr) : Nat → SourceMgr → SourceMgr
  | 0, src => src
  | k + 1, src => advance fill k (inputByte fill src).2

/-- A source as `jpeg_obj_src` and `jpeg_channel_src` leave it, over the given
transport: nothing buffered, `next_input_byte` `NULL`. -/
def freshSource (transport : List Byte) : SourceMgr :=
  { transport := transport, buffer := fun _ => 0, next_input_byte := none,
    bytes_in_buffer := 0, warnings := [] }

/-! ## The string destination manager -/

/-- What is handed to the base64 writer of the destination handle: a block of
bytes (`ImgWrite`) or the end sentinel (`ImgPutc(IMG_DONE, ...)`). -/
inductive DEvent where
  | write (bytes : List Byte) : DEvent
  | putc_done : DEvent
  deriving DecidableEq, Repr

/-- Error codes of `jerror.h` raised through `ERREXIT`. -/
inductive JError where
  | JERR_FILE_WRITE
  deriving DecidableEq, Repr

/-- The string destination manager (`struct str_destination_mgr`): what the
base64 handle has been given since it was initialised, the
`STRING_BUF_SIZE`-byte `buffer`, and the public fields `next_output_byte` (an
index into `buffer`) and `free_in_buffer`. -/
structure DestMgr where
  handle : List DEvent
  buffer : Nat → Byte
  next_output_byte : Nat
  free_in_buffer : Nat

/-- Modelled from the spec: `ImgWrite(handle, src, count)` of the image library
(declared in `pTk/imgInt.h`, not part of this repository's sources).  It hands
the `count` bytes at `src` to the base64 writer, whose buffer grows as needed,
and returns the number of bytes written. -/
def ImgWrite (handle : List DEvent) (src : Nat → Byte) (count : Nat) : Nat × List DEvent :=
  (count, handle ++ [DEvent.write ((List.range count).map src)])

/-- Modelled from the spec: `ImgPutc(IMG_DONE, handle)` of the image library
(not part of this repository's sources): the termination sentinel, which
flushes the partial group of the base64 encoder. -/
def ImgPutc_IMG_DONE (handle : List DEvent) : List DEvent :=
  handle ++ [DEvent.putc_done]

/-- `str_init_destination(cinfo)`, lines 1445-1457: the handle restarts at the
beginning of the dynamic string and the buffer is empty. -/
def str_init_destination (dest : DestMgr) : DestMgr :=
  { handle := [], buffer := dest.buffer, next_output_byte := 0,
    free_in_buffer := STRING_BUF_SIZE }

/-- `str_empty_output_buffer(cinfo)`, lines 1459-1473; `Except.error` is
`ERREXIT`, the first component of the result the returned `boolean`. -/
def str_empty_output_buffer (dest : DestMgr) : Except JError (Bool × DestMgr) :=
  let r := ImgWrite dest.handle dest.buffer STRING_BUF_SIZE
  if r.1 ≠ STRING_BUF_SIZE then Except.error JError.JERR_FILE_WRITE
  else
    Except.ok (true, { handle := r.2, buffer := dest.buffer, next_output_byte := 0,
                       free_in_buffer := STRING_BUF_SIZE })

/-- `str_term_destination(cinfo)`, lines 1475-1491; `Except.error` is
`ERREXIT`. -/
def str_term_destination (dest : DestMgr) : Except JError DestMgr :=
  let datacount : Int := (STRING_BUF_SIZE : Int) - (dest.free_in_buffer : Int)
  if datacount > 0 then
    let r := ImgWrite dest.handle dest.buffer datacount.toNat
    if (r.1 : Int) ≠ datacount then Except.error JError.JERR_FILE_WRITE
    else
      Except.ok { handle := ImgPutc_IMG_DONE r.2, buffer := dest.buffer,
                  next_output_byte := dest.next_output_byte,
                  free_in_buffer := dest.free_in_buffer }
  else
    Except.ok { handle := ImgPutc_IMG_DONE dest.handle, buffer := dest.buffer,
                next_output_byte := dest.next_output_byte,
                free_in_buffer := dest.free_in_buffer }

/-- Modelled from the spec: the codec's side of the push interface (libjpeg,
not part of this repository's sources).  To emit one byte it stores it through
`next_output_byte++`, decrements `free_in_buffer` and, when that reaches 0,
calls `empty_output_buffer`. -/
def emitByte (dest : DestMgr) (b : Byte) : Except JError DestMgr :=
  let d : DestMgr :=
    { handle := dest.handle,
      buffer := setByte dest.buffer dest.next_output_byte b,
      next_output_byte := dest.next_output_byte + 1,
      free_in_buffer := dest.free_in_buffer - 1 }
  if d.free_in_buffer = 0 then
    match str_empty_output_buffer d with
    | Except.error e => Except.error e
    | Except.ok r => Except.ok r.2
  else Except.ok d

/-- The codec emits the bytes of a list, in order. -/
def emitAll : DestMgr → List Byte → Except JError DestMgr
  | dest, [] => Except.ok dest
  | dest, b :: bs =>
    match emitByte dest b with
    | Except.error e => Except.error e
    | Except.ok d => emitAll d bs

/-- One compression session over the string destination:
`str_init_destination`, the bytes the codec emits, `str_term_destination`. -/
def stringDestSession (dest : DestMgr) (bytes : List Byte) : Except JError DestMgr :=
  match emitAll (str_init_destination dest) bytes with
  | Except.error e => Except.error e
  | Except.ok d => str_term_destination d

/-- The data blocks among the events handed to the base64 writer. -/
def DEvent.data : DEvent → List Byte
  | DEvent.write bytes => bytes
  | DEvent.putc_done => []

/-! ## The handlers around the common drivers -/

/-- External calls of a handler (`ChnReadJPEG`, `FileReadJPEG`, `ObjReadJPEG`,
`FileWriteJPEG`, `StringWriteJPEG`) in the order made: calls of the host
(`Tcl_TranslateFileName`, `fopen`, `Tcl_DStringFree`, `fclose`),
`jpeg_CreateDecompress` / `jpeg_CreateCompress`, the call that attaches the
source or destination manager, the calls of the common driver,
`Tcl_AppendResult`, `append_jpeg_message` and `jpeg_destroy_decompress` /
`jpeg_destroy_compress`. -/
inductive HEvent (α : Type) where
  | host (call : String) : HEvent α
  | create : HEvent α
  | attach (mgr : String) : HEvent α
  | common (e : α) : HEvent α
  | appendResult (msg : String) : HEvent α
  | append_jpeg_message (msg : String) : HEvent α
  | destroy : HEvent α

/-- The calls of `CommonReadJPEG` that enter libjpeg and may therefore end in
`error_exit`. -/
def REvent.entersCodec : REvent → Bool
  | REvent.read_header => true
  | REvent.start_decompress => true
  | REvent.alloc_sarray _ _ => true
  | REvent.read_scanlines _ => true
  | REvent.finish_decompress => true
  | REvent.abort_decompress => true
  | _ => false

/-- The calls of `CommonWriteJPEG` that enter libjpeg and may therefore end in
`error_exit`. -/
def WEvent.entersCodec : WEvent → Bool
  | WEvent.listObjGetElements => false
  | _ => true

/-- The calls of a handler that enter libjpeg and may end in `error_exit`.
The destroy call, which the error branch itself relies on, is not one. -/
def HEvent.entersCodec {α : Type} (p : α → Bool) : HEvent α → Bool
  | HEvent.create => true
  | HEvent.attach _ => true
  | HEvent.common e => p e
  | _ => false

/-- The text a call of `CommonReadJPEG` appends to the interpreter result. -/
def REvent.appended : REvent → Option String
  | REvent.appendResult msg => some msg
  | _ => none

/-- No call of `CommonWriteJPEG` appends to the interpreter result. -/
def WEvent.appended : WEvent → Option String
  | _ => none

/-- The interpreter result after the given calls, starting from `interp`. -/
def interpAt {α : Type} (appended : α → Option String) : String → List (HEvent α) → String
  | interp, [] => interp
  | interp, HEvent.common e :: es =>
    match appended e with
    | some msg => interpAt appended (interp ++ msg) es
    | none => interpAt appended interp es
  | interp, HEvent.appendResult msg :: es => interpAt appended (interp ++ msg) es
  | interp, HEvent.append_jpeg_message msg :: es => interpAt appended (interp ++ msg) es
  | interp, _ :: es => interpAt appended interp es

/-- The calls made up to and including codec call number `k` (counted from 0)
of a run, `none` if the run has no such call.  This is where execution stops
when that call ends in `error_exit`: `my_error_exit` jumps back to the
`setjmp` of the handler. -/
def cutAtFault {β : Type} (p : β → Bool) : List β → Nat → Option (List β)
  | [], _ => none
  | e :: es, k =>
    if p e then
      match k with
      | 0 => some [e]
      | k + 1 => (cutAtFault p es k).map (fun pre => e :: pre)
    else (cutAtFault p es k).map (fun pre => e :: pre)

/-- What a handler leaves behind: the completion code, the interpreter result
and the trace of external calls. -/
structure HandlerResult (α : Type) where
  code : Int
  interp : String
  trace : List (HEvent α)

/-- The part the five handlers share.  `before` are the calls made ahead of
`setjmp`, `common` the completion code, interpreter result and calls of the
common driver when no codec call fails, `closing` the calls after the destroy
call.  `fault = some (k, msg)` says that codec call number `k` ends in
`error_exit` with the formatted message `msg`: control returns to the `setjmp`
branch, which appends `errPrefix` and the message, destroys the session and
returns `TCL_ERROR`. -/
def runHandler {α : Type} (entersCodec : α → Bool) (appended : α → Option String)
    (errPrefix mgr : String) (before closing : List (HEvent α)) (interp : String)
    (common : Int × String × List α) (fault : Option (Nat × String)) : HandlerResult α :=
  let body := [HEvent.create, HEvent.attach mgr] ++ common.2.2.map HEvent.common
  let normal : HandlerResult α :=
    { code := common.1, interp := common.2.1,
      trace := before ++ body ++ [HEvent.destroy] ++ closing }
  match fault with
  | none => normal
  | some (k, msg) =>
    match cutAtFault (HEvent.entersCodec entersCodec) body k with
    | none => normal
    | some pre =>
      { code := TCL_ERROR,
        interp := interpAt appended interp pre ++ errPrefix ++ msg,
        trace := before ++ pre ++
          [HEvent.appendResult errPrefix, HEvent.append_jpeg_message msg, HEvent.destroy]
          ++ closing }

/-- `ChnReadJPEG`, lines 656-704. -/
def ChnReadJPEG (interp : String) (cinfo : Decompress) (formatString : FormatArg)
    (destX destY width height srcX srcY : Int) (fault : Option (Nat × String)) :
    HandlerResult REvent :=
  let r := CommonReadJPEG interp cinfo formatString destX destY width height srcX srcY
  runHandler REvent.entersCodec REvent.appended "couldn't read JPEG string: "
    "jpeg_channel_src" [] [] interp (r.code, r.interp, r.trace) fault

/-- `FileReadJPEG`, lines 726-775. -/
def FileReadJPEG (interp : String) (cinfo : Decompress) (fileName : String)
    (formatString : FormatArg) (destX destY width height srcX srcY : Int)
    (fault : Option (Nat × String)) : HandlerResult REvent :=
  let r := CommonReadJPEG interp cinfo formatString destX destY width height srcX srcY
  runHandler REvent.entersCodec REvent.appended
    ("couldn't read JPEG file \"" ++ fileName ++ "\": ")
    "jpeg_stdio_src" [] [] interp (r.code, r.interp, r.trace) fault

/-- `ObjReadJPEG`, lines 796-843. -/
def ObjReadJPEG (interp : String) (cinfo : Decompress) (formatString : FormatArg)
    (destX destY width height srcX srcY : Int) (fault : Option (Nat × String)) :
    HandlerResult REvent :=
  let r := CommonReadJPEG interp cinfo formatString destX destY width height srcX srcY
  runHandler REvent.entersCodec REvent.appended "couldn't read JPEG string: "
    "jpeg_obj_src" [] [] interp (r.code, r.interp, r.trace) fault

/-- `FileWriteJPEG`, lines 1012-1067.  `translated` is the outcome of
`Tcl_TranslateFileName` (the full name, or the error it leaves in the
interpreter result), `fopenError` the `Tcl_PosixError` text when `fopen`
fails. -/
def FileWriteJPEG (interp : String) (fileName : String) (translated : Except String String)
    (fopenError : Option String) (formatString : FormatArg) (blockPtr : Tk_PhotoImageBlock)
    (fault : Option (Nat × String)) : HandlerResult WEvent :=
  match translated with
  | Except.error err =>
    { code := TCL_ERROR, interp := err, trace := [HEvent.host "Tcl_TranslateFileName"] }
  | Except.ok _ =>
    match fopenError with
    | some posixError =>
      { code := TCL_ERROR, interp := interp ++ (fileName ++ ": " ++ posixError),
        trace := [HEvent.host "Tcl_TranslateFileName", HEvent.host "fopen",
          HEvent.appendResult (fileName ++ ": " ++ posixError),
          HEvent.host "Tcl_DStringFree"] }
    | none =>
      let r := CommonWriteJPEG interp formatString blockPtr
      runHandler WEvent.entersCodec WEvent.appended
        ("couldn't write JPEG file \"" ++ fileName ++ "\": ") "jpeg_stdio_dest"
        [HEvent.host "Tcl_TranslateFileName", HEvent.host "fopen",
          HEvent.host "Tcl_DStringFree"]
        [HEvent.host "fclose"] interp (r.code, r.interp, r.trace) fault

/-- `StringWriteJPEG`, lines 1087-1124. -/
def StringWriteJPEG (interp : String) (formatString : FormatArg)
    (blockPtr : Tk_PhotoImageBlock) (fault : Option (Nat × String)) : HandlerResult WEvent :=
  let r := CommonWriteJPEG interp formatString blockPtr
  runHandler WEvent.entersCodec WEvent.appended "couldn't write JPEG string: "
    "jpeg_string_dest" [] [] interp (r.code, r.interp, r.trace) fault

/-- The number of codec calls of a run. -/
def codecCalls {α : Type} (p : α → Bool) (tr : List (HEvent α)) : Nat :=
  tr.countP (HEvent.entersCodec p)

/-- What the `setjmp` branch of a handler does after codec call number `k` of
the fault-free run `normal` has ended in `error_exit` with message `msg`: the
trace `tr` of the faulted run consists of the calls of `normal` up to that
call, `Tcl_AppendResult` of the prefix, `append_jpeg_message`, the destroy
call, and the calls of `closing`; nothing else follows the signal. -/
def FaultHandled {α : Type} (p : α → Bool) (errPrefix msg : String)
    (closing : List (HEvent α)) (k : Nat) (normal tr : List (HEvent α)) : Prop :=
  ∃ pre rest last, normal = pre ++ rest ∧
    pre.getLast? = some last ∧ HEvent.entersCodec p last = true ∧
    codecCalls p pre = k + 1 ∧
    tr = pre ++ [HEvent.appendResult errPrefix, HEvent.append_jpeg_message msg,
      HEvent.destroy] ++ closing

/-- The call changes the interpreter result. -/
def HEvent.appendsText {α : Type} (appended : α → Option String) : HEvent α → Bool
  | HEvent.common e => (appended e).isSome
  | HEvent.appendResult _ => true
  | HEvent.append_jpeg_message _ => true
  | _ => false

/-! ## Further test data and observations of a `CommonMatchJPEG` run -/

/-- A 4x4 Grayscale test image with 8-bit samples; the sample in column `i` of
row `k` is `16*k + i`. -/
def gray4x4 : Decompress :=
  { data_precision := 8, out_color_space := J_COLOR_SPACE.JCS_GRAYSCALE,
    output_width := 4, output_height := 4, output_components := 1,
    scanline := fun k => (List.range 4).map (fun i => ((16 * k + i : Nat) : Byte)) }

/-- A 2x2 raster of 4-byte pixels `A R G B` (alpha stored first), rows 8 bytes
apart; the byte at address `a` is `a + 1`, except that the alpha byte of pixel
(row 0, column 1), at address 4, is 0. -/
def argb2x2 : Tk_PhotoImageBlock :=
  { mem := fun a => if a = 4 then 0 else ((a + 1).toNat : Byte),
    pixelPtr := 0, width := 2, height := 2, pitch := 8, pixelSize := 4,
    offset0 := 1, offset1 := 2, offset2 := 3, offset3 := 0 }

/-- Line 619, `buf[0] = buf[i-1]`: the index `i - 1` at which `buf` is read,
when the segment skip that starts in state `st` (lines 608-619) gets that
far; `none` when it returns 0 before. -/
def lastByteIndex (st : MState) : Option Int :=
  let r := ImgRead st 2
  if r.1 ≠ 2 then none
  else
    let i : Int := ((((r.2.buf 0).val <<< 8) + (r.2.buf 1).val : Nat) : Int) - 1
    match chunkLoop (i.toNat + 1) i r.2 with
    | none => none
    | some (i, st1) =>
      if i < 1 then none
      else
        let r2 := ImgRead st1 i.toNat
        if (r2.1 : Int) ≠ i then none
        else some (i - 1)

/-- The state `st` with the bytes the handle has yet to deliver replaced by
`h`. -/
def MState.withHandle (st : MState) (h : List Byte) : MState :=
  { handle := h, buf := st.buf, reads := st.reads }

/-- The state of `CommonMatchJPEG` at the `break` of the marker loop (lines
605-607), when the run gets there: `buf[0]` holds the start-of-frame type byte
and the handle stands at the 7 bytes read next (segment length, sample
precision, height, width); `none` when the call returns 0 before. -/
def sofState (handle : List Byte) (buf0 : Nat → Byte) : Option MState :=
  let r := ImgRead (initState handle buf0) 3
  if r.1 ≠ 3 ∨ strncmp_ne r.2.buf soiSignature 0 3 then none
  else
    let st : MState := r.2.setBuf0 (r.2.buf 2)
    match markerLoop (st.handle.length + 1) st with
    | Loop.done st1 => some st1
    | _ => none

/-- The number of bytes `CommonMatchJPEG` has consumed when it breaks out of
the marker loop: the offset in the stream of the 7 bytes read next, of which
the third is the sample precision. -/
def sofOffset (handle : List Byte) (buf0 : Nat → Byte) : Option Nat :=
  (sofState handle buf0).map (fun st1 => handle.length - st1.handle.length)

/-! # Proofs -/

/-! ### Basic facts about `ImgRead` -/

theorem ImgRead_fst (st : MState) (n : Nat) :
    (ImgRead st n).1 = min n st.handle.length := rfl

theorem ImgRead_handle (st : MState) (n : Nat) :
    (ImgRead st n).2.handle = st.handle.drop (min n st.handle.length) := rfl

theorem ImgRead_reads (st : MState) (n : Nat) :
    (ImgRead st n).2.reads = st.reads ++ [(n, min n st.handle.length)] := rfl

theorem ImgRead_buf (st : MState) (n j : Nat) :
    (ImgRead st n).2.buf j =
      if j < min n st.handle.length then st.handle.getD j 0 else st.buf j := rfl

theorem ImgRead_length (st : MState) (n : Nat) :
    (ImgRead st n).2.handle.length = st.handle.length - min n st.handle.length := by
  simp [ImgRead_handle]

theorem Reach.trans {a b c : MState} (h1 : Reach a b) (h2 : Reach b c) : Reach a c := by
  induction h2 with
  | refl => exact h1
  | read st1 n hn1 hn2 _ ih => exact Reach.read _ _ n hn1 hn2 ih
  | setBuf st1 f _ ih => exact Reach.setBuf _ _ f ih

theorem Reach.length_le {a b : MState} (h : Reach a b) :
    b.handle.length ≤ a.handle.length := by
  induction h with
  | refl => exact le_rfl
  | read st1 n _ _ _ ih => rw [ImgRead_length]; omega
  | setBuf st1 f _ ih => exact ih

/-! ### The loops only read and assign to `buf` -/

theorem padLoop_reach (fuel : Nat) (st st1 : MState)
    (h : (padLoop fuel st).final = some st1) : Reach st st1 := by
  induction fuel generalizing st with
  | zero => simp [padLoop, Loop.final] at h
  | succ fuel ih =>
    unfold padLoop at h
    dsimp only at h
    split_ifs at h with hb hr
    · simp only [Loop.final, Option.some.injEq] at h
      subst h
      exact Reach.read _ _ 1 (by omega) (by omega) (Reach.refl _)
    · exact Reach.trans (Reach.read _ _ 1 (by omega) (by omega) (Reach.refl _)) (ih _ h)
    · simp only [Loop.final, Option.some.injEq] at h
      subst h
      exact Reach.refl _

theorem junkLoop_reach (fuel : Nat) (st st1 : MState)
    (h : (junkLoop fuel st).final = some st1) : Reach st st1 := by
  induction fuel generalizing st with
  | zero => simp [junkLoop, Loop.final] at h
  | succ fuel ih =>
    unfold junkLoop at h
    dsimp only at h
    split_ifs at h with hb hr
    · simp only [Loop.final, Option.some.injEq] at h
      subst h
      exact Reach.read _ _ 1 (by omega) (by omega) (Reach.refl _)
    · exact Reach.trans (Reach.read _ _ 1 (by omega) (by omega) (Reach.refl _)) (ih _ h)
    · simp only [Loop.final, Option.some.injEq] at h
      subst h
      exact Reach.refl _

theorem chunkLoop_reach (fuel : Nat) (i i1 : Int) (st st1 : MState)
    (h : chunkLoop fuel i st = some (i1, st1)) :
    Reach st st1 ∧ i1 ≤ 256 ∧ i1 ≤ i ∧ (i < 1 → i1 < 1) ∧ (1 ≤ i → 1 ≤ i1) := by
  induction fuel generalizing i st with
  | zero => simp [chunkLoop] at h
  | succ fuel ih =>
    unfold chunkLoop at h
    by_cases hi : i > 256
    · simp only [hi, if_true] at h
      obtain ⟨hr, h256, hle, _, hpos⟩ := ih _ _ h
      refine ⟨Reach.trans (Reach.read _ _ 256 (by omega) (by omega) (Reach.refl _)) hr,
        h256, by omega, by omega, fun _ => hpos (by omega)⟩
    · simp only [hi, if_false, Option.some.injEq, Prod.mk.injEq] at h
      obtain ⟨h1, h2⟩ := h
      subst h1; subst h2
      exact ⟨Reach.refl _, by omega, le_rfl, fun h => h, fun h => h⟩

theorem chunkLoop_total (fuel : Nat) (i : Int) (st : MState) (h : i.toNat < fuel) :
    chunkLoop fuel i st ≠ none := by
  induction fuel generalizing i st with
  | zero => omega
  | succ fuel ih =>
    unfold chunkLoop
    split_ifs with hi
    · exact ih _ _ (by omega)
    · simp

theorem skipSegment_cases (st : MState) :
    (∃ s, skipSegment st = Loop.return0 s ∧ Reach st s) ∨
    (∃ s, skipSegment st = Loop.done s ∧ Reach (ImgRead st 2).2 s ∧
      2 ≤ st.handle.length) := by
  unfold skipSegment
  dsimp only
  have hread2 : Reach st (ImgRead st 2).2 :=
    Reach.read _ _ 2 (by omega) (by omega) (Reach.refl _)
  split_ifs with h2
  · exact Or.inl ⟨_, rfl, hread2⟩
  · have hlen : 2 ≤ st.handle.length := by
      rw [ImgRead_fst] at h2
      omega
    split
    · rename_i hc
      exact absurd hc (chunkLoop_total _ _ _ (by omega))
    · rename_i i1 s1 hc
      obtain ⟨hr, h256, _, _, _⟩ := chunkLoop_reach _ _ _ _ _ hc
      split_ifs with hi1 hrd
      · exact Or.inl ⟨_, rfl, Reach.trans hread2 hr⟩
      · exact Or.inl ⟨_, rfl, Reach.trans hread2
          (Reach.read _ _ _ (by omega) (by omega) hr)⟩
      · exact Or.inr ⟨_, rfl,
          Reach.setBuf _ _ _ (Reach.read _ _ _ (by omega) (by omega) hr), hlen⟩

theorem skipSegment_reach (st st1 : MState)
    (h : (skipSegment st).final = some st1) : Reach st st1 := by
  rcases skipSegment_cases st with ⟨s, hs, hr⟩ | ⟨s, hs, hr, _⟩
  · rw [hs] at h
    simp only [Loop.final, Option.some.injEq] at h
    subst h
    exact hr
  · rw [hs] at h
    simp only [Loop.final, Option.some.injEq] at h
    subst h
    exact Reach.trans (Reach.read _ _ 2 (by omega) (by omega) (Reach.refl _)) hr

theorem skipSegment_done_length (st st1 : MState) (h : skipSegment st = Loop.done st1) :
    st1.handle.length + 2 ≤ st.handle.length := by
  rcases skipSegment_cases st with ⟨s, hs, _⟩ | ⟨s, hs, hr, hlen⟩
  · rw [hs] at h
    cases h
  · rw [hs] at h
    cases h
    have := hr.length_le
    rw [ImgRead_length] at this
    omega

theorem padLoop_total (fuel : Nat) (st : MState) (h : st.handle.length < fuel) :
    padLoop fuel st ≠ Loop.diverge := by
  induction fuel generalizing st with
  | zero => omega
  | succ fuel ih =>
    unfold padLoop
    dsimp only
    split_ifs with hb hr
    · simp
    · apply ih
      rw [ImgRead_fst] at hr
      rw [ImgRead_length]
      omega
    · simp

theorem junkLoop_total (fuel : Nat) (st : MState) (h : st.handle.length < fuel) :
    junkLoop fuel st ≠ Loop.diverge := by
  induction fuel generalizing st with
  | zero => omega
  | succ fuel ih =>
    unfold junkLoop
    dsimp only
    split_ifs with hb hr
    · simp
    · apply ih
      rw [ImgRead_fst] at hr
      rw [ImgRead_length]
      omega
    · simp

theorem markerLoop_reach (fuel : Nat) (st st1 : MState)
    (h : (markerLoop fuel st).final = some st1) : Reach st st1 := by
  induction fuel generalizing st with
  | zero => simp [markerLoop, Loop.final] at h
  | succ fuel ih =>
    unfold markerLoop at h
    split at h
    · simp [Loop.final] at h
    · rename_i s hp
      simp only [Loop.final, Option.some.injEq] at h
      subst h
      exact padLoop_reach _ _ _ (by rw [hp]; rfl)
    · rename_i s1 hp
      have hr1 : Reach st s1 := padLoop_reach _ _ _ (by rw [hp]; rfl)
      split_ifs at h with hsof
      · simp only [Loop.final, Option.some.injEq] at h
        subst h
        exact hr1
      · split at h
        · simp [Loop.final] at h
        · rename_i s hs
          simp only [Loop.final, Option.some.injEq] at h
          subst h
          exact Reach.trans hr1 (skipSegment_reach _ _ (by rw [hs]; rfl))
        · rename_i s2 hs
          have hr2 : Reach st s2 :=
            Reach.trans hr1 (skipSegment_reach _ _ (by rw [hs]; rfl))
          split at h
          · simp [Loop.final] at h
          · rename_i s hj
            simp only [Loop.final, Option.some.injEq] at h
            subst h
            exact Reach.trans hr2 (junkLoop_reach _ _ _ (by rw [hj]; rfl))
          · rename_i s3 hj
            exact Reach.trans (Reach.trans hr2 (junkLoop_reach _ _ _ (by rw [hj]; rfl)))
              (ih _ h)

theorem markerLoop_total (fuel : Nat) (st : MState) (h : st.handle.length < fuel) :
    markerLoop fuel st ≠ Loop.diverge := by
  induction fuel generalizing st with
  | zero => omega
  | succ fuel ih =>
    unfold markerLoop
    split
    · rename_i hp
      exact absurd hp (padLoop_total _ _ (by omega))
    · simp
    · rename_i s1 hp
      have hr1 : Reach st s1 := padLoop_reach _ _ _ (by rw [hp]; rfl)
      split_ifs with hsof
      · simp
      · split
        · rename_i hs
          rcases skipSegment_cases s1 with ⟨s, hs1, _⟩ | ⟨s, hs1, _, _⟩ <;>
            rw [hs1] at hs <;> cases hs
        · simp
        · rename_i s2 hs
          have hl2 := skipSegment_done_length _ _ hs
          split
          · rename_i hj
            exact absurd hj (junkLoop_total _ _ (by omega))
          · simp
          · rename_i s3 hj
            have hr3 : Reach s2 s3 := junkLoop_reach _ _ _ (by rw [hj]; rfl)
            apply ih
            have := hr1.length_le
            have := hr3.length_le
            omega

theorem markerLoop_done_sof (fuel : Nat) (st st1 : MState)
    (h : markerLoop fuel st = Loop.done st1) :
    st1.buf 0 = 0xc0 ∨ st1.buf 0 = 0xc1 ∨ st1.buf 0 = 0xc2 := by
  induction fuel generalizing st with
  | zero => simp [markerLoop] at h
  | succ fuel ih =>
    unfold markerLoop at h
    split at h
    · cases h
    · cases h
    · split_ifs at h with hsof
      · cases h
        exact hsof
      · split at h
        · cases h
        · cases h
        · split at h
          · cases h
          · cases h
          · exact ih _ h

/-- A read that came back short has exhausted the stream, and the stream
stays exhausted. -/
theorem Reach.short_exhausted {a b : MState} (h : Reach a b)
    (ha : ShortRead a → a.handle = []) : ShortRead b → b.handle = [] := by
  induction h with
  | refl => exact ha
  | read st1 n _ _ _ ih =>
    rintro ⟨e, he, hlt⟩
    rw [ImgRead_reads, List.mem_append, List.mem_singleton] at he
    rw [ImgRead_handle]
    rcases he with he | he
    · rw [ih ⟨e, he, hlt⟩]
      simp
    · subst he
      simp only at hlt
      apply List.drop_of_length_le
      omega
  | setBuf st1 f _ ih => exact ih

/-- Every path through `CommonMatchJPEG`: the call returns, and either it
returns 0 storing nothing, or it returns 1 after the marker loop stopped at a
start-of-frame marker and the 7-byte read that follows came back complete. -/
theorem CommonMatchJPEG_cases (handle : List Byte) (buf0 : Nat → Byte) :
    ∃ r, CommonMatchJPEG handle buf0 = some r ∧ Reach (initState handle buf0) r.final ∧
      ((r.ret = 0 ∧ r.width = none ∧ r.height = none) ∨
       (r.ret = 1 ∧ ∃ st1, Reach (initState handle buf0) st1 ∧
          (st1.buf 0 = 0xc0 ∨ st1.buf 0 = 0xc1 ∨ st1.buf 0 = 0xc2) ∧
          7 ≤ st1.handle.length ∧ r.final = (ImgRead st1 7).2 ∧
          r.width = some ((((r.final.buf 5).val <<< 8) + (r.final.buf 6).val : Nat) : Int) ∧
          r.height = some ((((r.final.buf 3).val <<< 8) + (r.final.buf 4).val : Nat) : Int))) := by
  unfold CommonMatchJPEG
  dsimp only
  have hread3 : Reach (initState handle buf0) (ImgRead (initState handle buf0) 3).2 :=
    Reach.read _ _ 3 (by omega) (by omega) (Reach.refl _)
  split_ifs with h3
  · exact ⟨_, rfl, hread3, Or.inl ⟨rfl, rfl, rfl⟩⟩
  · have hst : Reach (initState handle buf0)
        ((ImgRead (initState handle buf0) 3).2.setBuf0
          ((ImgRead (initState handle buf0) 3).2.buf 2)) :=
      Reach.setBuf _ _ _ hread3
    split
    · rename_i hm
      exact absurd hm (markerLoop_total _ _ (Nat.lt_succ_self _))
    · rename_i s hm
      exact ⟨_, rfl, Reach.trans hst (markerLoop_reach _ _ _ (by rw [hm]; rfl)),
        Or.inl ⟨rfl, rfl, rfl⟩⟩
    · rename_i st1 hm
      have hr1 : Reach (initState handle buf0) st1 :=
        Reach.trans hst (markerLoop_reach _ _ _ (by rw [hm]; rfl))
      have hr7 : Reach (initState handle buf0) (ImgRead st1 7).2 :=
        Reach.read _ _ 7 (by omega) (by omega) hr1
      split_ifs with h7
      · exact ⟨_, rfl, hr7, Or.inl ⟨rfl, rfl, rfl⟩⟩
      · refine ⟨_, rfl, hr7, Or.inr ⟨rfl, st1, hr1, ?_, ?_, rfl, rfl, rfl⟩⟩
        · exact markerLoop_done_sof _ _ _ hm
        · rw [ImgRead_fst] at h7
          omega

/-! ### Exact behaviour of the loops on well-formed input -/

theorem ImgRead_full (st : MState) (n : Nat) (h : n ≤ st.handle.length) :
    (ImgRead st n).1 = n ∧ (ImgRead st n).2.handle = st.handle.drop n ∧
    ∀ j, j < n → (ImgRead st n).2.buf j = st.handle.getD j 0 := by
  have hmin : min n st.handle.length = n := Nat.min_eq_left h
  refine ⟨by rw [ImgRead_fst, hmin], by rw [ImgRead_handle, hmin], ?_⟩
  intro j hj
  rw [ImgRead_buf, hmin, if_pos hj]

theorem padLoop_marker (fuel : Nat) (st : MState) (t : Byte) (rest : List Byte)
    (hb : st.buf 0 = 0xff) (hh : st.handle = t :: rest) (ht : t ≠ 0xff) (hf : 2 ≤ fuel) :
    ∃ st1, padLoop fuel st = Loop.done st1 ∧ st1.handle = rest ∧ st1.buf 0 = t := by
  obtain ⟨f, rfl⟩ : ∃ f, fuel = f + 2 := ⟨fuel - 2, by omega⟩
  obtain ⟨h1, h2, h3⟩ := ImgRead_full st 1 (by rw [hh]; simp)
  have hb1 : (ImgRead st 1).2.buf 0 = t := by
    rw [h3 0 (by omega), hh]
    rfl
  refine ⟨(ImgRead st 1).2, ?_, by rw [h2, hh]; rfl, hb1⟩
  unfold padLoop
  dsimp only
  rw [if_pos hb, if_neg (by rw [h1]; simp)]
  unfold padLoop
  rw [if_neg (by rw [hb1]; exact ht)]

theorem junkLoop_marker (fuel : Nat) (st : MState) (hb : st.buf 0 = 0xff) (hf : 1 ≤ fuel) :
    junkLoop fuel st = Loop.done st := by
  obtain ⟨f, rfl⟩ : ∃ f, fuel = f + 1 := ⟨fuel - 1, by omega⟩
  unfold junkLoop
  rw [if_neg (by simp [hb])]

theorem chunkLoop_exact (fuel : Nat) (i : Int) (st : MState)
    (hf : i.toNat < fuel) (h1 : 1 ≤ i) (hlen : i ≤ st.handle.length) :
    ∃ i1 st1, chunkLoop fuel i st = some (i1, st1) ∧ 1 ≤ i1 ∧ i1 ≤ 256 ∧ i1 ≤ i ∧
      st1.handle = st.handle.drop (i - i1).toNat := by
  induction fuel generalizing i st with
  | zero => omega
  | succ fuel ih =>
    unfold chunkLoop
    split_ifs with hi
    · obtain ⟨_, hh, _⟩ := ImgRead_full st 256 (by omega)
      obtain ⟨i1, st1, hc, ha, hb, hc1, hd⟩ := ih (i - 256) (ImgRead st 256).2 (by omega)
        (by omega) (by rw [hh, List.length_drop]; omega)
      refine ⟨i1, st1, hc, ha, hb, by omega, ?_⟩
      rw [hd, hh, List.drop_drop]
      congr 1
      omega
    · exact ⟨i, st, rfl, h1, by omega, le_rfl, by simp⟩

theorem skipSegment_exact (st : MState) (hi lo : Byte) (p q : List Byte)
    (hh : st.handle = hi :: lo :: (p ++ q))
    (hL : p.length + 1 = 256 * hi.val + lo.val) (hp : 1 ≤ p.length) :
    ∃ st2, skipSegment st = Loop.done st2 ∧ st2.handle = q ∧
      st2.buf 0 = p.getD (p.length - 1) 0 := by
  obtain ⟨r1, r2, r3⟩ := ImgRead_full st 2 (by rw [hh]; simp)
  have hb0 : (ImgRead st 2).2.buf 0 = hi := by rw [r3 0 (by omega), hh]; rfl
  have hb1 : (ImgRead st 2).2.buf 1 = lo := by rw [r3 1 (by omega), hh]; rfl
  have hh2 : (ImgRead st 2).2.handle = p ++ q := by rw [r2, hh]; rfl
  have hi_eq : ((((hi.val <<< 8) + lo.val : Nat) : Int) - 1) = (p.length : Int) := by
    rw [Nat.shiftLeft_eq]
    push_cast
    omega
  obtain ⟨i1, st1, hc, ha, hb, hc1, hd⟩ := chunkLoop_exact ((p.length : Int).toNat + 1)
    (p.length : Int) (ImgRead st 2).2 (by omega) (by omega)
    (by rw [hh2, List.length_append]; push_cast; omega)
  have hst1len : st1.handle.length = (i1.toNat) + q.length := by
    rw [hd, hh2, List.length_drop, List.length_append]
    omega
  obtain ⟨f1, f2, f3⟩ := ImgRead_full st1 i1.toNat (by omega)
  refine ⟨(ImgRead st1 i1.toNat).2.setBuf0 ((ImgRead st1 i1.toNat).2.buf (i1 - 1).toNat),
    ?_, ?_, ?_⟩
  · unfold skipSegment
    dsimp only
    rw [if_neg (by rw [r1]; simp), hb0, hb1, hi_eq, hc]
    dsimp only
    rw [if_neg (by omega), if_neg (by rw [f1]; simp; omega)]
  · show (ImgRead st1 i1.toNat).2.handle = q
    rw [f2, hd, hh2, List.drop_drop]
    have : (p.length - i1 : Int).toNat + i1.toNat = p.length := by omega
    rw [this, List.drop_left]
  · show (if (0 : Nat) = 0 then (ImgRead st1 i1.toNat).2.buf (i1 - 1).toNat
      else (ImgRead st1 i1.toNat).2.buf 0) = _
    rw [if_pos rfl, f3 _ (by omega), hd, hh2]
    simp only [List.getD_eq_getElem?_getD, List.getElem?_drop]
    have : (p.length - i1 : Int).toNat + (i1 - 1).toNat = p.length - 1 := by omega
    rw [this, List.getElem?_append_left (by omega)]

theorem afterFF_eq (s : Byte) (frame : List Byte) (segs : List Segment) :
    (segs.map Segment.bytes).flatten ++ ([0xff, s] ++ frame) = 0xff :: afterFF s frame segs := by
  induction segs with
  | nil => rfl
  | cons g gs ih =>
    simp only [List.map_cons, List.flatten_cons, List.append_assoc, ih, Segment.bytes, afterFF]
    simp

theorem markerLoop_segments (s : Byte) (frame : List Byte)
    (hs : s = 0xc0 ∨ s = 0xc1 ∨ s = 0xc2) (segs : List Segment)
    (hsegs : ∀ g ∈ segs, g.wellFormed) (fuel : Nat) (st : MState)
    (hb : st.buf 0 = 0xff) (hh : st.handle = afterFF s frame segs)
    (hf : segs.length < fuel) :
    ∃ st1, markerLoop fuel st = Loop.done st1 ∧ st1.handle = frame := by
  induction segs generalizing fuel st with
  | nil =>
    obtain ⟨f, rfl⟩ : ∃ f, fuel = f + 1 := ⟨fuel - 1, by simp at hf; omega⟩
    have hsff : s ≠ 0xff := by rcases hs with h | h | h <;> subst h <;> decide
    obtain ⟨st1, hp, hh1, hb1⟩ := padLoop_marker (st.handle.length + 1) st s frame hb hh hsff
      (by rw [hh]; simp [afterFF])
    refine ⟨st1, ?_, hh1⟩
    unfold markerLoop
    rw [hp]
    dsimp only
    rw [if_pos (by rw [hb1]; exact hs)]
  | cons g gs ih =>
    obtain ⟨f, rfl⟩ : ∃ f, fuel = f + 1 := ⟨fuel - 1, by simp at hf; omega⟩
    obtain ⟨ht1, ht2, ht3, ht4, hL2, hpl⟩ := hsegs g (List.mem_cons_self _ _)
    obtain ⟨st1, hp, hh1, hb1⟩ := padLoop_marker (st.handle.length + 1) st g.t _ hb hh ht1
      (by rw [hh]; simp [afterFF])
    unfold Segment.L at hL2 hpl
    obtain ⟨st2, hsk, hh2, hb2⟩ := skipSegment_exact st1 g.Lhi g.Llo (g.payload ++ [0xff])
      (afterFF s frame gs) hh1 (by rw [List.length_append, hpl]; simp; omega) (by simp)
    have hb2ff : st2.buf 0 = 0xff := by
      rw [hb2]
      simp
    obtain ⟨st3, hm, hh3⟩ := ih (fun g hg => hsegs g (List.mem_cons_of_mem _ hg)) f st2
      hb2ff hh2 (by simp at hf; omega)
    refine ⟨st3, ?_, hh3⟩
    unfold markerLoop
    rw [hp]
    dsimp only
    rw [if_neg (by rw [hb1]; simp [ht2, ht3, ht4]), hsk]
    dsimp only
    rw [junkLoop_marker _ _ hb2ff (by omega)]
    exact hm

theorem afterFF_length (s : Byte) (frame : List Byte) (segs : List Segment) :
    segs.length < (afterFF s frame segs).length := by
  induction segs with
  | nil => simp [afterFF]
  | cons g gs ih =>
    simp only [afterFF, List.length_cons, List.length_append]
    omega

/-! ### Claims about `CommonMatchJPEG` -/

/-- C1: on every stream `FF D8`, well-formed segments, `FF s` with `s` a
start-of-frame type, then at least seven bytes `b0..b6`, `CommonMatchJPEG`
returns 1 and stores height `256*b3 + b4` (the first field on the wire) and
width `256*b5 + b6` (the second), both within 0..65535. -/
theorem C1_match_reports_height_then_width (segs : List Segment) (s : Byte)
    (b0 b1 b2 b3 b4 b5 b6 : Byte) (rest : List Byte) (buf0 : Nat → Byte)
    (hsegs : ∀ g ∈ segs, g.wellFormed) (hs : s = 0xc0 ∨ s = 0xc1 ∨ s = 0xc2) :
    ∃ r, CommonMatchJPEG (jpegStream segs s ([b0, b1, b2, b3, b4, b5, b6] ++ rest)) buf0 = some r ∧
      r.ret = 1 ∧
      r.height = some ((256 * b3.val + b4.val : Nat) : Int) ∧
      r.width = some ((256 * b5.val + b6.val : Nat) : Int) ∧
      256 * b3.val + b4.val ≤ 65535 ∧ 256 * b5.val + b6.val ≤ 65535 := by
  set frame := [b0, b1, b2, b3, b4, b5, b6] ++ rest with hframe
  have hstream : jpegStream segs s frame = 0xff :: 0xd8 :: 0xff :: afterFF s frame segs := by
    unfold jpegStream
    rw [afterFF_eq]
    rfl
  obtain ⟨r1, r2, r3⟩ := ImgRead_full (initState (jpegStream segs s frame) buf0) 3
    (by rw [hstream]; simp [initState])
  have hinit : (initState (jpegStream segs s frame) buf0).handle =
      0xff :: 0xd8 :: 0xff :: afterFF s frame segs := hstream
  have hb0 : (ImgRead (initState (jpegStream segs s frame) buf0) 3).2.buf 0 = 0xff := by
    rw [r3 0 (by omega), hinit]; rfl
  have hb1 : (ImgRead (initState (jpegStream segs s frame) buf0) 3).2.buf 1 = 0xd8 := by
    rw [r3 1 (by omega), hinit]; rfl
  have hb2 : (ImgRead (initState (jpegStream segs s frame) buf0) 3).2.buf 2 = 0xff := by
    rw [r3 2 (by omega), hinit]; rfl
  have hcmp : strncmp_ne (ImgRead (initState (jpegStream segs s frame) buf0) 3).2.buf
      soiSignature 0 3 = false := by
    simp [strncmp_ne, hb0, hb1, hb2, soiSignature]
  obtain ⟨st1, hm, hh1⟩ := markerLoop_segments s frame hs segs hsegs
    (((ImgRead (initState (jpegStream segs s frame) buf0) 3).2.setBuf0
      ((ImgRead (initState (jpegStream segs s frame) buf0) 3).2.buf 2)).handle.length + 1)
    ((ImgRead (initState (jpegStream segs s frame) buf0) 3).2.setBuf0
      ((ImgRead (initState (jpegStream segs s frame) buf0) 3).2.buf 2))
    (by simp [MState.setBuf0, hb2])
    (by show (ImgRead (initState (jpegStream segs s frame) buf0) 3).2.handle = _
        rw [r2, hinit]; rfl)
    (by show segs.length < (ImgRead (initState (jpegStream segs s frame) buf0) 3).2.handle.length + 1
        rw [r2, hinit]
        have := afterFF_length s frame segs
        simp only [List.drop_succ_cons, List.drop_zero]
        omega)
  obtain ⟨f1, f2, f3⟩ := ImgRead_full st1 7 (by rw [hh1, hframe]; simp)
  have b3v := b3.isLt
  have b4v := b4.isLt
  have b5v := b5.isLt
  have b6v := b6.isLt
  refine ⟨{ ret := 1,
             width := some ((((((ImgRead st1 7).2.buf 5).val <<< 8) +
               ((ImgRead st1 7).2.buf 6).val : Nat) : Int)),
             height := some ((((((ImgRead st1 7).2.buf 3).val <<< 8) +
               ((ImgRead st1 7).2.buf 4).val : Nat) : Int)),
             final := (ImgRead st1 7).2 }, ?_, rfl, ?_, ?_, by omega, by omega⟩
  · unfold CommonMatchJPEG
    dsimp only
    rw [if_neg (by rw [r1, hcmp]; simp), hm]
    dsimp only
    rw [if_neg (by rw [f1]; simp)]
  · dsimp only
    rw [f3 3 (by omega), f3 4 (by omega), hh1, hframe, Nat.shiftLeft_eq]
    simp [Nat.mul_comm]
  · dsimp only
    rw [f3 5 (by omega), f3 6 (by omega), hh1, hframe, Nat.shiftLeft_eq]
    simp [Nat.mul_comm]

/-- Witness for C1: one APP0 segment of declared length 4, then SOF0 with
height 0x0102 and width 0x0304. -/
theorem C1_match_reports_height_then_width_witness :
    (∀ g ∈ [({ t := 0xe0, Lhi := 0, Llo := 4, payload := [1, 2] } : Segment)], g.wellFormed) ∧
    ((0xc0 : Byte) = 0xc0 ∨ (0xc0 : Byte) = 0xc1 ∨ (0xc0 : Byte) = 0xc2) ∧
    ∃ r, CommonMatchJPEG
        (jpegStream [{ t := 0xe0, Lhi := 0, Llo := 4, payload := [1, 2] }] 0xc0
          ([0, 11, 8, 1, 2, 3, 4] ++ [3])) (fun _ => 0) = some r ∧
      r.ret = 1 ∧
      r.height = some ((256 * (1 : Byte).val + (2 : Byte).val : Nat) : Int) ∧
      r.width = some ((256 * (3 : Byte).val + (4 : Byte).val : Nat) : Int) ∧
      256 * (1 : Byte).val + (2 : Byte).val ≤ 65535 ∧
      256 * (3 : Byte).val + (4 : Byte).val ≤ 65535 :=
  ⟨by intro g hg; rw [List.mem_singleton] at hg; subst hg
      unfold Segment.wellFormed Segment.L; decide,
   Or.inl rfl,
   C1_match_reports_height_then_width [{ t := 0xe0, Lhi := 0, Llo := 4, payload := [1, 2] }]
     0xc0 0 11 8 1 2 3 4 [3] (fun _ => 0)
     (by intro g hg; rw [List.mem_singleton] at hg; subst hg
         unfold Segment.wellFormed Segment.L; decide)
     (Or.inl rfl)⟩

theorem strncmp_soi (buf : Nat → Byte) (h : strncmp_ne buf soiSignature 0 3 = false) :
    buf 0 = 0xff ∧ buf 1 = 0xd8 ∧ buf 2 = 0xff := by
  have e0 : soiSignature 0 = 0xff := rfl
  have e1 : soiSignature 1 = 0xd8 := rfl
  have e2 : soiSignature 2 = 0xff := rfl
  by_cases a0 : buf 0 = 0xff
  · by_cases a1 : buf 1 = 0xd8
    · by_cases a2 : buf 2 = 0xff
      · exact ⟨a0, a1, a2⟩
      · exfalso
        simp [strncmp_ne, e0, e1, e2, a0, a1, a2] at h
    · exfalso
      simp [strncmp_ne, e0, e1, e2, a0, a1] at h
  · exfalso
    simp [strncmp_ne, e0, e1, e2, a0] at h

/-- C2: on every stream shorter than 3 bytes, or whose first three bytes are
not exactly `FF D8 FF`, `CommonMatchJPEG` returns 0 after its single 3-byte
read and stores neither a width nor a height. -/
theorem C2_match_rejects_wrong_signature (handle : List Byte) (buf0 : Nat → Byte)
    (h : handle.length < 3 ∨ handle.take 3 ≠ [0xff, 0xd8, 0xff]) :
    ∃ r, CommonMatchJPEG handle buf0 = some r ∧ r.ret = 0 ∧
      r.width = none ∧ r.height = none ∧
      r.final.reads = [(3, min 3 handle.length)] := by
  refine ⟨{ ret := 0, width := none, height := none,
            final := (ImgRead (initState handle buf0) 3).2 }, ?_, rfl, rfl, rfl, rfl⟩
  unfold CommonMatchJPEG
  dsimp only
  rw [if_pos]
  by_contra hc
  push_neg at hc
  obtain ⟨h3, hcmp⟩ := hc
  rw [ImgRead_fst] at h3
  have hlen : 3 ≤ handle.length := by
    have : (initState handle buf0).handle = handle := rfl
    rw [this] at h3
    omega
  have hcmp2 : strncmp_ne (ImgRead (initState handle buf0) 3).2.buf soiSignature 0 3 = false := by
    simpa using hcmp
  obtain ⟨e0, e1, e2⟩ := strncmp_soi _ hcmp2
  obtain ⟨_, _, r3⟩ := ImgRead_full (initState handle buf0) 3 hlen
  rw [r3 0 (by omega)] at e0
  rw [r3 1 (by omega)] at e1
  rw [r3 2 (by omega)] at e2
  match handle, hlen, h, e0, e1, e2 with
  | a :: b :: c :: rest, _, h, e0, e1, e2 =>
    rcases h with h | h
    · simp only [List.length_cons] at h
      omega
    · apply h
      change a = 0xff at e0
      change b = 0xd8 at e1
      change c = 0xff at e2
      simp [e0, e1, e2]

/-- Witness for C2: a GIF signature is rejected without storing dimensions. -/
theorem C2_match_rejects_wrong_signature_witness :
    (([0x47, 0x49, 0x46, 0x38] : List Byte).length < 3 ∨
      ([0x47, 0x49, 0x46, 0x38] : List Byte).take 3 ≠ [0xff, 0xd8, 0xff]) ∧
    ∃ r, CommonMatchJPEG [0x47, 0x49, 0x46, 0x38] (fun _ => 0) = some r ∧ r.ret = 0 ∧
      r.width = none ∧ r.height = none ∧
      r.final.reads = [(3, min 3 ([0x47, 0x49, 0x46, 0x38] : List Byte).length)] :=
  ⟨Or.inr (by decide),
   C2_match_rejects_wrong_signature [0x47, 0x49, 0x46, 0x38] (fun _ => 0) (Or.inr (by decide))⟩

/-- C3: `CommonMatchJPEG` always returns, and whenever one of the reads it
issued (signature, marker byte, length, 256-byte chunk, final partial chunk or
the 7 bytes after the start-of-frame marker) came back with fewer bytes than
requested, the return value is 0.  In particular a return value other than 0
means that the marker loop stopped at a start-of-frame marker and that the
7-byte read after it, the last read of the call, was complete. -/
theorem C3_match_short_read_returns_zero (handle : List Byte) (buf0 : Nat → Byte) :
    ∃ r, CommonMatchJPEG handle buf0 = some r ∧
      ((∃ e ∈ r.final.reads, e.2 < e.1) → r.ret = 0) ∧
      (r.ret ≠ 0 → ∃ st1, Reach (initState handle buf0) st1 ∧
        (st1.buf 0 = 0xc0 ∨ st1.buf 0 = 0xc1 ∨ st1.buf 0 = 0xc2) ∧
        r.final = (ImgRead st1 7).2 ∧ (ImgRead st1 7).1 = 7 ∧
        r.final.reads = st1.reads ++ [(7, 7)]) := by
  obtain ⟨r, hr, hreach, hcase⟩ := CommonMatchJPEG_cases handle buf0
  refine ⟨r, hr, ?_, ?_⟩
  · intro hshort
    rcases hcase with ⟨h0, _, _⟩ | ⟨_, st1, hr1, _, h7, hfin, _, _⟩
    · exact h0
    · exfalso
      have hinv := hr1.short_exhausted (by
        rintro ⟨e, he, _⟩
        simp [initState] at he)
      obtain ⟨e, he, hlt⟩ := hshort
      rw [hfin, ImgRead_reads, List.mem_append, List.mem_singleton] at he
      rcases he with he | he
      · have := hinv ⟨e, he, hlt⟩
        rw [this] at h7
        simp at h7
      · subst he
        simp only at hlt
        omega
  · intro hne
    rcases hcase with ⟨h0, _, _⟩ | ⟨_, st1, hr1, hsof, h7, hfin, _, _⟩
    · exact absurd h0 hne
    · refine ⟨st1, hr1, hsof, hfin, ?_, ?_⟩
      · rw [ImgRead_fst]; omega
      · rw [hfin, ImgRead_reads, Nat.min_eq_left h7]

/-! ### Claims about `CommonReadJPEG` -/

/-- An exact result within the `int` range is what the `int` holds. -/
theorem wrapInt_eq (x : Int) (h1 : INT_MIN ≤ x) (h2 : x ≤ INT_MAX) : wrapInt x = x := by
  unfold wrapInt
  unfold INT_MIN at h1
  unfold INT_MAX at h2
  omega

theorem wrapInt_range (x : Int) : INT_MIN ≤ wrapInt x ∧ wrapInt x ≤ INT_MAX := by
  unfold wrapInt INT_MIN INT_MAX
  omega

theorem wrapInt_le (x : Int) (h : INT_MIN ≤ x) : wrapInt x ≤ x := by
  unfold wrapInt
  unfold INT_MIN at h
  omega

theorem wrapInt_add_wrapInt (a b : Int) : wrapInt (a + wrapInt b) = wrapInt (a + b) := by
  unfold wrapInt
  omega

/-- C4: in exact integer arithmetic, that is, when none of the sums
`srcX + width`, `srcY + height` and differences `fileWidth - srcX`,
`fileHeight - srcY` overflows the `int` range, the effective region size
computed by `CommonReadJPEG` is `outWidth = min(width, fileWidth - srcX)` and
`outHeight = min(height, fileHeight - srcY)`. -/
theorem C4_region_is_min (fileWidth fileHeight width height srcX srcY : Int)
    (hw1 : INT_MIN ≤ srcX + width ∧ srcX + width ≤ INT_MAX)
    (hw2 : INT_MIN ≤ fileWidth - srcX ∧ fileWidth - srcX ≤ INT_MAX)
    (hh1 : INT_MIN ≤ srcY + height ∧ srcY + height ≤ INT_MAX)
    (hh2 : INT_MIN ≤ fileHeight - srcY ∧ fileHeight - srcY ≤ INT_MAX) :
    outWidth fileWidth width srcX = min width (fileWidth - srcX) ∧
    outHeight fileHeight height srcY = min height (fileHeight - srcY) := by
  unfold outWidth outHeight
  rw [wrapInt_eq _ hw1.1 hw1.2, wrapInt_eq _ hw2.1 hw2.2, wrapInt_eq _ hh1.1 hh1.2,
    wrapInt_eq _ hh2.1 hh2.2]
  constructor
  · split_ifs with h
    · rw [min_eq_right (by omega)]
    · rw [min_eq_left (by omega)]
  · split_ifs with h
    · rw [min_eq_right (by omega)]
    · rw [min_eq_left (by omega)]

/-- Witness for C4: a 10x2 region requested at (1, 1) of a 4x4 image is cut to
3 columns and 2 rows. -/
theorem C4_region_is_min_witness :
    outWidth 4 10 1 = min 10 (4 - 1) ∧ outHeight 4 2 1 = min 2 (4 - 1) :=
  C4_region_is_min 4 4 10 2 1 1 (by decide) (by decide) (by decide) (by decide)

/-- C5 as stated fails: on an 8-bit stream and a request with `srcX` beyond
the image width, a format string that is not a list makes `CommonReadJPEG`
return `TCL_ERROR`, not `TCL_OK`. -/
theorem C5_counterexample :
    rgb4x4.data_precision = 8 ∧ (10 : Int) ≥ rgb4x4.output_width ∧
    (CommonReadJPEG "" rgb4x4 (FormatArg.notList "unmatched open brace in list")
      0 0 1 1 10 0).code ≠ TCL_OK := by
  refine ⟨rfl, by decide, ?_⟩
  decide

theorem CommonReadJPEG_empty (interp : String) (cinfo : Decompress)
    (formatString : FormatArg) (destX destY width height srcX srcY : Int)
    (hprec : cinfo.data_precision = 8)
    (hfmt : ∀ err, formatString ≠ FormatArg.notList err)
    (hcond : outWidth cinfo.output_width width srcX ≤ 0 ∨
      outHeight cinfo.output_height height srcY ≤ 0 ∨
      srcX ≥ cinfo.output_width ∨ srcY ≥ cinfo.output_height) :
    CommonReadJPEG interp cinfo formatString destX destY width height srcX srcY =
      { code := TCL_OK, interp := interp,
        trace := [REvent.read_header] ++
          (if formatString ≠ FormatArg.null then [REvent.listObjGetElements] else []) ++
          [REvent.start_decompress] } := by
  have hp : ¬ (cinfo.data_precision ≠ 8 ∨ sizeof_JSAMPLE ≠ sizeof_unsigned_char) := by
    simp [hprec, sizeof_JSAMPLE, sizeof_unsigned_char]
  cases formatString with
  | notList err => exact absurd rfl (hfmt err)
  | null =>
    unfold CommonReadJPEG
    dsimp only
    rw [if_neg hp, if_pos hcond]
  | list args =>
    unfold CommonReadJPEG
    dsimp only
    rw [if_neg hp, if_pos hcond]

/-- C5 (amended): for every 8-bit-precision stream, every format string that
is `NULL` or a well-formed list, and every request with `srcX >= fileWidth`, or
`srcY >= fileHeight`, or an intersected width or height `<= 0`,
`CommonReadJPEG` returns `TCL_OK`, leaves the interpreter result alone, and
makes no call that reads a scanline or that expands or writes the raster. -/
theorem C5_empty_region_is_noop (interp : String) (cinfo : Decompress)
    (formatString : FormatArg) (destX destY width height srcX srcY : Int)
    (hprec : cinfo.data_precision = 8)
    (hfmt : ∀ err, formatString ≠ FormatArg.notList err)
    (hempty : srcX ≥ cinfo.output_width ∨ srcY ≥ cinfo.output_height ∨
      outWidth cinfo.output_width width srcX ≤ 0 ∨
      outHeight cinfo.output_height height srcY ≤ 0) :
    (CommonReadJPEG interp cinfo formatString destX destY width height srcX srcY).code = TCL_OK ∧
    (CommonReadJPEG interp cinfo formatString destX destY width height srcX srcY).interp = interp ∧
    ∀ e ∈ (CommonReadJPEG interp cinfo formatString destX destY width height srcX srcY).trace,
      e.readsScanline = false ∧ e.touchesRaster = false := by
  rw [CommonReadJPEG_empty interp cinfo formatString destX destY width height srcX srcY
    hprec hfmt (by tauto)]
  refine ⟨rfl, rfl, ?_⟩
  intro e he
  simp only [List.mem_append, List.mem_singleton] at he
  rcases he with (rfl | he) | rfl
  · exact ⟨rfl, rfl⟩
  · split_ifs at he
    · rw [List.mem_singleton] at he
      subst he
      exact ⟨rfl, rfl⟩
    · cases he
  · exact ⟨rfl, rfl⟩

/-- Witness for C5 (amended): source origin right of a 4x4 image. -/
theorem C5_empty_region_is_noop_witness :
    rgb4x4.data_precision = 8 ∧
    (CommonReadJPEG "" rgb4x4 FormatArg.null 0 0 2 2 4 0).code = TCL_OK ∧
    (CommonReadJPEG "" rgb4x4 FormatArg.null 0 0 2 2 4 0).interp = "" ∧
    ∀ e ∈ (CommonReadJPEG "" rgb4x4 FormatArg.null 0 0 2 2 4 0).trace,
      e.readsScanline = false ∧ e.touchesRaster = false :=
  ⟨rfl, C5_empty_region_is_noop "" rgb4x4 FormatArg.null 0 0 2 2 4 0 rfl
    (fun err h => by cases h) (Or.inl (by decide))⟩

/-- C7: for every stream whose header reports a sample precision other than
8 and for every format string and requested region, `CommonReadJPEG` returns
`TCL_ERROR` with "Unsupported JPEG precision" appended to the interpreter
result; the only external calls are `jpeg_read_header` and the
`Tcl_AppendResult` of the message, so decompression is not started, no scanline
is read and the raster is not touched. -/
theorem C7_unsupported_precision (interp : String) (cinfo : Decompress)
    (formatString : FormatArg) (destX destY width height srcX srcY : Int)
    (hprec : cinfo.data_precision ≠ 8) :
    CommonReadJPEG interp cinfo formatString destX destY width height srcX srcY =
      { code := TCL_ERROR, interp := interp ++ "Unsupported JPEG precision",
        trace := [REvent.read_header, REvent.appendResult "Unsupported JPEG precision"] } := by
  unfold CommonReadJPEG
  dsimp only
  rw [if_pos (Or.inl hprec)]
  rfl

/-- Witness for C7: a 12-bit stream, full-image request. -/
theorem C7_unsupported_precision_witness :
    rgb4x4_12bit.data_precision ≠ 8 ∧
    CommonReadJPEG "" rgb4x4_12bit FormatArg.null 0 0 4 4 0 0 =
      { code := TCL_ERROR, interp := "" ++ "Unsupported JPEG precision",
        trace := [REvent.read_header, REvent.appendResult "Unsupported JPEG precision"] } :=
  ⟨by decide, C7_unsupported_precision "" rgb4x4_12bit FormatArg.null 0 0 4 4 0 0 (by decide)⟩

/-- C8 as stated fails in two ways: on an 8-bit CMYK stream a request with
`width = 0` returns `TCL_OK`, and a format string that is not a list returns
`TCL_ERROR` with the list parser's message rather than "Unsupported JPEG color
space". -/
theorem C8_counterexample :
    cmyk4x4.data_precision = 8 ∧
    cmyk4x4.out_color_space ≠ J_COLOR_SPACE.JCS_GRAYSCALE ∧
    cmyk4x4.out_color_space ≠ J_COLOR_SPACE.JCS_RGB ∧
    (CommonReadJPEG "" cmyk4x4 FormatArg.null 0 0 0 4 0 0).code = TCL_OK ∧
    (CommonReadJPEG "" cmyk4x4 FormatArg.null 0 0 0 4 0 0).interp = "" ∧
    (CommonReadJPEG "" cmyk4x4 (FormatArg.notList "unmatched open brace in list")
      0 0 4 4 0 0).interp = "unmatched open brace in list" := by
  refine ⟨rfl, by decide, by decide, ?_, ?_, ?_⟩
  · decide
  · rfl
  · rfl

/-- C8 (amended): for every 8-bit-precision stream whose output colour space
is neither Grayscale nor RGB, every format string that is `NULL` or a
well-formed list, and every requested region that passes the emptiness check
(`outWidth > 0`, `outHeight > 0`, `srcX < fileWidth`, `srcY < fileHeight`),
`CommonReadJPEG` returns `TCL_ERROR` with "Unsupported JPEG color space"
appended to the interpreter result, and makes no call that reads a scanline or
that expands or writes the raster. -/
theorem C8_unsupported_color_space (interp : String) (cinfo : Decompress)
    (formatString : FormatArg) (destX destY width height srcX srcY : Int)
    (hprec : cinfo.data_precision = 8)
    (hfmt : ∀ err, formatString ≠ FormatArg.notList err)
    (hgray : cinfo.out_color_space ≠ J_COLOR_SPACE.JCS_GRAYSCALE)
    (hrgb : cinfo.out_color_space ≠ J_COLOR_SPACE.JCS_RGB)
    (hw : 0 < outWidth cinfo.output_width width srcX)
    (hh : 0 < outHeight cinfo.output_height height srcY)
    (hx : srcX < cinfo.output_width) (hy : srcY < cinfo.output_height) :
    (CommonReadJPEG interp cinfo formatString destX destY width height srcX srcY).code
      = TCL_ERROR ∧
    (CommonReadJPEG interp cinfo formatString destX destY width height srcX srcY).interp
      = interp ++ "Unsupported JPEG color space" ∧
    ∀ e ∈ (CommonReadJPEG interp cinfo formatString destX destY width height srcX srcY).trace,
      e.readsScanline = false ∧ e.touchesRaster = false := by
  have hp : ¬ (cinfo.data_precision ≠ 8 ∨ sizeof_JSAMPLE ≠ sizeof_unsigned_char) := by
    simp [hprec, sizeof_JSAMPLE, sizeof_unsigned_char]
  have hcond : ¬ (outWidth cinfo.output_width width srcX ≤ 0 ∨
      outHeight cinfo.output_height height srcY ≤ 0 ∨
      srcX ≥ cinfo.output_width ∨ srcY ≥ cinfo.output_height) := by
    push_neg
    exact ⟨hw, hh, hx, hy⟩
  have hl : blockLayout cinfo.out_color_space = none := by
    cases hcs : cinfo.out_color_space <;>
      first | rfl | exact absurd hcs hgray | exact absurd hcs hrgb
  have key : CommonReadJPEG interp cinfo formatString destX destY width height srcX srcY =
      { code := TCL_ERROR, interp := interp ++ "Unsupported JPEG color space",
        trace := [REvent.read_header] ++
          (if formatString ≠ FormatArg.null then [REvent.listObjGetElements] else []) ++
          [REvent.start_decompress] ++
          [REvent.appendResult "Unsupported JPEG color space"] } := by
    cases formatString with
    | notList err => exact absurd rfl (hfmt err)
    | null =>
      unfold CommonReadJPEG
      dsimp only
      rw [if_neg hp, if_neg hcond, hl]
    | list args =>
      unfold CommonReadJPEG
      dsimp only
      rw [if_neg hp, if_neg hcond, hl]
  rw [key]
  refine ⟨rfl, rfl, ?_⟩
  intro e he
  simp only [List.mem_append, List.mem_singleton] at he
  rcases he with ((rfl | he) | rfl) | rfl
  · exact ⟨rfl, rfl⟩
  · split_ifs at he
    · rw [List.mem_singleton] at he
      subst he
      exact ⟨rfl, rfl⟩
    · cases he
  · exact ⟨rfl, rfl⟩
  · exact ⟨rfl, rfl⟩

/-- Witness for C8 (amended): a full-image request on a 4x4 CMYK stream. -/
theorem C8_unsupported_color_space_witness :
    (CommonReadJPEG "" cmyk4x4 FormatArg.null 0 0 4 4 0 0).code = TCL_ERROR ∧
    (CommonReadJPEG "" cmyk4x4 FormatArg.null 0 0 4 4 0 0).interp
      = "" ++ "Unsupported JPEG color space" ∧
    ∀ e ∈ (CommonReadJPEG "" cmyk4x4 FormatArg.null 0 0 4 4 0 0).trace,
      e.readsScanline = false ∧ e.touchesRaster = false :=
  C8_unsupported_color_space "" cmyk4x4 FormatArg.null 0 0 4 4 0 0 rfl
    (fun err h => by cases h) (by decide) (by decide) (by decide) (by decide)
    (by decide) (by decide)

theorem scanLoop_succ (cinfo : Decompress) (block : List Byte → Tk_PhotoImageBlock)
    (destX outW srcY : Int) (n : Nat) (curY outY : Int) (st : RState) :
    scanLoop cinfo block destX outW srcY (n + 1) curY outY st =
      if curY ≥ srcY then
        scanLoop cinfo block destX outW srcY n (curY + 1) (wrapInt (outY + 1))
          { jpeg_read_scanlines cinfo st with trace := (jpeg_read_scanlines cinfo st).trace ++
              [REvent.photoPutBlock (block (jpeg_read_scanlines cinfo st).buffer)
                destX outY outW 1] }
      else
        scanLoop cinfo block destX outW srcY n (curY + 1) outY (jpeg_read_scanlines cinfo st) :=
  rfl

theorem jpeg_read_scanlines_next (cinfo : Decompress) (st : RState)
    (h : st.output_scanline < cinfo.output_height) :
    jpeg_read_scanlines cinfo st =
      { output_scanline := st.output_scanline + 1,
        buffer := cinfo.scanline st.output_scanline,
        trace := st.trace ++ [REvent.read_scanlines st.output_scanline] } := by
  unfold jpeg_read_scanlines
  rw [if_pos h]

theorem rasterWrites_append (a b : List REvent) :
    rasterWrites (a ++ b) = rasterWrites a ++ rasterWrites b := by
  unfold rasterWrites
  exact List.filterMap_append _ _ _

/-- Rows before `srcY` are decoded and discarded. -/
theorem scanLoop_skip (cinfo : Decompress) (block : List Byte → Tk_PhotoImageBlock)
    (destX outW srcY : Int) (d m r : Nat) (curY outY : Int) (st : RState)
    (hcur : curY = r) (hd : curY + d ≤ srcY) (hos : st.output_scanline = r)
    (hH : r + d ≤ cinfo.output_height) :
    ∃ st1, scanLoop cinfo block destX outW srcY (d + m) curY outY st =
        scanLoop cinfo block destX outW srcY m (curY + d) outY st1 ∧
      st1.output_scanline = r + d ∧ rasterWrites st1.trace = rasterWrites st.trace := by
  induction d generalizing r curY st with
  | zero => exact ⟨st, by simp, by simpa using hos, rfl⟩
  | succ d ih =>
    have hlt : st.output_scanline < cinfo.output_height := by omega
    obtain ⟨st1, h1, h2, h3⟩ := ih (r + 1) (curY + 1) (jpeg_read_scanlines cinfo st)
      (by rw [hcur]; push_cast; rfl) (by push_cast at hd; omega)
      (by rw [jpeg_read_scanlines_next cinfo st hlt]; simp [hos]) (by omega)
    refine ⟨st1, ?_, by omega, ?_⟩
    · have e : d + 1 + m = (d + m) + 1 := by omega
      rw [e, scanLoop_succ, if_neg (by push_cast at hd; omega), h1]
      congr 1
      push_cast
      ring
    · rw [h3, jpeg_read_scanlines_next cinfo st hlt, rasterWrites_append]
      simp [rasterWrites, REvent.put?]

/-- From row `srcY` on, every decoded row is handed to the raster, one
destination row further down each time. -/
theorem scanLoop_put (cinfo : Decompress) (block : List Byte → Tk_PhotoImageBlock)
    (destX outW srcY : Int) (n r : Nat) (curY outY : Int) (st : RState)
    (hcur : curY = r) (hsrc : srcY ≤ curY) (hos : st.output_scanline = r)
    (hH : r + n ≤ cinfo.output_height)
    (hlo : INT_MIN ≤ outY) (hhi : outY + (n : Int) ≤ INT_MAX) :
    (scanLoop cinfo block destX outW srcY n curY outY st).output_scanline = r + n ∧
    rasterWrites (scanLoop cinfo block destX outW srcY n curY outY st).trace =
      rasterWrites st.trace ++ (List.range n).map
        (fun k => ({ block := block (cinfo.scanline (r + k)), x := destX, y := outY + (k : Int),
                     width := outW, height := 1 } : RasterWrite)) := by
  induction n generalizing r curY outY st with
  | zero => exact ⟨by simpa [scanLoop] using hos, by simp [scanLoop]⟩
  | succ n ih =>
    have hlt : st.output_scanline < cinfo.output_height := by omega
    have hwrap : wrapInt (outY + 1) = outY + 1 :=
      wrapInt_eq _ (by omega) (by push_cast at hhi; omega)
    rw [scanLoop_succ, if_pos (by omega), hwrap]
    obtain ⟨h1, h2⟩ := ih (r + 1) (curY + 1) (outY + 1)
      { jpeg_read_scanlines cinfo st with trace := (jpeg_read_scanlines cinfo st).trace ++
          [REvent.photoPutBlock (block (jpeg_read_scanlines cinfo st).buffer)
            destX outY outW 1] }
      (by rw [hcur]; push_cast; rfl) (by omega)
      (by rw [jpeg_read_scanlines_next cinfo st hlt]; simp [hos]) (by omega)
      (by omega) (by push_cast at hhi ⊢; omega)
    refine ⟨by rw [h1]; omega, ?_⟩
    rw [h2, jpeg_read_scanlines_next cinfo st hlt]
    simp only [rasterWrites_append]
    rw [List.range_succ_eq_map, List.map_cons, List.map_map]
    simp only [rasterWrites, List.filterMap_cons, List.filterMap_nil, REvent.put?,
      List.append_assoc, List.singleton_append, List.nil_append, hos]
    congr 2
    · simp
    · apply List.map_congr_left
      intro k _
      simp only [Function.comp, Nat.succ_eq_add_one]
      have e1 : r + 1 + k = r + (k + 1) := by omega
      have e2 : outY + 1 + (k : Int) = outY + ((k + 1 : Nat) : Int) := by push_cast; ring
      rw [e1, e2]

/-- For a source column inside the image and a sum `srcX + width` that does
not overflow, the code computes `min(width, fileWidth - srcX)`. -/
theorem outWidth_min (fileWidth width srcX : Int) (hx0 : 0 ≤ srcX) (hx : srcX < fileWidth)
    (hov : INT_MIN ≤ srcX + width ∧ srcX + width ≤ INT_MAX) :
    outWidth fileWidth width srcX = min width (fileWidth - srcX) := by
  unfold outWidth
  rw [wrapInt_eq _ hov.1 hov.2]
  split_ifs with h
  · rw [wrapInt_eq _ (by unfold INT_MIN; omega) (by omega), min_eq_right (by omega)]
  · rw [min_eq_left (by omega)]

/-- For a source row inside the image and a sum `srcY + height` that does not
overflow, the code computes `min(height, fileHeight - srcY)`. -/
theorem outHeight_min (fileHeight height srcY : Int) (hy0 : 0 ≤ srcY) (hy : srcY < fileHeight)
    (hov : INT_MIN ≤ srcY + height ∧ srcY + height ≤ INT_MAX) :
    outHeight fileHeight height srcY = min height (fileHeight - srcY) := by
  unfold outHeight
  rw [wrapInt_eq _ hov.1 hov.2]
  split_ifs with h
  · rw [wrapInt_eq _ (by unfold INT_MIN; omega) (by omega), min_eq_right (by omega)]
  · rw [min_eq_left (by omega)]

/-- When `srcY + height` does not overflow, the region height computed by the
code does not reach below the image. -/
theorem outHeight_le (fileHeight height srcY : Int) (hy : srcY < fileHeight)
    (hov : INT_MIN ≤ srcY + height ∧ srcY + height ≤ INT_MAX) :
    outHeight fileHeight height srcY ≤ fileHeight - srcY := by
  unfold outHeight
  rw [wrapInt_eq _ hov.1 hov.2]
  split_ifs with h
  · apply wrapInt_le
    unfold INT_MIN
    omega
  · omega

/-- When `srcX + width` does not overflow, the region width computed by the
code does not reach beyond the image. -/
theorem outWidth_le (fileWidth width srcX : Int) (hx : srcX < fileWidth)
    (hov : INT_MIN ≤ srcX + width ∧ srcX + width ≤ INT_MAX) :
    outWidth fileWidth width srcX ≤ fileWidth - srcX := by
  unfold outWidth
  rw [wrapInt_eq _ hov.1 hov.2]
  split_ifs with h
  · apply wrapInt_le
    unfold INT_MIN
    omega
  · omega

/-- When `srcY + height` does not overflow, neither does `stopY = srcY +
outHeight` for a region that passed the emptiness check. -/
theorem stopY_exact (fileHeight height srcY : Int) (hy0 : 0 ≤ srcY) (hy : srcY < fileHeight)
    (hh : 0 < outHeight fileHeight height srcY)
    (hov : INT_MIN ≤ srcY + height ∧ srcY + height ≤ INT_MAX) :
    wrapInt (srcY + outHeight fileHeight height srcY) = srcY + outHeight fileHeight height srcY := by
  have hle := outHeight_le fileHeight height srcY hy hov
  apply wrapInt_eq
  · unfold INT_MIN
    omega
  · unfold outHeight at hh hle ⊢
    rw [wrapInt_eq _ hov.1 hov.2] at hh hle ⊢
    split_ifs at hh hle ⊢ with h
    · omega
    · exact hov.2

/-- Whatever the request, `stopY = srcY + outHeight` as computed by the code
does not exceed the image height. -/
theorem stopY_le (fileHeight : Nat) (height srcY : Int) :
    wrapInt (srcY + outHeight fileHeight height srcY) ≤ fileHeight := by
  unfold outHeight
  split_ifs with h
  · rw [wrapInt_add_wrapInt]
    have e : srcY + ((fileHeight : Int) - srcY) = fileHeight := by ring
    rw [e]
    apply wrapInt_le
    unfold INT_MIN
    omega
  · omega

theorem CommonReadJPEG_writes (interp : String) (cinfo : Decompress)
    (formatString : FormatArg) (destX destY width height srcX srcY : Int)
    (layout : Int × Int × Int × Int)
    (hprec : cinfo.data_precision = 8)
    (hfmt : ∀ err, formatString ≠ FormatArg.notList err)
    (hl : blockLayout cinfo.out_color_space = some layout)
    (hx : srcX < cinfo.output_width)
    (hy0 : 0 ≤ srcY) (hy : srcY < cinfo.output_height)
    (hw : 0 < outWidth cinfo.output_width width srcX)
    (hh : 0 < outHeight cinfo.output_height height srcY)
    (hov : INT_MIN ≤ srcY + height ∧ srcY + height ≤ INT_MAX)
    (hdlo : INT_MIN ≤ destY)
    (hdhi : destY + outHeight cinfo.output_height height srcY ≤ INT_MAX) :
    (CommonReadJPEG interp cinfo formatString destX destY width height srcX srcY).code = TCL_OK ∧
    rasterWrites (CommonReadJPEG interp cinfo formatString destX destY width height srcX srcY).trace
      = (List.range (outHeight cinfo.output_height height srcY).toNat).map
        (fun k => ({ block := readBlock layout cinfo.output_width
                       (outWidth cinfo.output_width width srcX) srcX
                       (cinfo.scanline (srcY.toNat + k)),
                     x := destX, y := destY + (k : Int),
                     width := outWidth cinfo.output_width width srcX,
                     height := 1 } : RasterWrite)) := by
  have hp : ¬ (cinfo.data_precision ≠ 8 ∨ sizeof_JSAMPLE ≠ sizeof_unsigned_char) := by
    simp [hprec, sizeof_JSAMPLE, sizeof_unsigned_char]
  have hcond : ¬ (outWidth cinfo.output_width width srcX ≤ 0 ∨
      outHeight cinfo.output_height height srcY ≤ 0 ∨
      srcX ≥ cinfo.output_width ∨ srcY ≥ cinfo.output_height) := by
    push_neg
    exact ⟨hw, hh, hx, hy⟩
  have hle : outHeight cinfo.output_height height srcY ≤ cinfo.output_height - srcY :=
    outHeight_le cinfo.output_height height srcY hy hov
  have hstop : wrapInt (srcY + outHeight cinfo.output_height height srcY) =
      srcY + outHeight cinfo.output_height height srcY :=
    stopY_exact cinfo.output_height height srcY hy0 hy hh hov
  have hn : (srcY + outHeight cinfo.output_height height srcY).toNat =
      srcY.toNat + (outHeight cinfo.output_height height srcY).toNat := by omega
  have main : ∀ tr2 : List REvent, rasterWrites tr2 = [] →
      rasterWrites (scanLoop cinfo
        (readBlock layout cinfo.output_width (outWidth cinfo.output_width width srcX) srcX)
        destX (outWidth cinfo.output_width width srcX) srcY
        (srcY + outHeight cinfo.output_height height srcY).toNat 0 destY
        { output_scanline := 0, buffer := [], trace := tr2 }).trace =
      (List.range (outHeight cinfo.output_height height srcY).toNat).map
        (fun k => ({ block := readBlock layout cinfo.output_width
                       (outWidth cinfo.output_width width srcX) srcX
                       (cinfo.scanline (srcY.toNat + k)),
                     x := destX, y := destY + (k : Int),
                     width := outWidth cinfo.output_width width srcX,
                     height := 1 } : RasterWrite)) := by
    intro tr2 htr2
    rw [hn]
    obtain ⟨st1, h1, h2, h3⟩ := scanLoop_skip cinfo
      (readBlock layout cinfo.output_width (outWidth cinfo.output_width width srcX) srcX)
      destX (outWidth cinfo.output_width width srcX) srcY srcY.toNat
      (outHeight cinfo.output_height height srcY).toNat 0 0 destY
      { output_scanline := 0, buffer := [], trace := tr2 } (by simp) (by omega) rfl (by omega)
    rw [h1]
    obtain ⟨_, h5⟩ := scanLoop_put cinfo
      (readBlock layout cinfo.output_width (outWidth cinfo.output_width width srcX) srcX)
      destX (outWidth cinfo.output_width width srcX) srcY
      (outHeight cinfo.output_height height srcY).toNat (0 + srcY.toNat) (0 + (srcY.toNat : Int))
      destY st1 (by push_cast; rfl) (by omega) h2 (by omega) hdlo (by omega)
    rw [h5, h3, htr2, List.nil_append]
    apply List.map_congr_left
    intro k _
    rw [Nat.zero_add]
  have hfin : ∀ (tr : List REvent), rasterWrites (tr ++ [REvent.finish_decompress]) =
      rasterWrites tr := by
    intro tr; rw [rasterWrites_append]; simp [rasterWrites, REvent.put?]
  have habt : ∀ (tr : List REvent), rasterWrites (tr ++ [REvent.abort_decompress]) =
      rasterWrites tr := by
    intro tr; rw [rasterWrites_append]; simp [rasterWrites, REvent.put?]
  cases formatString with
  | notList err => exact absurd rfl (hfmt err)
  | null =>
    unfold CommonReadJPEG
    dsimp only
    rw [if_neg hp, if_neg hcond, hl]
    dsimp only
    rw [hstop]
    split_ifs <;> refine ⟨rfl, ?_⟩ <;> dsimp only <;>
      first
        | (rw [hfin]; exact main _ (by simp [rasterWrites, REvent.put?]))
        | (rw [habt]; exact main _ (by simp [rasterWrites, REvent.put?]))
  | list args =>
    unfold CommonReadJPEG
    dsimp only
    rw [if_neg hp, if_neg hcond, hl]
    dsimp only
    rw [hstop]
    split_ifs <;> refine ⟨rfl, ?_⟩ <;> dsimp only <;>
      first
        | (rw [hfin]; exact main _ (by simp [rasterWrites, REvent.put?]))
        | (rw [habt]; exact main _ (by simp [rasterWrites, REvent.put?]))

theorem rowMem_at (row : List Byte) (a : Int) (n : Nat) (h : a = n) :
    rowMem row a = row.getD n 0 := by
  subst h
  unfold rowMem
  rw [if_pos (by omega), Int.toNat_ofNat]

theorem readBlock_pixel (cinfo : Decompress) (layout : Int × Int × Int × Int)
    (hl : blockLayout cinfo.out_color_space = some layout)
    (fileWidth outW srcX : Int) (hx0 : 0 ≤ srcX) (row j : Nat) :
    (readBlock layout fileWidth outW srcX (cinfo.scanline row)).pixel j 0 =
      decodedPixel cinfo row (srcX.toNat + j) := by
  cases hcs : cinfo.out_color_space with
  | JCS_GRAYSCALE =>
    rw [hcs] at hl
    simp only [blockLayout, Option.some.injEq] at hl
    subst hl
    simp only [Tk_PhotoImageBlock.pixel, readBlock, decodedPixel, hcs]
    rw [rowMem_at _ _ (srcX.toNat + j) (by push_cast; omega)]
  | JCS_RGB =>
    rw [hcs] at hl
    simp only [blockLayout, Option.some.injEq] at hl
    subst hl
    simp only [Tk_PhotoImageBlock.pixel, readBlock, decodedPixel, hcs]
    rw [rowMem_at _ _ (3 * (srcX.toNat + j)) (by push_cast; omega),
      rowMem_at _ _ (3 * (srcX.toNat + j) + 1) (by push_cast; omega),
      rowMem_at _ _ (3 * (srcX.toNat + j) + 2) (by push_cast; omega)]
  | JCS_UNKNOWN => rw [hcs] at hl; simp [blockLayout] at hl
  | JCS_YCbCr => rw [hcs] at hl; simp [blockLayout] at hl
  | JCS_CMYK => rw [hcs] at hl; simp [blockLayout] at hl
  | JCS_YCCK => rw [hcs] at hl; simp [blockLayout] at hl

/-- C6 as stated fails: with every condition of the claim met (origin inside
a 4x4 RGB image, `width = height = 4`) a stream of 12-bit precision, or a
format string that is not a list, ends the call before any raster write, while
`outHeight` is 4. -/
theorem C6_counterexample :
    rgb4x4_12bit.out_color_space = J_COLOR_SPACE.JCS_RGB ∧
    outHeight rgb4x4_12bit.output_height 4 0 = 4 ∧
    (rasterWrites (CommonReadJPEG "" rgb4x4_12bit FormatArg.null 0 0 4 4 0 0).trace).length = 0 ∧
    (rasterWrites (CommonReadJPEG "" rgb4x4 (FormatArg.notList "unmatched open brace in list")
      0 0 4 4 0 0).trace).length = 0 := by
  refine ⟨rfl, by decide, ?_, ?_⟩
  · rfl
  · rfl

/-- C6 (amended): for every decode of an 8-bit-precision Grayscale or RGB
stream with a format string that is `NULL` or a well-formed list, with
`0 <= srcX < fileWidth`, `0 <= srcY < fileHeight`, `width >= 1` and
`height >= 1`, and with no `int` overflow in `srcX + width`, `srcY + height`
and the destination rows (`srcX + width <= INT_MAX`, `srcY + height <=
INT_MAX`, `INT_MIN <= destY`, `destY + outHeight <= INT_MAX`),
`CommonReadJPEG` returns `TCL_OK` and issues exactly `outHeight` raster writes;
the `k`-th is a block of `outWidth x 1` pixels at `(destX, destY + k)` whose
`j`-th pixel is the decoded pixel at column `srcX + j` of decoded row
`srcY + k`; every write lies inside the rectangle
`[destX, destX+outWidth) x [destY, destY+outHeight)`; here `outWidth =
min(width, fileWidth - srcX)` and `outHeight = min(height, fileHeight -
srcY)`. -/
theorem C6_region_copy (interp : String) (cinfo : Decompress)
    (formatString : FormatArg) (destX destY width height srcX srcY : Int)
    (hprec : cinfo.data_precision = 8)
    (hfmt : ∀ err, formatString ≠ FormatArg.notList err)
    (hcs : cinfo.out_color_space = J_COLOR_SPACE.JCS_GRAYSCALE ∨
      cinfo.out_color_space = J_COLOR_SPACE.JCS_RGB)
    (hx0 : 0 ≤ srcX) (hx : srcX < cinfo.output_width)
    (hy0 : 0 ≤ srcY) (hy : srcY < cinfo.output_height)
    (hw : 1 ≤ width) (hh : 1 ≤ height)
    (hwov : srcX + width ≤ INT_MAX) (hhov : srcY + height ≤ INT_MAX)
    (hdlo : INT_MIN ≤ destY)
    (hdhi : destY + outHeight cinfo.output_height height srcY ≤ INT_MAX) :
    outWidth cinfo.output_width width srcX = min width (cinfo.output_width - srcX) ∧
    outHeight cinfo.output_height height srcY = min height (cinfo.output_height - srcY) ∧
    (CommonReadJPEG interp cinfo formatString destX destY width height srcX srcY).code = TCL_OK ∧
    ((rasterWrites (CommonReadJPEG interp cinfo formatString destX destY width height
        srcX srcY).trace).length : Int) = outHeight cinfo.output_height height srcY ∧
    (∀ k : Nat, (k : Int) < outHeight cinfo.output_height height srcY →
      ∃ w, (rasterWrites (CommonReadJPEG interp cinfo formatString destX destY width height
          srcX srcY).trace)[k]? = some w ∧
        w.x = destX ∧ w.y = destY + k ∧
        w.width = outWidth cinfo.output_width width srcX ∧ w.height = 1 ∧
        w.block.width = outWidth cinfo.output_width width srcX ∧ w.block.height = 1 ∧
        ∀ j : Nat, (j : Int) < outWidth cinfo.output_width width srcX →
          w.block.pixel j 0 = decodedPixel cinfo (srcY.toNat + k) (srcX.toNat + j)) ∧
    (∀ w ∈ rasterWrites (CommonReadJPEG interp cinfo formatString destX destY width height
        srcX srcY).trace,
      destX ≤ w.x ∧ w.x + w.width ≤ destX + outWidth cinfo.output_width width srcX ∧
      destY ≤ w.y ∧ w.y + w.height ≤ destY + outHeight cinfo.output_height height srcY) := by
  have hovW : INT_MIN ≤ srcX + width ∧ srcX + width ≤ INT_MAX :=
    ⟨by unfold INT_MIN; omega, hwov⟩
  have hovH : INT_MIN ≤ srcY + height ∧ srcY + height ≤ INT_MAX :=
    ⟨by unfold INT_MIN; omega, hhov⟩
  have hminW := outWidth_min cinfo.output_width width srcX hx0 hx hovW
  have hminH := outHeight_min cinfo.output_height height srcY hy0 hy hovH
  have hoW : 0 < outWidth cinfo.output_width width srcX := by
    rw [hminW]; exact lt_min (by omega) (by omega)
  have hoH : 0 < outHeight cinfo.output_height height srcY := by
    rw [hminH]; exact lt_min (by omega) (by omega)
  obtain ⟨layout, hl⟩ : ∃ layout, blockLayout cinfo.out_color_space = some layout := by
    rcases hcs with h | h <;> rw [h] <;> exact ⟨_, rfl⟩
  obtain ⟨hcode, hwr⟩ := CommonReadJPEG_writes interp cinfo formatString destX destY width
    height srcX srcY layout hprec hfmt hl hx hy0 hy hoW hoH hovH hdlo hdhi
  rw [hwr]
  refine ⟨hminW, hminH, hcode, ?_, ?_, ?_⟩
  · rw [List.length_map, List.length_range]
    omega
  · intro k hk
    have hk2 : k < (outHeight cinfo.output_height height srcY).toNat := by omega
    refine ⟨{ block := readBlock layout cinfo.output_width
                (outWidth cinfo.output_width width srcX) srcX (cinfo.scanline (srcY.toNat + k)),
              x := destX, y := destY + (k : Int),
              width := outWidth cinfo.output_width width srcX, height := 1 },
      ?_, rfl, rfl, rfl, rfl, rfl, rfl, ?_⟩
    · rw [List.getElem?_map, List.getElem?_range hk2]
      rfl
    · intro j _
      exact readBlock_pixel cinfo layout hl _ _ srcX hx0 _ j
  · intro w hw
    rw [List.mem_map] at hw
    obtain ⟨k, hk, rfl⟩ := hw
    rw [List.mem_range] at hk
    dsimp only
    refine ⟨le_rfl, le_rfl, by omega, by omega⟩

/-- Witness for C6 (amended): rows 1..2, columns 1..3 of a 4x4 RGB image
copied to `(5, 7)`. -/
theorem C6_region_copy_witness :
    outWidth rgb4x4.output_width 10 1 = min 10 (rgb4x4.output_width - 1) ∧
    outHeight rgb4x4.output_height 2 1 = min 2 (rgb4x4.output_height - 1) ∧
    (CommonReadJPEG "" rgb4x4 FormatArg.null 5 7 10 2 1 1).code = TCL_OK ∧
    ((rasterWrites (CommonReadJPEG "" rgb4x4 FormatArg.null 5 7 10 2 1 1).trace).length : Int)
      = outHeight rgb4x4.output_height 2 1 ∧
    (∀ k : Nat, (k : Int) < outHeight rgb4x4.output_height 2 1 →
      ∃ w, (rasterWrites (CommonReadJPEG "" rgb4x4 FormatArg.null 5 7 10 2 1 1).trace)[k]?
          = some w ∧
        w.x = 5 ∧ w.y = 7 + k ∧
        w.width = outWidth rgb4x4.output_width 10 1 ∧ w.height = 1 ∧
        w.block.width = outWidth rgb4x4.output_width 10 1 ∧ w.block.height = 1 ∧
        ∀ j : Nat, (j : Int) < outWidth rgb4x4.output_width 10 1 →
          w.block.pixel j 0 = decodedPixel rgb4x4 ((1 : Int).toNat + k) ((1 : Int).toNat + j)) ∧
    (∀ w ∈ rasterWrites (CommonReadJPEG "" rgb4x4 FormatArg.null 5 7 10 2 1 1).trace,
      5 ≤ w.x ∧ w.x + w.width ≤ 5 + outWidth rgb4x4.output_width 10 1 ∧
      7 ≤ w.y ∧ w.y + w.height ≤ 7 + outHeight rgb4x4.output_height 2 1) :=
  C6_region_copy "" rgb4x4 FormatArg.null 5 7 10 2 1 1 rfl (fun err h => by cases h)
    (Or.inr rfl) (by decide) (by decide) (by decide) (by decide) (by decide) (by decide)
    (by decide) (by decide) (by decide) (by decide)

/-! ### Claims about `CommonWriteJPEG` -/

theorem reformatPixel_length (mem : Int → Byte) (al g b p : Int) :
    (reformatPixel mem al g b p).length = 3 := by
  unfold reformatPixel
  split_ifs <;> rfl

theorem reformatRow_length (mem : Int → Byte) (al g b ps : Int) (w : Nat) (p : Int) :
    (reformatRow mem al g b ps w p).length = 3 * w := by
  induction w generalizing p with
  | zero => rfl
  | succ w ih =>
    simp only [reformatRow, List.length_append, reformatPixel_length, ih]
    omega

/-- Samples `3j`, `3j+1`, `3j+2` of a reformatted row are the three samples
stored for the pixel `j` places further on. -/
theorem reformatRow_getElem (mem : Int → Byte) (al g b ps : Int) (w : Nat) (p : Int)
    (j c : Nat) (hj : j < w) (hc : c < 3) :
    (reformatRow mem al g b ps w p)[3 * j + c]? =
      (reformatPixel mem al g b (p + (j : Int) * ps))[c]? := by
  induction w generalizing p j with
  | zero => omega
  | succ w ih =>
    simp only [reformatRow]
    cases j with
    | zero =>
      rw [List.getElem?_append_left (by rw [reformatPixel_length]; omega)]
      simp
    | succ j =>
      rw [List.getElem?_append_right (by rw [reformatPixel_length]; omega),
        reformatPixel_length]
      have e : 3 * (j + 1) + c - 3 = 3 * j + c := by omega
      rw [e, ih (p + ps) j (by omega)]
      congr 2
      push_cast
      ring

theorem pushedScanlines_append (a b : List WEvent) :
    pushedScanlines (a ++ b) = pushedScanlines a ++ pushedScanlines b := by
  unfold pushedScanlines
  exact List.filterMap_append _ _ _

theorem reformatLoop_scanlines (mem : Int → Byte) (al g b ps : Int) (width : Nat)
    (pitch : Int) (h : Nat) (p : Int) :
    pushedScanlines (reformatLoop mem al g b ps width pitch h p) =
      (List.range h).map
        (fun k : Nat => reformatRow mem al g b ps width (p + (k : Int) * pitch)) := by
  induction h generalizing p with
  | zero => rfl
  | succ h ih =>
    rw [List.range_succ_eq_map, List.map_cons, List.map_map]
    simp only [reformatLoop, pushedScanlines, List.filterMap_cons, WEvent.scanline?]
    have := ih (p + pitch)
    unfold pushedScanlines at this
    rw [this]
    congr 1
    · simp
    · apply List.map_congr_left
      intro k _
      simp only [Function.comp, Nat.succ_eq_add_one]
      congr 1
      push_cast
      ring

/-- On the reformatting path one scanline is pushed per raster row, top row
first, each built by the per-pixel loop. -/
theorem CommonWriteJPEG_reformat (interp : String) (formatString : FormatArg)
    (blockPtr : Tk_PhotoImageBlock)
    (hfmt : ∀ err, formatString ≠ FormatArg.notList err)
    (hslow : ¬ (blockPtr.offset1 - blockPtr.offset0 = 1 ∧
      blockPtr.offset2 - blockPtr.offset0 = 2 ∧ blockPtr.pixelSize = 3)) :
    (CommonWriteJPEG interp formatString blockPtr).code = TCL_OK ∧
    pushedScanlines (CommonWriteJPEG interp formatString blockPtr).trace =
      (List.range blockPtr.height.toNat).map (fun k : Nat =>
        reformatRow blockPtr.mem (alphaOffset blockPtr)
          (blockPtr.offset1 - blockPtr.offset0) (blockPtr.offset2 - blockPtr.offset0)
          blockPtr.pixelSize blockPtr.width.toNat
          (blockPtr.pixelPtr + blockPtr.offset0 + (k : Int) * blockPtr.pitch)) := by
  cases formatString with
  | notList err => exact absurd rfl (hfmt err)
  | null =>
    unfold CommonWriteJPEG
    dsimp only
    rw [if_neg hslow]
    refine ⟨rfl, ?_⟩
    simp only [pushedScanlines_append, reformatLoop_scanlines]
    split_ifs <;> simp [pushedScanlines, WEvent.scanline?]
  | list args =>
    unfold CommonWriteJPEG
    dsimp only
    rw [if_neg hslow]
    refine ⟨rfl, ?_⟩
    simp only [pushedScanlines_append, reformatLoop_scanlines]
    split_ifs <;> simp [pushedScanlines, WEvent.scanline?]

/-- C9: for every raster laid out with an alpha byte
(`pixelSize > max(offset[0], offset[2]) + 1`) and every pixel (row `k`, column
`j`) whose alpha byte, at `max(offset[0], offset[2]) + 1` within the pixel, is
0: whenever `CommonWriteJPEG` pushes scanline `k` to the codec, which it does
for every format string that is `NULL` or a list, samples `3j`, `3j+1` and
`3j+2` of that scanline are all `0xD9`, whatever the pixel's red, green and
blue bytes are. -/
theorem C9_transparent_pixel_is_d9 (interp : String) (formatString : FormatArg)
    (blockPtr : Tk_PhotoImageBlock) (k j : Nat)
    (hraster : blockPtr.isRaster)
    (hlayout : max blockPtr.offset0 blockPtr.offset2 + 1 < blockPtr.pixelSize)
    (hk : (k : Int) < blockPtr.height) (hj : (j : Int) < blockPtr.width)
    (halpha : blockPtr.mem (blockPtr.pixelPtr + (k : Int) * blockPtr.pitch +
      (j : Int) * blockPtr.pixelSize + (max blockPtr.offset0 blockPtr.offset2 + 1)) = 0) :
    ((∀ err, formatString ≠ FormatArg.notList err) →
      ∃ row, (pushedScanlines (CommonWriteJPEG interp formatString blockPtr).trace)[k]?
        = some row) ∧
    ∀ row, (pushedScanlines (CommonWriteJPEG interp formatString blockPtr).trace)[k]? = some row →
      row[3 * j]? = some 0xd9 ∧ row[3 * j + 1]? = some 0xd9 ∧ row[3 * j + 2]? = some 0xd9 := by
  obtain ⟨_, _, h0, _, _⟩ := hraster
  have hslow : ¬ (blockPtr.offset1 - blockPtr.offset0 = 1 ∧
      blockPtr.offset2 - blockPtr.offset0 = 2 ∧ blockPtr.pixelSize = 3) := by
    rintro ⟨_, h2, h3⟩
    have : blockPtr.offset2 ≤ max blockPtr.offset0 blockPtr.offset2 := le_max_right _ _
    omega
  have hal : alphaOffset blockPtr = max blockPtr.offset0 blockPtr.offset2 + 1 - blockPtr.offset0 := by
    unfold alphaOffset
    dsimp only
    by_cases h02 : blockPtr.offset0 < blockPtr.offset2
    · rw [if_pos h02, max_eq_right (le_of_lt h02)] at *
      rw [if_pos hlayout]
    · rw [if_neg h02, max_eq_left (not_lt.mp h02)] at *
      rw [if_pos hlayout]
  have hal0 : alphaOffset blockPtr ≠ 0 := by
    rw [hal]
    have : blockPtr.offset0 ≤ max blockPtr.offset0 blockPtr.offset2 := le_max_left _ _
    omega
  have hk2 : k < blockPtr.height.toNat := by omega
  have hj2 : j < blockPtr.width.toNat := by omega
  have hpix : reformatPixel blockPtr.mem (alphaOffset blockPtr)
      (blockPtr.offset1 - blockPtr.offset0) (blockPtr.offset2 - blockPtr.offset0)
      (blockPtr.pixelPtr + blockPtr.offset0 + (k : Int) * blockPtr.pitch +
        (j : Int) * blockPtr.pixelSize) = [0xd9, 0xd9, 0xd9] := by
    unfold reformatPixel
    rw [if_pos]
    refine ⟨hal0, ?_⟩
    rw [hal, ← halpha]
    congr 1
    ring
  constructor
  · intro hfmt
    rw [(CommonWriteJPEG_reformat interp formatString blockPtr hfmt hslow).2]
    exact ⟨_, by rw [List.getElem?_map, List.getElem?_range hk2]; rfl⟩
  · intro row hrow
    cases formatString with
    | notList err =>
      exfalso
      have : pushedScanlines
          (CommonWriteJPEG interp (FormatArg.notList err) blockPtr).trace = [] := rfl
      rw [this] at hrow
      simp at hrow
    | null =>
      rw [(CommonWriteJPEG_reformat interp FormatArg.null blockPtr
        (fun err h => by cases h) hslow).2, List.getElem?_map, List.getElem?_range hk2] at hrow
      simp only [Option.map_some', Option.some.injEq] at hrow
      subst hrow
      have e := fun c hc => reformatRow_getElem blockPtr.mem (alphaOffset blockPtr)
        (blockPtr.offset1 - blockPtr.offset0) (blockPtr.offset2 - blockPtr.offset0)
        blockPtr.pixelSize blockPtr.width.toNat
        (blockPtr.pixelPtr + blockPtr.offset0 + (k : Int) * blockPtr.pitch) j c hj2 hc
      refine ⟨?_, ?_, ?_⟩
      · have := e 0 (by omega)
        rw [hpix] at this
        simpa using this
      · have := e 1 (by omega)
        rw [hpix] at this
        simpa using this
      · have := e 2 (by omega)
        rw [hpix] at this
        simpa using this
    | list args =>
      rw [(CommonWriteJPEG_reformat interp (FormatArg.list args) blockPtr
        (fun err h => by cases h) hslow).2, List.getElem?_map, List.getElem?_range hk2] at hrow
      simp only [Option.map_some', Option.some.injEq] at hrow
      subst hrow
      have e := fun c hc => reformatRow_getElem blockPtr.mem (alphaOffset blockPtr)
        (blockPtr.offset1 - blockPtr.offset0) (blockPtr.offset2 - blockPtr.offset0)
        blockPtr.pixelSize blockPtr.width.toNat
        (blockPtr.pixelPtr + blockPtr.offset0 + (k : Int) * blockPtr.pitch) j c hj2 hc
      refine ⟨?_, ?_, ?_⟩
      · have := e 0 (by omega)
        rw [hpix] at this
        simpa using this
      · have := e 1 (by omega)
        rw [hpix] at this
        simpa using this
      · have := e 2 (by omega)
        rw [hpix] at this
        simpa using this

/-- Witness for C9: pixel (row 0, column 1) of a 2x2 RGBA raster has alpha
byte 0. -/
theorem C9_transparent_pixel_is_d9_witness :
    rgba2x2.isRaster ∧
    ((∀ err, FormatArg.null ≠ FormatArg.notList err) →
      ∃ row, (pushedScanlines (CommonWriteJPEG "" FormatArg.null rgba2x2).trace)[0]?
        = some row) ∧
    ∀ row, (pushedScanlines (CommonWriteJPEG "" FormatArg.null rgba2x2).trace)[0]? = some row →
      row[3 * 1]? = some 0xd9 ∧ row[3 * 1 + 1]? = some 0xd9 ∧ row[3 * 1 + 2]? = some 0xd9 :=
  ⟨by unfold Tk_PhotoImageBlock.isRaster; decide,
   C9_transparent_pixel_is_d9 "" FormatArg.null rgba2x2 0 1
     (by unfold Tk_PhotoImageBlock.isRaster; decide) (by decide) (by decide) (by decide)
     (by decide)⟩

/-- C10: on the reformatting path of `CommonWriteJPEG` (the format string is
`NULL` or a list and the raster is not in contiguous 3-byte red-green-blue
layout) the scanlines pushed to the codec are exactly `height` rows, the
`k`-th built from raster row `k`, each of `3*width` samples; for every row `k`
and column `j` whose pixel is not treated as transparent, samples `3j`, `3j+1`
and `3j+2` of scanline `k` are the raster bytes at
`pixelPtr + k*pitch + j*pixelSize + offset[0]`, `+ offset[1]` and
`+ offset[2]`. -/
theorem C10_reformat_path_copies_channels (interp : String) (formatString : FormatArg)
    (blockPtr : Tk_PhotoImageBlock)
    (hraster : blockPtr.isRaster)
    (hfmt : ∀ err, formatString ≠ FormatArg.notList err)
    (hslow : ¬ (blockPtr.offset1 - blockPtr.offset0 = 1 ∧
      blockPtr.offset2 - blockPtr.offset0 = 2 ∧ blockPtr.pixelSize = 3)) :
    ((pushedScanlines (CommonWriteJPEG interp formatString blockPtr).trace).length : Int)
      = blockPtr.height ∧
    ∀ k : Nat, (k : Int) < blockPtr.height →
      ∃ row, (pushedScanlines (CommonWriteJPEG interp formatString blockPtr).trace)[k]?
          = some row ∧
        (row.length : Int) = 3 * blockPtr.width ∧
        ∀ j : Nat, (j : Int) < blockPtr.width → ¬ treatedTransparent blockPtr k j →
          row[3 * j]? = some (blockPtr.mem (blockPtr.pixelPtr + (k : Int) * blockPtr.pitch +
            (j : Int) * blockPtr.pixelSize + blockPtr.offset0)) ∧
          row[3 * j + 1]? = some (blockPtr.mem (blockPtr.pixelPtr + (k : Int) * blockPtr.pitch +
            (j : Int) * blockPtr.pixelSize + blockPtr.offset1)) ∧
          row[3 * j + 2]? = some (blockPtr.mem (blockPtr.pixelPtr + (k : Int) * blockPtr.pitch +
            (j : Int) * blockPtr.pixelSize + blockPtr.offset2)) := by
  obtain ⟨hw0, hh0, _, _, _⟩ := hraster
  rw [(CommonWriteJPEG_reformat interp formatString blockPtr hfmt hslow).2]
  constructor
  · rw [List.length_map, List.length_range]
    omega
  · intro k hk
    have hk2 : k < blockPtr.height.toNat := by omega
    refine ⟨_, by rw [List.getElem?_map, List.getElem?_range hk2]; rfl, ?_, ?_⟩
    · rw [reformatRow_length]
      push_cast
      omega
    · intro j hj htr
      have hj2 : j < blockPtr.width.toNat := by omega
      have hpix : reformatPixel blockPtr.mem (alphaOffset blockPtr)
          (blockPtr.offset1 - blockPtr.offset0) (blockPtr.offset2 - blockPtr.offset0)
          (blockPtr.pixelPtr + blockPtr.offset0 + (k : Int) * blockPtr.pitch +
            (j : Int) * blockPtr.pixelSize) =
          [blockPtr.mem (blockPtr.pixelPtr + (k : Int) * blockPtr.pitch +
              (j : Int) * blockPtr.pixelSize + blockPtr.offset0),
           blockPtr.mem (blockPtr.pixelPtr + (k : Int) * blockPtr.pitch +
              (j : Int) * blockPtr.pixelSize + blockPtr.offset1),
           blockPtr.mem (blockPtr.pixelPtr + (k : Int) * blockPtr.pitch +
              (j : Int) * blockPtr.pixelSize + blockPtr.offset2)] := by
        have htr2 := htr
        unfold treatedTransparent at htr2
        unfold reformatPixel
        rw [if_neg htr2]
        have e0 : blockPtr.pixelPtr + blockPtr.offset0 + (k : Int) * blockPtr.pitch +
            (j : Int) * blockPtr.pixelSize = blockPtr.pixelPtr + (k : Int) * blockPtr.pitch +
            (j : Int) * blockPtr.pixelSize + blockPtr.offset0 := by ring
        have e1 : blockPtr.pixelPtr + blockPtr.offset0 + (k : Int) * blockPtr.pitch +
            (j : Int) * blockPtr.pixelSize + (blockPtr.offset1 - blockPtr.offset0) =
            blockPtr.pixelPtr + (k : Int) * blockPtr.pitch +
            (j : Int) * blockPtr.pixelSize + blockPtr.offset1 := by ring
        have e2 : blockPtr.pixelPtr + blockPtr.offset0 + (k : Int) * blockPtr.pitch +
            (j : Int) * blockPtr.pixelSize + (blockPtr.offset2 - blockPtr.offset0) =
            blockPtr.pixelPtr + (k : Int) * blockPtr.pitch +
            (j : Int) * blockPtr.pixelSize + blockPtr.offset2 := by ring
        rw [e1, e2, e0]
      have e := fun c hc => reformatRow_getElem blockPtr.mem (alphaOffset blockPtr)
        (blockPtr.offset1 - blockPtr.offset0) (blockPtr.offset2 - blockPtr.offset0)
        blockPtr.pixelSize blockPtr.width.toNat
        (blockPtr.pixelPtr + blockPtr.offset0 + (k : Int) * blockPtr.pitch) j c hj2 hc
      refine ⟨?_, ?_, ?_⟩
      · have := e 0 (by omega)
        rw [hpix] at this
        simpa using this
      · have := e 1 (by omega)
        rw [hpix] at this
        simpa using this
      · have := e 2 (by omega)
        rw [hpix] at this
        simpa using this

/-- Witness for C10: the 2x2 RGBA raster with 4 bytes of row padding. -/
theorem C10_reformat_path_copies_channels_witness :
    rgba2x2.isRaster ∧
    ((pushedScanlines (CommonWriteJPEG "" FormatArg.null rgba2x2).trace).length : Int)
      = rgba2x2.height ∧
    ∀ k : Nat, (k : Int) < rgba2x2.height →
      ∃ row, (pushedScanlines (CommonWriteJPEG "" FormatArg.null rgba2x2).trace)[k]?
          = some row ∧
        (row.length : Int) = 3 * rgba2x2.width ∧
        ∀ j : Nat, (j : Int) < rgba2x2.width → ¬ treatedTransparent rgba2x2 k j →
          row[3 * j]? = some (rgba2x2.mem (rgba2x2.pixelPtr + (k : Int) * rgba2x2.pitch +
            (j : Int) * rgba2x2.pixelSize + rgba2x2.offset0)) ∧
          row[3 * j + 1]? = some (rgba2x2.mem (rgba2x2.pixelPtr + (k : Int) * rgba2x2.pitch +
            (j : Int) * rgba2x2.pixelSize + rgba2x2.offset1)) ∧
          row[3 * j + 2]? = some (rgba2x2.mem (rgba2x2.pixelPtr + (k : Int) * rgba2x2.pitch +
            (j : Int) * rgba2x2.pixelSize + rgba2x2.offset2)) :=
  ⟨by unfold Tk_PhotoImageBlock.isRaster; decide,
   C10_reformat_path_copies_channels "" FormatArg.null rgba2x2
     (by unfold Tk_PhotoImageBlock.isRaster; decide) (fun err h => by cases h) (by decide)⟩

theorem directLoop_events (mem : Int → Byte) (samples : Nat) (pitch : Int) (h : Nat) (p : Int) :
    ∀ e ∈ directLoop mem samples pitch h p, ∃ row, e = WEvent.write_scanlines row := by
  induction h generalizing p with
  | zero => intro e he; cases he
  | succ h ih =>
    intro e he
    simp only [directLoop, List.mem_cons] at he
    rcases he with rfl | he
    · exact ⟨_, rfl⟩
    · exact ih _ e he

theorem reformatLoop_events (mem : Int → Byte) (al g b ps : Int) (width : Nat)
    (pitch : Int) (h : Nat) (p : Int) :
    ∀ e ∈ reformatLoop mem al g b ps width pitch h p, ∃ row, e = WEvent.write_scanlines row := by
  induction h generalizing p with
  | zero => intro e he; cases he
  | succ h ih =>
    intro e he
    simp only [reformatLoop, List.mem_cons] at he
    rcases he with rfl | he
    · exact ⟨_, rfl⟩
    · exact ih _ e he

/-- A dimension that is not negative is converted to `JDIMENSION` unchanged. -/
theorem JDIMENSION_of_int_nonneg (v : Int) (h : 0 ≤ v) : JDIMENSION_of_int v = v := by
  unfold JDIMENSION_of_int
  rw [if_neg (by omega)]

/-- On the values an `int` can hold, `JDIMENSION_of_int` is reduction modulo
`2^32`. -/
theorem JDIMENSION_of_int_eq_mod (v : Int) (h1 : INT_MIN ≤ v) (h2 : v ≤ INT_MAX) :
    JDIMENSION_of_int v = v % 4294967296 := by
  unfold JDIMENSION_of_int
  unfold INT_MIN at h1
  unfold INT_MAX at h2
  split_ifs <;> omega

/-- With a format string that is `NULL` or a list, Grayscale is requested
exactly when the green and blue offsets equal the red one. -/
theorem CommonWriteJPEG_grayscale_iff (interp : String) (formatString : FormatArg)
    (blockPtr : Tk_PhotoImageBlock)
    (hfmt : ∀ err, formatString ≠ FormatArg.notList err) :
    requestsGrayscale (CommonWriteJPEG interp formatString blockPtr).trace ↔
      (blockPtr.offset1 = blockPtr.offset0 ∧ blockPtr.offset2 = blockPtr.offset0) := by
  have hd := directLoop_events blockPtr.mem (JDIMENSION_of_int blockPtr.width * 3).toNat blockPtr.pitch
    blockPtr.height.toNat (blockPtr.pixelPtr + blockPtr.offset0)
  have hr := reformatLoop_events blockPtr.mem (alphaOffset blockPtr)
    (blockPtr.offset1 - blockPtr.offset0) (blockPtr.offset2 - blockPtr.offset0)
    blockPtr.pixelSize blockPtr.width.toNat blockPtr.pitch blockPtr.height.toNat
    (blockPtr.pixelPtr + blockPtr.offset0)
  have hnd : WEvent.set_colorspace J_COLOR_SPACE.JCS_GRAYSCALE ∉
      directLoop blockPtr.mem (JDIMENSION_of_int blockPtr.width * 3).toNat blockPtr.pitch
        blockPtr.height.toNat (blockPtr.pixelPtr + blockPtr.offset0) := by
    intro h
    obtain ⟨row, hrow⟩ := hd _ h
    cases hrow
  have hnr : WEvent.set_colorspace J_COLOR_SPACE.JCS_GRAYSCALE ∉
      reformatLoop blockPtr.mem (alphaOffset blockPtr)
        (blockPtr.offset1 - blockPtr.offset0) (blockPtr.offset2 - blockPtr.offset0)
        blockPtr.pixelSize blockPtr.width.toNat blockPtr.pitch blockPtr.height.toNat
        (blockPtr.pixelPtr + blockPtr.offset0) := by
    intro h
    obtain ⟨row, hrow⟩ := hr _ h
    cases hrow
  have hiff : (blockPtr.offset1 - blockPtr.offset0 = 0 ∧ blockPtr.offset2 - blockPtr.offset0 = 0)
      ↔ (blockPtr.offset1 = blockPtr.offset0 ∧ blockPtr.offset2 = blockPtr.offset0) := by
    constructor <;> rintro ⟨h1, h2⟩ <;> constructor <;> omega
  rw [← hiff]
  unfold requestsGrayscale
  cases formatString with
  | notList err => exact absurd rfl (hfmt err)
  | null =>
    unfold CommonWriteJPEG
    dsimp only
    split_ifs <;> simp_all [jpeg_set_colorspace_present]
  | list args =>
    unfold CommonWriteJPEG
    dsimp only
    split_ifs <;> simp_all [jpeg_set_colorspace_present]

/-- C11 as stated fails: with a format string that is not a list the session
is configured (width, height, 3 components, RGB) but `CommonWriteJPEG` returns
before asking for Grayscale, although the green and blue offsets of the raster
equal the red one. -/
theorem C11_counterexample :
    gray2x2.offset1 = gray2x2.offset0 ∧ gray2x2.offset2 = gray2x2.offset0 ∧
    (CommonWriteJPEG "" (FormatArg.notList "unmatched open brace in list") gray2x2).image_width
      = gray2x2.width ∧
    ¬ requestsGrayscale
      (CommonWriteJPEG "" (FormatArg.notList "unmatched open brace in list") gray2x2).trace := by
  refine ⟨rfl, rfl, rfl, ?_⟩
  unfold requestsGrayscale
  decide

/-- C11 (amended): for every raster (dimensions and offsets not negative) and
every format string that is `NULL` or a well-formed list, `CommonWriteJPEG`
configures the session with image width and height equal to the raster's,
3 input components and RGB input colour space, and it
requests the Grayscale output colour space if and only if the raster's green
and blue channel offsets both equal its red offset. -/
theorem C11_session_parameters (interp : String) (formatString : FormatArg)
    (blockPtr : Tk_PhotoImageBlock)
    (hraster : blockPtr.isRaster)
    (hfmt : ∀ err, formatString ≠ FormatArg.notList err) :
    (CommonWriteJPEG interp formatString blockPtr).image_width = blockPtr.width ∧
    (CommonWriteJPEG interp formatString blockPtr).image_height = blockPtr.height ∧
    (CommonWriteJPEG interp formatString blockPtr).input_components = 3 ∧
    (CommonWriteJPEG interp formatString blockPtr).in_color_space = J_COLOR_SPACE.JCS_RGB ∧
    (requestsGrayscale (CommonWriteJPEG interp formatString blockPtr).trace ↔
      (blockPtr.offset1 = blockPtr.offset0 ∧ blockPtr.offset2 = blockPtr.offset0)) := by
  obtain ⟨hw0, hh0, _, _, _⟩ := hraster
  have hw := JDIMENSION_of_int_nonneg blockPtr.width hw0
  have hh := JDIMENSION_of_int_nonneg blockPtr.height hh0
  refine ⟨?_, ?_, ?_, ?_, CommonWriteJPEG_grayscale_iff interp formatString blockPtr hfmt⟩
  · cases formatString <;> exact hw
  · cases formatString <;> exact hh
  · cases formatString <;> rfl
  · cases formatString <;> rfl

/-- Witness for C11 (amended): the one-sample-per-pixel raster, no format
string. -/
theorem C11_session_parameters_witness :
    (CommonWriteJPEG "" FormatArg.null gray2x2).image_width = gray2x2.width ∧
    (CommonWriteJPEG "" FormatArg.null gray2x2).image_height = gray2x2.height ∧
    (CommonWriteJPEG "" FormatArg.null gray2x2).input_components = 3 ∧
    (CommonWriteJPEG "" FormatArg.null gray2x2).in_color_space = J_COLOR_SPACE.JCS_RGB ∧
    (requestsGrayscale (CommonWriteJPEG "" FormatArg.null gray2x2).trace ↔
      (gray2x2.offset1 = gray2x2.offset0 ∧ gray2x2.offset2 = gray2x2.offset0)) :=
  C11_session_parameters "" FormatArg.null gray2x2
    ⟨by decide, by decide, by decide, by decide, by decide⟩ (fun err h => by cases h)

/-- C12 as stated fails: in a raster of 3-byte `R G B` pixels whose bytes are
all 128, red == green == blue for every pixel, yet encoding it with no format
string does not request the Grayscale colour space. -/
theorem C12_counterexample :
    (∀ x y : Int, (allGray2x2.pixel x y).1 = (allGray2x2.pixel x y).2.1 ∧
      (allGray2x2.pixel x y).2.1 = (allGray2x2.pixel x y).2.2) ∧
    ¬ requestsGrayscale (CommonWriteJPEG "" FormatArg.null allGray2x2).trace := by
  refine ⟨fun x y => ⟨rfl, rfl⟩, ?_⟩
  unfold requestsGrayscale
  decide

/-- C12 (amended): for every raster whose green and blue channel offsets both
equal its red offset (so that red == green == blue for every pixel), encoding
with no format string through `CommonWriteJPEG` requests the Grayscale colour
space. -/
theorem C12_gray_layout_requests_grayscale (interp : String) (blockPtr : Tk_PhotoImageBlock)
    (h1 : blockPtr.offset1 = blockPtr.offset0) (h2 : blockPtr.offset2 = blockPtr.offset0) :
    (∀ x y : Int, (blockPtr.pixel x y).1 = (blockPtr.pixel x y).2.1 ∧
      (blockPtr.pixel x y).2.1 = (blockPtr.pixel x y).2.2) ∧
    requestsGrayscale (CommonWriteJPEG interp FormatArg.null blockPtr).trace := by
  constructor
  · intro x y
    simp only [Tk_PhotoImageBlock.pixel, h1, h2, and_self]
  · exact (CommonWriteJPEG_grayscale_iff interp FormatArg.null blockPtr
      (fun err h => by cases h)).mpr ⟨h1, h2⟩

/-- Witness for C12 (amended): the one-sample-per-pixel raster. -/
theorem C12_gray_layout_requests_grayscale_witness :
    gray2x2.offset1 = gray2x2.offset0 ∧ gray2x2.offset2 = gray2x2.offset0 ∧
    (∀ x y : Int, (gray2x2.pixel x y).1 = (gray2x2.pixel x y).2.1 ∧
      (gray2x2.pixel x y).2.1 = (gray2x2.pixel x y).2.2) ∧
    requestsGrayscale (CommonWriteJPEG "" FormatArg.null gray2x2).trace :=
  ⟨rfl, rfl, C12_gray_layout_requests_grayscale "" gray2x2 rfl rfl⟩

/-- C13 (code at the failing input): with the format string
`jpeg -grayscale` and a raster in `R G B A` layout, `CommonWriteJPEG` leaves
the static `grayscale` at 0 and never requests the Grayscale colour space. -/
theorem C13_grayscale_option_ignored :
    (CommonWriteJPEG "" (FormatArg.list ["jpeg", "-grayscale"]) rgba2x2).code = TCL_OK ∧
    (CommonWriteJPEG "" (FormatArg.list ["jpeg", "-grayscale"]) rgba2x2).grayscale = 0 ∧
    ¬ requestsGrayscale
      (CommonWriteJPEG "" (FormatArg.list ["jpeg", "-grayscale"]) rgba2x2).trace := by
  refine ⟨rfl, rfl, ?_⟩
  unfold requestsGrayscale
  decide

/-! ### The segment skip of `CommonMatchJPEG` -/

theorem markerLoop_succ (fuel : Nat) (st : MState) :
    markerLoop (fuel + 1) st =
      match padLoop (st.handle.length + 1) st with
      | Loop.diverge => Loop.diverge
      | Loop.return0 s => Loop.return0 s
      | Loop.done st1 =>
        if st1.buf 0 = 0xc0 ∨ st1.buf 0 = 0xc1 ∨ st1.buf 0 = 0xc2 then Loop.done st1
        else
          match skipSegment st1 with
          | Loop.diverge => Loop.diverge
          | Loop.return0 s => Loop.return0 s
          | Loop.done st2 =>
            match junkLoop (st2.handle.length + 1) st2 with
            | Loop.diverge => Loop.diverge
            | Loop.return0 s => Loop.return0 s
            | Loop.done st3 => markerLoop fuel st3 := rfl

theorem padLoop_not_ff (fuel : Nat) (st : MState) (hb : st.buf 0 ≠ 0xff) :
    padLoop (fuel + 1) st = Loop.done st := by
  unfold padLoop
  rw [if_neg hb]

theorem chunkLoop_length (fuel : Nat) (i i1 : Int) (st st1 : MState)
    (h : chunkLoop fuel i st = some (i1, st1)) :
    st1.handle.length = st.handle.length - (i - i1).toNat := by
  induction fuel generalizing i st with
  | zero => simp [chunkLoop] at h
  | succ fuel ih =>
    unfold chunkLoop at h
    split_ifs at h with hi
    · have h2 := ih _ _ h
      obtain ⟨_, _, hle, _, _⟩ := chunkLoop_reach _ _ _ _ _ h
      rw [h2, ImgRead_length]
      omega
    · simp only [Option.some.injEq, Prod.mk.injEq] at h
      obtain ⟨h1, h2⟩ := h
      subst h1; subst h2
      simp

/-- A segment whose declared length is below 2, or whose bytes run out, ends
the call with `return 0`. -/
theorem skipSegment_fails (st : MState) (hi lo : Byte) (rest : List Byte)
    (hh : st.handle = hi :: lo :: rest)
    (hbad : ¬ (2 ≤ 256 * hi.val + lo.val ∧ 256 * hi.val + lo.val - 2 < rest.length)) :
    ∃ s, skipSegment st = Loop.return0 s := by
  rcases skipSegment_cases st with ⟨s, hs, _⟩ | ⟨s, hs, _, _⟩
  · exact ⟨s, hs⟩
  · exfalso
    apply hbad
    obtain ⟨r1, r2, r3⟩ := ImgRead_full st 2 (by rw [hh]; simp)
    have hb0 : (ImgRead st 2).2.buf 0 = hi := by rw [r3 0 (by omega), hh]; rfl
    have hb1 : (ImgRead st 2).2.buf 1 = lo := by rw [r3 1 (by omega), hh]; rfl
    have hh2 : (ImgRead st 2).2.handle = rest := by rw [r2, hh]; rfl
    have hi_eq : ((((hi.val <<< 8) + lo.val : Nat) : Int) - 1) =
        ((256 * hi.val + lo.val : Nat) : Int) - 1 := by
      rw [Nat.shiftLeft_eq]
      push_cast
      omega
    unfold skipSegment at hs
    dsimp only at hs
    rw [if_neg (by rw [r1]; simp), hb0, hb1, hi_eq] at hs
    split at hs
    · cases hs
    · rename_i i1 st1 hc
      obtain ⟨_, h256, hle, hlt, hpos⟩ := chunkLoop_reach _ _ _ _ _ hc
      have hlen := chunkLoop_length _ _ _ _ _ hc
      rw [hh2] at hlen
      split_ifs at hs with hi1 hrd
      have hfull : ((ImgRead st1 i1.toNat).1 : Int) = i1 := by
        by_contra hne
        exact hrd hne
      rw [ImgRead_fst] at hfull
      have hL : (1 : Int) ≤ ((256 * hi.val + lo.val : Nat) : Int) - 1 := by
        by_contra hneg
        have := hlt (by omega)
        omega
      constructor
      · omega
      · omega

/-- C20: when the marker type byte in `buf[0]` is not a start-of-frame,
`CommonMatchJPEG` reads the 2-byte big-endian length `L`; if `L >= 2` and the
stream holds the `L - 2` payload bytes and one byte more, exactly `L - 2`
bytes are skipped and the marker search resumes with the byte right after
them in `buf[0]` (the inter-marker loop inspects it first) and the stream
positioned behind that byte; otherwise the call returns 0. -/
theorem C20_skips_length_minus_two (fuel : Nat) (st : MState) (Lhi Llo : Byte)
    (rest : List Byte)
    (hff : st.buf 0 ≠ 0xff)
    (hsof : ¬ (st.buf 0 = 0xc0 ∨ st.buf 0 = 0xc1 ∨ st.buf 0 = 0xc2))
    (hh : st.handle = Lhi :: Llo :: rest) :
    ((2 ≤ 256 * Lhi.val + Llo.val ∧ 256 * Lhi.val + Llo.val - 2 < rest.length) →
      ∃ st2, skipSegment st = Loop.done st2 ∧
        st2.handle = rest.drop (256 * Lhi.val + Llo.val - 2 + 1) ∧
        st2.buf 0 = rest.getD (256 * Lhi.val + Llo.val - 2) 0 ∧
        markerLoop (fuel + 1) st =
          (match junkLoop (st2.handle.length + 1) st2 with
           | Loop.diverge => Loop.diverge
           | Loop.return0 s => Loop.return0 s
           | Loop.done st3 => markerLoop fuel st3)) ∧
    (¬ (2 ≤ 256 * Lhi.val + Llo.val ∧ 256 * Lhi.val + Llo.val - 2 < rest.length) →
      ∃ s, skipSegment st = Loop.return0 s ∧ markerLoop (fuel + 1) st = Loop.return0 s) := by
  have hstep : markerLoop (fuel + 1) st =
      (match skipSegment st with
       | Loop.diverge => Loop.diverge
       | Loop.return0 s => Loop.return0 s
       | Loop.done st2 =>
         match junkLoop (st2.handle.length + 1) st2 with
         | Loop.diverge => Loop.diverge
         | Loop.return0 s => Loop.return0 s
         | Loop.done st3 => markerLoop fuel st3) := by
    rw [markerLoop_succ, padLoop_not_ff _ _ hff]
    dsimp only
    rw [if_neg hsof]
  constructor
  · rintro ⟨hL, hlen⟩
    obtain ⟨st2, hs, h1, h2⟩ := skipSegment_exact st Lhi Llo
      (rest.take (256 * Lhi.val + Llo.val - 1)) (rest.drop (256 * Lhi.val + Llo.val - 1))
      (by rw [List.take_append_drop]; exact hh)
      (by rw [List.length_take]; omega) (by rw [List.length_take]; omega)
    refine ⟨st2, hs, ?_, ?_, ?_⟩
    · rw [h1]
      congr 1
      omega
    · rw [h2, List.length_take]
      have e : min (256 * Lhi.val + Llo.val - 1) rest.length - 1 =
          256 * Lhi.val + Llo.val - 2 := by omega
      rw [e]
      simp only [List.getD_eq_getElem?_getD]
      rw [List.getElem?_take_of_lt (by omega)]
    · rw [hstep, hs]
  · intro hbad
    obtain ⟨s, hs⟩ := skipSegment_fails st Lhi Llo rest hh hbad
    exact ⟨s, hs, by rw [hstep, hs]⟩

/-- Witness for C20: type byte `E0`, declared length 4, two payload bytes; the
search resumes at the `FF` that follows them. -/
theorem C20_skips_length_minus_two_witness :
    segmentState.buf 0 ≠ 0xff ∧
    ((2 ≤ 256 * (0 : Byte).val + (4 : Byte).val ∧
        256 * (0 : Byte).val + (4 : Byte).val - 2 < ([1, 2, 0xff, 0xc0] : List Byte).length) →
      ∃ st2, skipSegment segmentState = Loop.done st2 ∧
        st2.handle = ([1, 2, 0xff, 0xc0] : List Byte).drop
          (256 * (0 : Byte).val + (4 : Byte).val - 2 + 1) ∧
        st2.buf 0 = ([1, 2, 0xff, 0xc0] : List Byte).getD
          (256 * (0 : Byte).val + (4 : Byte).val - 2) 0 ∧
        markerLoop (5 + 1) segmentState =
          (match junkLoop (st2.handle.length + 1) st2 with
           | Loop.diverge => Loop.diverge
           | Loop.return0 s => Loop.return0 s
           | Loop.done st3 => markerLoop 5 st3)) ∧
    (¬ (2 ≤ 256 * (0 : Byte).val + (4 : Byte).val ∧
        256 * (0 : Byte).val + (4 : Byte).val - 2 < ([1, 2, 0xff, 0xc0] : List Byte).length) →
      ∃ s, skipSegment segmentState = Loop.return0 s ∧
        markerLoop (5 + 1) segmentState = Loop.return0 s) :=
  ⟨by decide,
   C20_skips_length_minus_two 5 segmentState 0 4 [1, 2, 0xff, 0xc0] (by decide) (by decide) rfl⟩

/-! ### Scanline count and finalisation of `CommonReadJPEG` -/

/-- The scanline loop appends only scanline reads and raster writes to the
trace, one read per iteration. -/
theorem scanLoop_trace (cinfo : Decompress) (block : List Byte → Tk_PhotoImageBlock)
    (destX outW srcY : Int) (n : Nat) (curY outY : Int) (st : RState)
    (hH : st.output_scanline + n ≤ cinfo.output_height) :
    ∃ evs, (scanLoop cinfo block destX outW srcY n curY outY st).trace = st.trace ++ evs ∧
      scanlineReads evs = n ∧
      (∀ e ∈ evs, e.isFinish = false ∧ e.isAbort = false) ∧
      (scanLoop cinfo block destX outW srcY n curY outY st).output_scanline
        = st.output_scanline + n := by
  induction n generalizing curY outY st with
  | zero => exact ⟨[], by simp [scanLoop], rfl, by simp, by simp [scanLoop]⟩
  | succ n ih =>
    have hlt : st.output_scanline < cinfo.output_height := by omega
    have hnext := jpeg_read_scanlines_next cinfo st hlt
    rw [scanLoop_succ]
    split_ifs with hc
    · obtain ⟨evs, h1, h2, h3, h4⟩ := ih (curY + 1) (wrapInt (outY + 1))
        { jpeg_read_scanlines cinfo st with trace := (jpeg_read_scanlines cinfo st).trace ++
            [REvent.photoPutBlock (block (jpeg_read_scanlines cinfo st).buffer)
              destX outY outW 1] }
        (by rw [hnext]; dsimp only; omega)
      refine ⟨REvent.read_scanlines st.output_scanline ::
        REvent.photoPutBlock (block (cinfo.scanline st.output_scanline)) destX outY outW 1 ::
        evs, ?_, ?_, ?_, ?_⟩
      · rw [h1, hnext]
        simp
      · simp only [scanlineReads, List.countP_cons, REvent.readsScanline] at h2 ⊢
        simp [h2]
      · intro e he
        simp only [List.mem_cons] at he
        rcases he with rfl | rfl | he
        · exact ⟨rfl, rfl⟩
        · exact ⟨rfl, rfl⟩
        · exact h3 e he
      · rw [h4, hnext]
        dsimp only
        omega
    · obtain ⟨evs, h1, h2, h3, h4⟩ := ih (curY + 1) outY (jpeg_read_scanlines cinfo st)
        (by rw [hnext]; dsimp only; omega)
      refine ⟨REvent.read_scanlines st.output_scanline :: evs, ?_, ?_, ?_, ?_⟩
      · rw [h1, hnext]
        simp
      · simp only [scanlineReads, List.countP_cons, REvent.readsScanline] at h2 ⊢
        simp [h2]
      · intro e he
        simp only [List.mem_cons] at he
        rcases he with rfl | he
        · exact ⟨rfl, rfl⟩
        · exact h3 e he
      · rw [h4, hnext]
        dsimp only
        omega

/-- When `srcY + height` overflows, so does `stopY`: for `srcY = 1` and
`height = INT_MAX` on the 4x4 RGB image the region passes the emptiness check
with `outHeight = INT_MAX`, `stopY` wraps to `INT_MIN`, no scanline is read and
the session is aborted. -/
theorem CommonReadJPEG_stopY_wraps :
    outHeight rgb4x4.output_height 2147483647 1 = 2147483647 ∧
    wrapInt (1 + outHeight rgb4x4.output_height 2147483647 1) = INT_MIN ∧
    scanlineReads (CommonReadJPEG "" rgb4x4 FormatArg.null 0 0 4 2147483647 0 1).trace = 0 ∧
    ((CommonReadJPEG "" rgb4x4 FormatArg.null 0 0 4 2147483647 0 1).trace.map
      REvent.isAbort).getLast? = some true := by
  refine ⟨by decide, by decide, by decide, ?_⟩
  decide

/-- C19 as stated fails: on an 8-bit CMYK stream a request with a non-empty
region and `srcY = 0` reads no scanline at all (`srcY + outHeight` is 4) and
calls neither the finish nor the abort step. -/
theorem C19_counterexample :
    0 < outWidth cmyk4x4.output_width 4 0 ∧ 0 < outHeight cmyk4x4.output_height 4 0 ∧
    (0 : Int) + outHeight cmyk4x4.output_height 4 0 = 4 ∧
    scanlineReads (CommonReadJPEG "" cmyk4x4 FormatArg.null 0 0 4 4 0 0).trace = 0 ∧
    ∀ e ∈ (CommonReadJPEG "" cmyk4x4 FormatArg.null 0 0 4 4 0 0).trace,
      e.isFinish = false ∧ e.isAbort = false := by
  refine ⟨by decide, by decide, by decide, rfl, ?_⟩
  decide

/-- C19 (amended): for every decode of an 8-bit-precision Grayscale or RGB
stream with a format string that is `NULL` or a well-formed list, a non-empty
region, `srcY >= 0` and no `int` overflow in `srcY + height`, the decoder
yielding one scanline per read: `outHeight` is `min(height, fileHeight -
srcY)`, `CommonReadJPEG` reads exactly `srcY + outHeight` scanlines and then,
as its last external call, calls exactly one of the finish and abort steps: the
finish step if `srcY + outHeight` equals the image height, the abort step
otherwise. -/
theorem C19_reads_then_finish_or_abort (interp : String) (cinfo : Decompress)
    (formatString : FormatArg) (destX destY width height srcX srcY : Int)
    (hprec : cinfo.data_precision = 8)
    (hfmt : ∀ err, formatString ≠ FormatArg.notList err)
    (hcs : cinfo.out_color_space = J_COLOR_SPACE.JCS_GRAYSCALE ∨
      cinfo.out_color_space = J_COLOR_SPACE.JCS_RGB)
    (hw : 0 < outWidth cinfo.output_width width srcX)
    (hh : 0 < outHeight cinfo.output_height height srcY)
    (hx : srcX < cinfo.output_width)
    (hy0 : 0 ≤ srcY) (hy : srcY < cinfo.output_height)
    (hov : INT_MIN ≤ srcY + height ∧ srcY + height ≤ INT_MAX) :
    outHeight cinfo.output_height height srcY = min height (cinfo.output_height - srcY) ∧
    ∃ pre last,
      (CommonReadJPEG interp cinfo formatString destX destY width height srcX srcY).trace
        = pre ++ [last] ∧
      (scanlineReads pre : Int) = srcY + outHeight cinfo.output_height height srcY ∧
      (∀ e ∈ pre, e.isFinish = false ∧ e.isAbort = false) ∧
      (srcY + outHeight cinfo.output_height height srcY = cinfo.output_height →
        last = REvent.finish_decompress) ∧
      (srcY + outHeight cinfo.output_height height srcY ≠ cinfo.output_height →
        last = REvent.abort_decompress) := by
  have hp : ¬ (cinfo.data_precision ≠ 8 ∨ sizeof_JSAMPLE ≠ sizeof_unsigned_char) := by
    simp [hprec, sizeof_JSAMPLE, sizeof_unsigned_char]
  have hcond : ¬ (outWidth cinfo.output_width width srcX ≤ 0 ∨
      outHeight cinfo.output_height height srcY ≤ 0 ∨
      srcX ≥ cinfo.output_width ∨ srcY ≥ cinfo.output_height) := by
    push_neg
    exact ⟨hw, hh, hx, hy⟩
  obtain ⟨layout, hl⟩ : ∃ layout, blockLayout cinfo.out_color_space = some layout := by
    rcases hcs with h | h <;> rw [h] <;> exact ⟨_, rfl⟩
  have hle : outHeight cinfo.output_height height srcY ≤ cinfo.output_height - srcY :=
    outHeight_le cinfo.output_height height srcY hy hov
  have hstop : wrapInt (srcY + outHeight cinfo.output_height height srcY) =
      srcY + outHeight cinfo.output_height height srcY :=
    stopY_exact cinfo.output_height height srcY hy0 hy hh hov
  refine ⟨outHeight_min cinfo.output_height height srcY hy0 hy hov, ?_⟩
  have main : ∀ tr2 : List REvent, scanlineReads tr2 = 0 →
      (∀ e ∈ tr2, e.isFinish = false ∧ e.isAbort = false) →
      ∃ pre last,
        (if (scanLoop cinfo
              (readBlock layout cinfo.output_width (outWidth cinfo.output_width width srcX) srcX)
              destX (outWidth cinfo.output_width width srcX) srcY
              (srcY + outHeight cinfo.output_height height srcY).toNat 0 destY
              { output_scanline := 0, buffer := [], trace := tr2 }).output_scanline
              = cinfo.output_height then
            ({ code := TCL_OK, interp := interp,
               trace := (scanLoop cinfo
                (readBlock layout cinfo.output_width (outWidth cinfo.output_width width srcX) srcX)
                destX (outWidth cinfo.output_width width srcX) srcY
                (srcY + outHeight cinfo.output_height height srcY).toNat 0 destY
                { output_scanline := 0, buffer := [], trace := tr2 }).trace ++
                  [REvent.finish_decompress] } : ReadResult)
          else
            { code := TCL_OK, interp := interp,
              trace := (scanLoop cinfo
                (readBlock layout cinfo.output_width (outWidth cinfo.output_width width srcX) srcX)
                destX (outWidth cinfo.output_width width srcX) srcY
                (srcY + outHeight cinfo.output_height height srcY).toNat 0 destY
                { output_scanline := 0, buffer := [], trace := tr2 }).trace ++
                  [REvent.abort_decompress] }).trace = pre ++ [last] ∧
        (scanlineReads pre : Int) = srcY + outHeight cinfo.output_height height srcY ∧
        (∀ e ∈ pre, e.isFinish = false ∧ e.isAbort = false) ∧
        (srcY + outHeight cinfo.output_height height srcY = cinfo.output_height →
          last = REvent.finish_decompress) ∧
        (srcY + outHeight cinfo.output_height height srcY ≠ cinfo.output_height →
          last = REvent.abort_decompress) := by
    intro tr2 hr0 hnf
    obtain ⟨evs, h1, h2, h3, h4⟩ := scanLoop_trace cinfo
      (readBlock layout cinfo.output_width (outWidth cinfo.output_width width srcX) srcX)
      destX (outWidth cinfo.output_width width srcX) srcY
      (srcY + outHeight cinfo.output_height height srcY).toNat 0 destY
      { output_scanline := 0, buffer := [], trace := tr2 } (by dsimp only; omega)
    dsimp only at h4 h1
    have hreads : (scanlineReads (tr2 ++ evs) : Int) =
        srcY + outHeight cinfo.output_height height srcY := by
      unfold scanlineReads at hr0 h2 ⊢
      rw [List.countP_append, hr0, h2]
      omega
    have hnone : ∀ e ∈ tr2 ++ evs, e.isFinish = false ∧ e.isAbort = false := by
      intro e he
      rw [List.mem_append] at he
      rcases he with he | he
      · exact hnf e he
      · exact h3 e he
    split_ifs with hfin
    · refine ⟨tr2 ++ evs, REvent.finish_decompress, by rw [h1], hreads, hnone,
        fun _ => rfl, ?_⟩
      intro hne
      exfalso
      rw [h4] at hfin
      omega
    · refine ⟨tr2 ++ evs, REvent.abort_decompress, by rw [h1], hreads, hnone, ?_,
        fun _ => rfl⟩
      intro heq
      exfalso
      rw [h4] at hfin
      omega
  cases formatString with
  | notList err => exact absurd rfl (hfmt err)
  | null =>
    unfold CommonReadJPEG
    dsimp only
    rw [if_neg hp, if_neg hcond, hl]
    dsimp only
    rw [hstop]
    exact main _ (by simp [scanlineReads, REvent.readsScanline])
      (by intro e he; simp at he; rcases he with rfl | rfl | rfl | rfl <;> exact ⟨rfl, rfl⟩)
  | list args =>
    unfold CommonReadJPEG
    dsimp only
    rw [if_neg hp, if_neg hcond, hl]
    dsimp only
    rw [hstop]
    exact main _ (by simp [scanlineReads, REvent.readsScanline])
      (by intro e he; simp at he
          rcases he with rfl | rfl | rfl | rfl | rfl <;> exact ⟨rfl, rfl⟩)

/-- Witness for C19 (amended): rows 0..2 of a 4x4 RGB image are read for a
request of rows 1..2, and the session is aborted. -/
theorem C19_reads_then_finish_or_abort_witness :
    outHeight rgb4x4.output_height 2 1 = min 2 (rgb4x4.output_height - 1) ∧
    ∃ pre last,
      (CommonReadJPEG "" rgb4x4 FormatArg.null 5 7 10 2 1 1).trace = pre ++ [last] ∧
      (scanlineReads pre : Int) = 1 + outHeight rgb4x4.output_height 2 1 ∧
      (∀ e ∈ pre, e.isFinish = false ∧ e.isAbort = false) ∧
      (1 + outHeight rgb4x4.output_height 2 1 = rgb4x4.output_height →
        last = REvent.finish_decompress) ∧
      (1 + outHeight rgb4x4.output_height 2 1 ≠ rgb4x4.output_height →
        last = REvent.abort_decompress) :=
  C19_reads_then_finish_or_abort "" rgb4x4 FormatArg.null 5 7 10 2 1 1 rfl
    (fun err h => by cases h) (Or.inr rfl) (by decide) (by decide) (by decide)
    (by decide) (by decide) (by decide)

/-! ### Claims about the source managers -/

theorem strFillLoop_nil (room nbytes : Nat) (buffer : Nat → Byte) :
    strFillLoop room nbytes buffer [] = (nbytes, buffer, []) := by
  cases room with
  | zero => rfl
  | succ room =>
    unfold strFillLoop
    split_ifs
    · rfl
    · rfl

/-- C14: for the base64-string source and for the channel source, whenever
`fill_input_buffer` obtains no byte from the transport it returns `TRUE` with
`bytes_in_buffer = 2`, `next_input_byte` at the start of the buffer, and the
buffer beginning with `FF D9`, the end-of-image marker. -/
theorem C14_fill_supplies_fake_eoi (src : SourceMgr) (h : src.transport = []) :
    ((str_fill_input_buffer src).1 = true ∧
      (str_fill_input_buffer src).2.bytes_in_buffer = 2 ∧
      (str_fill_input_buffer src).2.next_input_byte = some 0 ∧
      (str_fill_input_buffer src).2.buffer 0 = 0xff ∧
      (str_fill_input_buffer src).2.buffer 1 = 0xd9) ∧
    ((chan_fill_input_buffer src).1 = true ∧
      (chan_fill_input_buffer src).2.bytes_in_buffer = 2 ∧
      (chan_fill_input_buffer src).2.next_input_byte = some 0 ∧
      (chan_fill_input_buffer src).2.buffer 0 = 0xff ∧
      (chan_fill_input_buffer src).2.buffer 1 = 0xd9) := by
  constructor
  · unfold str_fill_input_buffer
    dsimp only
    rw [h, strFillLoop_nil, if_pos (le_refl 0)]
    exact ⟨rfl, rfl, rfl, rfl, rfl⟩
  · unfold chan_fill_input_buffer
    dsimp only
    rw [h]
    have : (Tcl_Read [] src.buffer STRING_BUF_SIZE).1 ≤ 0 := by simp [Tcl_Read]
    rw [if_pos this]
    exact ⟨rfl, rfl, rfl, rfl, rfl⟩

/-- Witness for C14: a source whose transport is exhausted. -/
theorem C14_fill_supplies_fake_eoi_witness :
    (freshSource []).transport = [] ∧
    ((str_fill_input_buffer (freshSource [])).1 = true ∧
      (str_fill_input_buffer (freshSource [])).2.bytes_in_buffer = 2 ∧
      (str_fill_input_buffer (freshSource [])).2.next_input_byte = some 0 ∧
      (str_fill_input_buffer (freshSource [])).2.buffer 0 = 0xff ∧
      (str_fill_input_buffer (freshSource [])).2.buffer 1 = 0xd9) ∧
    ((chan_fill_input_buffer (freshSource [])).1 = true ∧
      (chan_fill_input_buffer (freshSource [])).2.bytes_in_buffer = 2 ∧
      (chan_fill_input_buffer (freshSource [])).2.next_input_byte = some 0 ∧
      (chan_fill_input_buffer (freshSource [])).2.buffer 0 = 0xff ∧
      (chan_fill_input_buffer (freshSource [])).2.buffer 1 = 0xd9) :=
  ⟨rfl, C14_fill_supplies_fake_eoi (freshSource []) rfl⟩

/-- C15 (code at the failing input): on an exhausted transport both sources
supply the two-byte end-of-image marker, but only `chan_fill_input_buffer`
raises the `JWRN_JPEG_EOF` warning; `str_fill_input_buffer` raises none. -/
theorem C15_string_source_raises_no_warning :
    (str_fill_input_buffer (freshSource [])).2.bytes_in_buffer = 2 ∧
    (str_fill_input_buffer (freshSource [])).2.warnings = [] ∧
    (chan_fill_input_buffer (freshSource [])).2.bytes_in_buffer = 2 ∧
    (chan_fill_input_buffer (freshSource [])).2.warnings = [JWarning.JWRN_JPEG_EOF] := by
  decide

theorem advance_add (fill : SourceMgr → Bool × SourceMgr) (a c : Nat) (s : SourceMgr) :
    advance fill (a + c) s = advance fill c (advance fill a s) := by
  induction a generalizing s with
  | zero => simp [advance]
  | succ a ih =>
    have e : a + 1 + c = (a + c) + 1 := by omega
    rw [e]
    simp only [advance]
    exact ih _

theorem deliver_length (fill : SourceMgr → Bool × SourceMgr) (m : Nat) (s : SourceMgr) :
    (deliver fill m s).length = m := by
  induction m generalizing s with
  | zero => rfl
  | succ m ih => simp [deliver, ih]

theorem deliver_add (fill : SourceMgr → Bool × SourceMgr) (a m : Nat) (s : SourceMgr) :
    deliver fill (a + m) s = deliver fill a s ++ deliver fill m (advance fill a s) := by
  induction a generalizing s with
  | zero => simp [deliver, advance]
  | succ a ih =>
    have e : a + 1 + m = (a + m) + 1 := by omega
    rw [e]
    simp only [deliver, advance, List.cons_append]
    rw [ih]

/-- Taking `k` of the bytes already buffered only moves the cursor. -/
theorem advance_within (fill : SourceMgr → Bool × SourceMgr) (k : Nat) (s : SourceMgr)
    (hk : k ≤ s.bytes_in_buffer) :
    advance fill k s =
      { transport := s.transport, buffer := s.buffer,
        next_input_byte := s.next_input_byte.map (fun p => p + k),
        bytes_in_buffer := s.bytes_in_buffer - k, warnings := s.warnings } := by
  induction k generalizing s with
  | zero =>
    cases s
    simp [advance]
  | succ k ih =>
    have hne : ¬ s.bytes_in_buffer = 0 := by omega
    simp only [advance, inputByte, if_neg hne]
    rw [ih _ (by dsimp only; omega)]
    dsimp only
    congr 1
    · cases s.next_input_byte with
      | none => rfl
      | some p => simp only [Option.map_some', Option.some.injEq]; omega
    · omega

/-- With nothing buffered, the next byte taken comes from a refill. -/
theorem advance_empty (fill : SourceMgr → Bool × SourceMgr)
    (hfill : ∀ s, 1 ≤ (fill s).2.bytes_in_buffer)
    (k : Nat) (s : SourceMgr) (hs : s.bytes_in_buffer = 0) (hk : 1 ≤ k) :
    advance fill k s = advance fill k (fill s).2 := by
  obtain ⟨k, rfl⟩ : ∃ j, k = j + 1 := ⟨k - 1, by omega⟩
  have h1 := hfill s
  have hne : ¬ (fill s).2.bytes_in_buffer = 0 := by omega
  simp only [advance, inputByte, if_pos hs, if_neg hne]

theorem skipLoop_advance (fill : SourceMgr → Bool × SourceMgr)
    (hfill : ∀ s, 1 ≤ (fill s).2.bytes_in_buffer)
    (hpub : ∀ (s : SourceMgr) (p : Option Nat) (b : Nat),
      (fill { transport := s.transport, buffer := s.buffer, next_input_byte := p,
              bytes_in_buffer := b, warnings := s.warnings }).2 = (fill s).2)
    (fuel : Nat) (n n1 : Int) (s s1 : SourceMgr) (hn : 0 < n)
    (h : skipLoop fill fuel n s = some (n1, s1)) :
    0 < n1 ∧ n1 ≤ s1.bytes_in_buffer ∧ advance fill n.toNat s = advance fill n1.toNat s1 := by
  induction fuel generalizing n s with
  | zero => simp [skipLoop] at h
  | succ fuel ih =>
    unfold skipLoop at h
    split_ifs at h with hgt
    · obtain ⟨h1, h2, h3⟩ := ih (n - s.bytes_in_buffer) (fill s).2 (by omega) h
      refine ⟨h1, h2, ?_⟩
      have e : n.toNat = s.bytes_in_buffer + (n - (s.bytes_in_buffer : Int)).toNat := by omega
      rw [e, advance_add, advance_within fill _ s (le_refl _),
        advance_empty fill hfill _ _ (by dsimp only; omega) (by omega), hpub, h3]
    · simp only [Option.some.injEq, Prod.mk.injEq] at h
      obtain ⟨e1, e2⟩ := h
      subst e1; subst e2
      exact ⟨hn, by omega, rfl⟩

theorem skipLoop_total (fill : SourceMgr → Bool × SourceMgr)
    (hfill : ∀ s, 1 ≤ (fill s).2.bytes_in_buffer)
    (fuel : Nat) (n : Int) (s : SourceMgr) (hn : 0 < n)
    (hf : n.toNat + (if s.bytes_in_buffer = 0 then 1 else 0) ≤ fuel) :
    ∃ r, skipLoop fill fuel n s = some r := by
  induction fuel generalizing n s with
  | zero => omega
  | succ fuel ih =>
    unfold skipLoop
    split_ifs with hgt
    · apply ih _ _ (by omega)
      have h1 := hfill s
      rw [if_neg (by omega)]
      split_ifs at hf <;> omega
    · exact ⟨_, rfl⟩

/-- Skipping `n > 0` bytes leaves the source exactly as taking `n` bytes one
at a time does. -/
theorem skip_input_data_eq_advance (fill : SourceMgr → Bool × SourceMgr)
    (hfill : ∀ s, 1 ≤ (fill s).2.bytes_in_buffer)
    (hpub : ∀ (s : SourceMgr) (p : Option Nat) (b : Nat),
      (fill { transport := s.transport, buffer := s.buffer, next_input_byte := p,
              bytes_in_buffer := b, warnings := s.warnings }).2 = (fill s).2)
    (s : SourceMgr) (n : Int) (hn : 0 < n) :
    skip_input_data fill s n = some (advance fill n.toNat s) := by
  obtain ⟨⟨n1, s1⟩, hr⟩ := skipLoop_total fill hfill (n.toNat + 1) n s hn
    (by split_ifs <;> omega)
  obtain ⟨h1, h2, h3⟩ := skipLoop_advance fill hfill hpub _ _ _ _ _ hn hr
  unfold skip_input_data
  rw [if_pos hn, hr]
  dsimp only
  rw [h3, advance_within fill _ s1 (by omega)]
  have e : size_t_sub s1.bytes_in_buffer n1.toNat = s1.bytes_in_buffer - n1.toNat := by
    unfold size_t_sub
    rw [if_pos (by omega)]
  rw [e]

theorem str_fill_props :
    (∀ s, 1 ≤ (str_fill_input_buffer s).2.bytes_in_buffer) ∧
    (∀ (s : SourceMgr) (p : Option Nat) (b : Nat),
      (str_fill_input_buffer
          { transport := s.transport, buffer := s.buffer, next_input_byte := p,
            bytes_in_buffer := b, warnings := s.warnings }).2
        = (str_fill_input_buffer s).2) := by
  constructor
  · intro s
    unfold str_fill_input_buffer
    dsimp only
    split_ifs with h
    · show 1 ≤ 2
      omega
    · dsimp only
      omega
  · intro s p b
    rfl

theorem chan_fill_props :
    (∀ s, 1 ≤ (chan_fill_input_buffer s).2.bytes_in_buffer) ∧
    (∀ (s : SourceMgr) (p : Option Nat) (b : Nat),
      (chan_fill_input_buffer
          { transport := s.transport, buffer := s.buffer, next_input_byte := p,
            bytes_in_buffer := b, warnings := s.warnings }).2
        = (chan_fill_input_buffer s).2) := by
  constructor
  · intro s
    unfold chan_fill_input_buffer
    dsimp only
    split_ifs with h
    · show 1 ≤ 2
      omega
    · dsimp only
      omega
  · intro s p b
    rfl

/-- C16: for `str_skip_input_data` and `chan_skip_input_data` and every
`n > 0` (in particular every `n` not exceeding the bytes still deliverable) the
call returns, and the bytes the source delivers afterwards are the bytes it
would have delivered without the skip with the first `n` removed; for
`n <= 0` the source state is unchanged. -/
theorem C16_skip_drops_first_n (src : SourceMgr) (n : Int) :
    (0 < n →
      (∃ s, str_skip_input_data src n = some s ∧
        ∀ m, deliver str_fill_input_buffer m s =
          (deliver str_fill_input_buffer (n.toNat + m) src).drop n.toNat) ∧
      (∃ s, chan_skip_input_data src n = some s ∧
        ∀ m, deliver chan_fill_input_buffer m s =
          (deliver chan_fill_input_buffer (n.toNat + m) src).drop n.toNat)) ∧
    (n ≤ 0 → str_skip_input_data src n = some src ∧ chan_skip_input_data src n = some src) := by
  constructor
  · intro hn
    constructor
    · refine ⟨_, skip_input_data_eq_advance str_fill_input_buffer str_fill_props.1
        str_fill_props.2 src n hn, ?_⟩
      intro m
      rw [deliver_add, List.drop_left' (deliver_length _ _ _)]
    · refine ⟨_, skip_input_data_eq_advance chan_fill_input_buffer chan_fill_props.1
        chan_fill_props.2 src n hn, ?_⟩
      intro m
      rw [deliver_add, List.drop_left' (deliver_length _ _ _)]
  · intro hn
    constructor
    · unfold str_skip_input_data skip_input_data
      rw [if_neg (by omega)]
    · unfold chan_skip_input_data skip_input_data
      rw [if_neg (by omega)]

/-- Witness for C16: skipping 5 bytes of a string or channel of 7. -/
theorem C16_skip_drops_first_n_witness :
    (0 : Int) < 5 ∧
    (∃ s, str_skip_input_data (freshSource [1, 2, 3, 4, 5, 6, 7]) 5 = some s ∧
      ∀ m, deliver str_fill_input_buffer m s =
        (deliver str_fill_input_buffer ((5 : Int).toNat + m)
          (freshSource [1, 2, 3, 4, 5, 6, 7])).drop (5 : Int).toNat) ∧
    (∃ s, chan_skip_input_data (freshSource [1, 2, 3, 4, 5, 6, 7]) 5 = some s ∧
      ∀ m, deliver chan_fill_input_buffer m s =
        (deliver chan_fill_input_buffer ((5 : Int).toNat + m)
          (freshSource [1, 2, 3, 4, 5, 6, 7])).drop (5 : Int).toNat) :=
  ⟨by decide, (C16_skip_drops_first_n (freshSource [1, 2, 3, 4, 5, 6, 7]) 5).1 (by decide)⟩

/-! ### Claims about the string destination manager -/

theorem range_map_setByte (buffer : Nat → Byte) (n : Nat) (b : Byte) :
    (List.range (n + 1)).map (setByte buffer n b) = (List.range n).map buffer ++ [b] := by
  rw [List.range_succ, List.map_append]
  congr 1
  · apply List.map_congr_left
    intro j hj
    rw [List.mem_range] at hj
    unfold setByte
    rw [if_neg (by omega)]
  · simp [setByte]

/-- Between two codec calls: the blocks written so far followed by the bytes
pending in the buffer are the bytes emitted so far, the buffer is not full,
and no block exceeds the buffer size. -/
theorem emitByte_inv (d : DestMgr) (emitted : List Byte) (b : Byte) (ws : List (List Byte))
    (h1 : d.handle = ws.map DEvent.write)
    (h2 : ws.flatten ++ (List.range d.next_output_byte).map d.buffer = emitted)
    (h3 : d.next_output_byte + d.free_in_buffer = STRING_BUF_SIZE)
    (h4 : 1 ≤ d.free_in_buffer)
    (h5 : ∀ w ∈ ws, w.length ≤ STRING_BUF_SIZE) :
    ∃ (d1 : DestMgr) (ws1 : List (List Byte)), emitByte d b = Except.ok d1 ∧
      d1.handle = ws1.map DEvent.write ∧
      ws1.flatten ++ (List.range d1.next_output_byte).map d1.buffer = emitted ++ [b] ∧
      d1.next_output_byte + d1.free_in_buffer = STRING_BUF_SIZE ∧
      1 ≤ d1.free_in_buffer ∧
      ∀ w ∈ ws1, w.length ≤ STRING_BUF_SIZE := by
  unfold emitByte
  dsimp only
  split_ifs with hfull
  · have hn : d.next_output_byte + 1 = STRING_BUF_SIZE := by omega
    simp only [str_empty_output_buffer, ImgWrite, ne_eq, not_true_eq_false, if_false]
    refine ⟨_, ws ++ [(List.range STRING_BUF_SIZE).map
      (setByte d.buffer d.next_output_byte b)], rfl, ?_, ?_, ?_, ?_, ?_⟩
    · simp [h1]
    · dsimp only
      rw [← hn, range_map_setByte, ← h2]
      simp
    · dsimp only
      omega
    · dsimp only
      unfold STRING_BUF_SIZE
      omega
    · intro w hw
      rw [List.mem_append, List.mem_singleton] at hw
      rcases hw with hw | hw
      · exact h5 w hw
      · rw [hw, List.length_map, List.length_range]
  · refine ⟨_, ws, rfl, h1, ?_, ?_, ?_, h5⟩
    · dsimp only
      rw [range_map_setByte, ← h2]
      simp
    · dsimp only
      omega
    · dsimp only
      omega

theorem emitAll_inv (bytes : List Byte) (d : DestMgr) (emitted : List Byte)
    (ws : List (List Byte))
    (h1 : d.handle = ws.map DEvent.write)
    (h2 : ws.flatten ++ (List.range d.next_output_byte).map d.buffer = emitted)
    (h3 : d.next_output_byte + d.free_in_buffer = STRING_BUF_SIZE)
    (h4 : 1 ≤ d.free_in_buffer)
    (h5 : ∀ w ∈ ws, w.length ≤ STRING_BUF_SIZE) :
    ∃ (d1 : DestMgr) (ws1 : List (List Byte)), emitAll d bytes = Except.ok d1 ∧
      d1.handle = ws1.map DEvent.write ∧
      ws1.flatten ++ (List.range d1.next_output_byte).map d1.buffer = emitted ++ bytes ∧
      d1.next_output_byte + d1.free_in_buffer = STRING_BUF_SIZE ∧
      1 ≤ d1.free_in_buffer ∧
      ∀ w ∈ ws1, w.length ≤ STRING_BUF_SIZE := by
  induction bytes generalizing d emitted ws with
  | nil => exact ⟨d, ws, rfl, h1, by simpa using h2, h3, h4, h5⟩
  | cons b bs ih =>
    obtain ⟨d1, ws1, e, g1, g2, g3, g4, g5⟩ := emitByte_inv d emitted b ws h1 h2 h3 h4 h5
    obtain ⟨d2, ws2, e2, k1, k2, k3, k4, k5⟩ := ih d1 (emitted ++ [b]) ws1 g1 g2 g3 g4 g5
    refine ⟨d2, ws2, ?_, k1, ?_, k3, k4, k5⟩
    · simp only [emitAll, e]
      exact e2
    · rw [k2]
      simp

/-- C17: for every byte sequence the codec emits through the string
destination, the session completes and the base64 writer has been handed a
list of data blocks followed by the `IMG_DONE` sentinel, once and last; the
blocks, concatenated in call order, are the emitted sequence, and no block
exceeds `STRING_BUF_SIZE` = 4096 bytes. -/
theorem C17_string_destination_delivers_all (dest : DestMgr) (bytes : List Byte) :
    ∃ (d : DestMgr) (ws : List (List Byte)), stringDestSession dest bytes = Except.ok d ∧
      d.handle = ws.map DEvent.write ++ [DEvent.putc_done] ∧
      ws.flatten = bytes ∧
      (∀ w ∈ ws, w.length ≤ 4096) ∧
      (d.handle.map DEvent.data).flatten = bytes ∧
      d.handle.count DEvent.putc_done = 1 := by
  obtain ⟨d1, ws1, e, g1, g2, g3, g4, g5⟩ := emitAll_inv bytes (str_init_destination dest) []
    [] rfl rfl (by simp [str_init_destination]) (by simp [str_init_destination, STRING_BUF_SIZE])
    (by simp)
  rw [List.nil_append] at g2
  have hcount : ∀ ws : List (List Byte),
      (ws.map DEvent.write ++ [DEvent.putc_done]).count DEvent.putc_done = 1 := by
    intro ws
    induction ws with
    | nil => rfl
    | cons w ws ih =>
      rw [List.map_cons, List.cons_append, List.count_cons_of_ne (by simp), ih]
  have hdata : ∀ ws : List (List Byte),
      ((ws.map DEvent.write ++ [DEvent.putc_done]).map DEvent.data).flatten = ws.flatten := by
    intro ws
    induction ws with
    | nil => rfl
    | cons w ws ih =>
      simp only [List.map_cons, List.cons_append, List.flatten_cons, DEvent.data, ih]
  unfold stringDestSession
  rw [e]
  dsimp only
  unfold str_term_destination
  dsimp only
  split_ifs with hpos hbad
  · exfalso
    apply hbad
    simp only [ImgWrite]
    omega
  · refine ⟨_, ws1 ++ [(List.range ((STRING_BUF_SIZE : Int) - (d1.free_in_buffer : Int)).toNat).map
      d1.buffer], rfl, ?_, ?_, ?_, ?_, ?_⟩
    · simp [ImgPutc_IMG_DONE, ImgWrite, g1]
    · have hn : ((STRING_BUF_SIZE : Int) - (d1.free_in_buffer : Int)).toNat
          = d1.next_output_byte := by omega
      rw [hn, ← g2]
      simp
    · intro w hw
      rw [List.mem_append, List.mem_singleton] at hw
      rcases hw with hw | hw
      · exact g5 w hw
      · rw [hw, List.length_map, List.length_range]
        have hs : STRING_BUF_SIZE = 4096 := rfl
        omega
    · have hn : ((STRING_BUF_SIZE : Int) - (d1.free_in_buffer : Int)).toNat
          = d1.next_output_byte := by omega
      have hh : (ImgPutc_IMG_DONE (ImgWrite d1.handle d1.buffer
          ((STRING_BUF_SIZE : Int) - (d1.free_in_buffer : Int)).toNat).2) =
          (ws1 ++ [(List.range d1.next_output_byte).map d1.buffer]).map DEvent.write
            ++ [DEvent.putc_done] := by
        simp [ImgPutc_IMG_DONE, ImgWrite, g1, hn]
      dsimp only
      rw [hh, hdata, ← g2]
      simp
    · have hn : ((STRING_BUF_SIZE : Int) - (d1.free_in_buffer : Int)).toNat
          = d1.next_output_byte := by omega
      have hh : (ImgPutc_IMG_DONE (ImgWrite d1.handle d1.buffer
          ((STRING_BUF_SIZE : Int) - (d1.free_in_buffer : Int)).toNat).2) =
          (ws1 ++ [(List.range d1.next_output_byte).map d1.buffer]).map DEvent.write
            ++ [DEvent.putc_done] := by
        simp [ImgPutc_IMG_DONE, ImgWrite, g1, hn]
      dsimp only
      rw [hh, hcount]
  · have hn0 : d1.next_output_byte = 0 := by omega
    rw [hn0] at g2
    simp only [List.range_zero, List.map_nil, List.append_nil] at g2
    refine ⟨_, ws1, rfl, ?_, g2, ?_, ?_, ?_⟩
    · simp [ImgPutc_IMG_DONE, g1]
    · intro w hw
      have := g5 w hw
      unfold STRING_BUF_SIZE at this
      exact this
    · dsimp only
      rw [show ImgPutc_IMG_DONE d1.handle = ws1.map DEvent.write ++ [DEvent.putc_done] by
        simp [ImgPutc_IMG_DONE, g1], hdata, g2]
    · dsimp only
      rw [show ImgPutc_IMG_DONE d1.handle = ws1.map DEvent.write ++ [DEvent.putc_done] by
        simp [ImgPutc_IMG_DONE, g1], hcount]

/-! ### Fatal codec errors in the handlers -/

theorem cutAtFault_spec {β : Type} (p : β → Bool) (l : List β) (k : Nat) (pre : List β)
    (h : cutAtFault p l k = some pre) :
    ∃ rest last, l = pre ++ rest ∧ pre.getLast? = some last ∧ p last = true ∧
      pre.countP p = k + 1 := by
  induction l generalizing k pre with
  | nil => simp [cutAtFault] at h
  | cons e es ih =>
    unfold cutAtFault at h
    by_cases hp : p e = true
    · rw [if_pos hp] at h
      cases k with
      | zero =>
        simp only [Option.some.injEq] at h
        subst h
        exact ⟨es, e, rfl, rfl, hp, by simp [List.countP_cons, hp]⟩
      | succ k =>
        simp only [Option.map_eq_some'] at h
        obtain ⟨pre1, h1, rfl⟩ := h
        obtain ⟨rest, last, e1, e2, e3, e4⟩ := ih k pre1 h1
        refine ⟨rest, last, by rw [e1]; rfl, ?_, e3, ?_⟩
        · cases pre1 with
          | nil => simp at e2
          | cons a as => rw [List.getLast?_cons_cons]; exact e2
        · rw [List.countP_cons, e4, if_pos hp]
    · rw [if_neg hp] at h
      simp only [Option.map_eq_some'] at h
      obtain ⟨pre1, h1, rfl⟩ := h
      obtain ⟨rest, last, e1, e2, e3, e4⟩ := ih k pre1 h1
      refine ⟨rest, last, by rw [e1]; rfl, ?_, e3, ?_⟩
      · cases pre1 with
        | nil => simp at e2
        | cons a as => rw [List.getLast?_cons_cons]; exact e2
      · rw [List.countP_cons, e4, if_neg hp]

theorem cutAtFault_some {β : Type} (p : β → Bool) (l : List β) (k : Nat)
    (h : k < l.countP p) : ∃ pre, cutAtFault p l k = some pre := by
  induction l generalizing k with
  | nil => simp at h
  | cons e es ih =>
    unfold cutAtFault
    by_cases hp : p e = true
    · rw [if_pos hp]
      cases k with
      | zero => exact ⟨_, rfl⟩
      | succ k =>
        rw [List.countP_cons, if_pos hp] at h
        obtain ⟨pre, hpre⟩ := ih k (by omega)
        refine ⟨e :: pre, ?_⟩
        show Option.map (fun pre => e :: pre) (cutAtFault p es k) = some (e :: pre)
        rw [hpre]
        rfl
    · rw [if_neg hp]
      rw [List.countP_cons, if_neg hp] at h
      obtain ⟨pre, hpre⟩ := ih k (by omega)
      exact ⟨_, by rw [hpre]; rfl⟩

/-- A cut never reaches into a tail that holds no codec call. -/
theorem cutAtFault_prefix {β : Type} (p : β → Bool) (b t : List β) (k : Nat) (pre : List β)
    (ht : ∀ e ∈ t, p e = false) (h : cutAtFault p (b ++ t) k = some pre) :
    ∃ r, b = pre ++ r := by
  induction b generalizing k pre with
  | nil =>
    exfalso
    obtain ⟨hk⟩ : Nonempty (k < (([] : List β) ++ t).countP p) := by
      obtain ⟨rest, last, e1, e2, e3, e4⟩ := cutAtFault_spec p _ k pre h
      rw [e1, List.countP_append, e4]
      exact ⟨by omega⟩
    rw [List.nil_append] at hk
    have : t.countP p = 0 := by
      rw [List.countP_eq_zero]
      intro e he
      rw [ht e he]
      simp
    omega
  | cons e es ih =>
    rw [List.cons_append] at h
    unfold cutAtFault at h
    by_cases hp : p e = true
    · rw [if_pos hp] at h
      cases k with
      | zero =>
        simp only [Option.some.injEq] at h
        subst h
        exact ⟨es, rfl⟩
      | succ k =>
        simp only [Option.map_eq_some'] at h
        obtain ⟨pre1, h1, rfl⟩ := h
        obtain ⟨r, hr⟩ := ih k pre1 h1
        exact ⟨r, by rw [hr]; rfl⟩
    · rw [if_neg hp] at h
      simp only [Option.map_eq_some'] at h
      obtain ⟨pre1, h1, rfl⟩ := h
      obtain ⟨r, hr⟩ := ih k pre1 h1
      exact ⟨r, by rw [hr]; rfl⟩

theorem interpAt_silent {α : Type} (appended : α → Option String) (interp : String)
    (l : List (HEvent α)) (h : ∀ e ∈ l, HEvent.appendsText appended e = false) :
    interpAt appended interp l = interp := by
  induction l generalizing interp with
  | nil => rfl
  | cons e es ih =>
    have he := h e (List.mem_cons_self _ _)
    have hes : ∀ x ∈ es, HEvent.appendsText appended x = false :=
      fun x hx => h x (List.mem_cons_of_mem _ hx)
    cases e with
    | host c => exact ih interp hes
    | create => exact ih interp hes
    | attach m => exact ih interp hes
    | destroy => exact ih interp hes
    | appendResult m => simp [HEvent.appendsText] at he
    | append_jpeg_message m => simp [HEvent.appendsText] at he
    | common x =>
      simp only [HEvent.appendsText] at he
      simp only [interpAt]
      cases hx : appended x with
      | none => exact ih interp hes
      | some m => rw [hx] at he; simp at he

theorem runHandler_fault {α : Type} (p : α → Bool) (appended : α → Option String)
    (errPrefix mgr : String) (before closing : List (HEvent α)) (interp : String)
    (code : Int) (cinterp : String) (body tail : List α) (k : Nat) (msg : String)
    (hbefore : ∀ e ∈ before, HEvent.entersCodec p e = false)
    (hclosing : ∀ e ∈ closing, HEvent.entersCodec p e = false)
    (hbody : ∀ e ∈ body, appended e = none)
    (htail : ∀ e ∈ tail, p e = false)
    (hk : k < codecCalls p (runHandler p appended errPrefix mgr before closing interp
      (code, cinterp, body ++ tail) none).trace) :
    (runHandler p appended errPrefix mgr before closing interp
      (code, cinterp, body ++ tail) (some (k, msg))).code = TCL_ERROR ∧
    (runHandler p appended errPrefix mgr before closing interp
      (code, cinterp, body ++ tail) (some (k, msg))).interp = interp ++ errPrefix ++ msg ∧
    FaultHandled p errPrefix msg closing k
      (runHandler p appended errPrefix mgr before closing interp
        (code, cinterp, body ++ tail) none).trace
      (runHandler p appended errPrefix mgr before closing interp
        (code, cinterp, body ++ tail) (some (k, msg))).trace := by
  have hzero : ∀ l : List (HEvent α), (∀ e ∈ l, HEvent.entersCodec p e = false) →
      l.countP (HEvent.entersCodec p) = 0 := by
    intro l hl
    rw [List.countP_eq_zero]
    intro e he
    rw [hl e he]
    simp
  have hnormal : (runHandler p appended errPrefix mgr before closing interp
      (code, cinterp, body ++ tail) none).trace =
      before ++ ([HEvent.create, HEvent.attach mgr] ++ (body ++ tail).map HEvent.common) ++
        [HEvent.destroy] ++ closing := rfl
  rw [hnormal] at hk ⊢
  unfold codecCalls at hk
  rw [List.countP_append, List.countP_append, List.countP_append, hzero before hbefore,
    hzero closing hclosing] at hk
  have hd : List.countP (HEvent.entersCodec p) ([HEvent.destroy] : List (HEvent α)) = 0 := rfl
  rw [hd] at hk
  obtain ⟨pre, hpre⟩ := cutAtFault_some (HEvent.entersCodec p)
    ([HEvent.create, HEvent.attach mgr] ++ (body ++ tail).map HEvent.common) k (by omega)
  obtain ⟨rest, last, e1, e2, e3, e4⟩ := cutAtFault_spec _ _ _ _ hpre
  have hsplit : [HEvent.create, HEvent.attach mgr] ++ (body ++ tail).map HEvent.common =
      ([HEvent.create, HEvent.attach mgr] ++ body.map HEvent.common) ++
        tail.map HEvent.common := by
    rw [List.map_append, List.append_assoc]
  obtain ⟨r, hr⟩ := cutAtFault_prefix (HEvent.entersCodec p)
    ([HEvent.create, HEvent.attach mgr] ++ body.map HEvent.common) (tail.map HEvent.common)
    k pre (by
      intro e he
      rw [List.mem_map] at he
      obtain ⟨x, hx, rfl⟩ := he
      exact htail x hx) (by rw [← hsplit]; exact hpre)
  have hsilent : ∀ e ∈ pre, HEvent.appendsText appended e = false := by
    intro e he
    have hmem : e ∈ [HEvent.create, HEvent.attach mgr] ++ body.map HEvent.common := by
      rw [hr]
      exact List.mem_append_left _ he
    rw [List.mem_append] at hmem
    rcases hmem with hmem | hmem
    · simp only [List.mem_cons, List.mem_singleton, List.not_mem_nil, or_false] at hmem
      rcases hmem with rfl | rfl <;> rfl
    · rw [List.mem_map] at hmem
      obtain ⟨x, hx, rfl⟩ := hmem
      simp only [HEvent.appendsText, hbody x hx]
      rfl
  have hrun : runHandler p appended errPrefix mgr before closing interp
      (code, cinterp, body ++ tail) (some (k, msg)) =
      { code := TCL_ERROR,
        interp := interpAt appended interp pre ++ errPrefix ++ msg,
        trace := before ++ pre ++
          [HEvent.appendResult errPrefix, HEvent.append_jpeg_message msg, HEvent.destroy]
          ++ closing } := by
    unfold runHandler
    dsimp only
    rw [hpre]
  rw [hrun]
  refine ⟨rfl, ?_, ?_⟩
  · dsimp only
    rw [interpAt_silent appended interp pre hsilent]
  · refine ⟨before ++ pre, rest ++ [HEvent.destroy] ++ closing, last, ?_, ?_, e3, ?_, ?_⟩
    · rw [e1]
      simp only [List.append_assoc]
    · cases pre with
      | nil => simp at e2
      | cons a as =>
        rw [List.getLast?_append_of_ne_nil _ (by simp)]
        exact e2
    · unfold codecCalls
      rw [List.countP_append, hzero before hbefore, e4]
      omega
    · rfl

theorem jpeg_read_scanlines_trace (cinfo : Decompress) (st : RState) :
    (jpeg_read_scanlines cinfo st).trace =
      st.trace ++ [REvent.read_scanlines st.output_scanline] := by
  unfold jpeg_read_scanlines
  split_ifs <;> rfl

/-- The scanline loop appends nothing to the interpreter result. -/
theorem scanLoop_silent (cinfo : Decompress) (block : List Byte → Tk_PhotoImageBlock)
    (destX outW srcY : Int) (n : Nat) (curY outY : Int) (st : RState)
    (h : ∀ e ∈ st.trace, REvent.appended e = none) :
    ∀ e ∈ (scanLoop cinfo block destX outW srcY n curY outY st).trace,
      REvent.appended e = none := by
  induction n generalizing curY outY st with
  | zero => exact h
  | succ n ih =>
    rw [scanLoop_succ]
    split_ifs with hc
    · apply ih
      dsimp only
      intro e he
      rw [jpeg_read_scanlines_trace, List.mem_append, List.mem_append] at he
      rcases he with (he | he) | he
      · exact h e he
      · rw [List.mem_singleton] at he; subst he; rfl
      · rw [List.mem_singleton] at he; subst he; rfl
    · apply ih
      intro e he
      rw [jpeg_read_scanlines_trace, List.mem_append] at he
      rcases he with he | he
      · exact h e he
      · rw [List.mem_singleton] at he; subst he; rfl

/-- In every run of `CommonReadJPEG` the calls that change the interpreter
result come after the last codec call. -/
theorem CommonReadJPEG_trace_split (interp : String) (cinfo : Decompress)
    (formatString : FormatArg) (destX destY width height srcX srcY : Int) :
    ∃ body tail,
      (CommonReadJPEG interp cinfo formatString destX destY width height srcX srcY).trace
        = body ++ tail ∧
      (∀ e ∈ body, REvent.appended e = none) ∧
      (∀ e ∈ tail, REvent.entersCodec e = false) := by
  have hall : ∀ (l : List REvent), (∀ e ∈ l, REvent.appended e = none) →
      ∃ body tail, l = body ++ tail ∧ (∀ e ∈ body, REvent.appended e = none) ∧
        (∀ e ∈ tail, REvent.entersCodec e = false) := by
    intro l hl
    exact ⟨l, [], by simp, hl, by simp⟩
  have hlast : ∀ (l : List REvent) (m : String), (∀ e ∈ l, REvent.appended e = none) →
      ∃ body tail, l ++ [REvent.appendResult m] = body ++ tail ∧
        (∀ e ∈ body, REvent.appended e = none) ∧
        (∀ e ∈ tail, REvent.entersCodec e = false) := by
    intro l m hl
    refine ⟨l, [REvent.appendResult m], rfl, hl, ?_⟩
    intro e he
    rw [List.mem_singleton] at he
    subst he
    rfl
  have hsilent_of : ∀ (l : List REvent),
      (l.all fun e => (REvent.appended e).isNone) = true → ∀ e ∈ l, REvent.appended e = none := by
    intro l hl e he
    rw [List.all_eq_true] at hl
    have := hl e he
    simpa using this
  cases formatString with
  | notList err =>
    unfold CommonReadJPEG
    dsimp only
    by_cases hp : (cinfo.data_precision ≠ 8 ∨ sizeof_JSAMPLE ≠ sizeof_unsigned_char)
    · rw [if_pos hp]
      exact hlast _ _ (hsilent_of _ rfl)
    · rw [if_neg hp]
      exact hall _ (hsilent_of _ rfl)
  | null =>
    unfold CommonReadJPEG
    dsimp only
    by_cases hp : (cinfo.data_precision ≠ 8 ∨ sizeof_JSAMPLE ≠ sizeof_unsigned_char)
    · rw [if_pos hp]
      exact hlast _ _ (hsilent_of _ rfl)
    · rw [if_neg hp]
      by_cases hcond : (outWidth cinfo.output_width width srcX ≤ 0 ∨
          outHeight cinfo.output_height height srcY ≤ 0 ∨
          srcX ≥ cinfo.output_width ∨ srcY ≥ cinfo.output_height)
      · rw [if_pos hcond]
        exact hall _ (hsilent_of _ rfl)
      · rw [if_neg hcond]
        have hfe : (if FormatArg.null ≠ FormatArg.null then [REvent.listObjGetElements] else [])
            = ([] : List REvent) := by simp
        rw [hfe]
        cases hl : blockLayout cinfo.out_color_space with
        | none => exact hlast _ _ (hsilent_of _ rfl)
        | some layout =>
          dsimp only
          have hs := scanLoop_silent cinfo
            (readBlock layout cinfo.output_width (outWidth cinfo.output_width width srcX) srcX)
            destX (outWidth cinfo.output_width width srcX) srcY
            (wrapInt (srcY + outHeight cinfo.output_height height srcY)).toNat 0 destY
            { output_scanline := 0, buffer := [],
              trace := [REvent.read_header] ++ ([] : List REvent) ++ [REvent.start_decompress] ++
                [REvent.photoExpand (wrapInt (destX + outWidth cinfo.output_width width srcX))
                  (wrapInt (destY + outHeight cinfo.output_height height srcY)),
                 REvent.alloc_sarray ((cinfo.output_width : Int) * cinfo.output_components) 1] }
            (hsilent_of _ rfl)
          split_ifs <;> apply hall <;> intro e he <;> rw [List.mem_append] at he <;>
            rcases he with he | he <;>
            first
              | exact hs e he
              | (rw [List.mem_singleton] at he; subst he; rfl)
  | list args =>
    unfold CommonReadJPEG
    dsimp only
    by_cases hp : (cinfo.data_precision ≠ 8 ∨ sizeof_JSAMPLE ≠ sizeof_unsigned_char)
    · rw [if_pos hp]
      exact hlast _ _ (hsilent_of _ rfl)
    · rw [if_neg hp]
      by_cases hcond : (outWidth cinfo.output_width width srcX ≤ 0 ∨
          outHeight cinfo.output_height height srcY ≤ 0 ∨
          srcX ≥ cinfo.output_width ∨ srcY ≥ cinfo.output_height)
      · rw [if_pos hcond]
        exact hall _ (hsilent_of _ rfl)
      · rw [if_neg hcond]
        have hfe : (if FormatArg.list args ≠ FormatArg.null then [REvent.listObjGetElements] else [])
            = [REvent.listObjGetElements] := by simp
        rw [hfe]
        cases hl : blockLayout cinfo.out_color_space with
        | none => exact hlast _ _ (hsilent_of _ rfl)
        | some layout =>
          dsimp only
          have hs := scanLoop_silent cinfo
            (readBlock layout cinfo.output_width (outWidth cinfo.output_width width srcX) srcX)
            destX (outWidth cinfo.output_width width srcX) srcY
            (wrapInt (srcY + outHeight cinfo.output_height height srcY)).toNat 0 destY
            { output_scanline := 0, buffer := [],
              trace := [REvent.read_header] ++ [REvent.listObjGetElements] ++ [REvent.start_decompress] ++
                [REvent.photoExpand (wrapInt (destX + outWidth cinfo.output_width width srcX))
                  (wrapInt (destY + outHeight cinfo.output_height height srcY)),
                 REvent.alloc_sarray ((cinfo.output_width : Int) * cinfo.output_components) 1] }
            (hsilent_of _ rfl)
          split_ifs <;> apply hall <;> intro e he <;> rw [List.mem_append] at he <;>
            rcases he with he | he <;>
            first
              | exact hs e he
              | (rw [List.mem_singleton] at he; subst he; rfl)

/-- C18: for each of `ChnReadJPEG`, `FileReadJPEG`, `ObjReadJPEG`,
`FileWriteJPEG` and `StringWriteJPEG`: if codec call number `k` of the run ends
in `error_exit` with the formatted message `msg`, the handler returns
`TCL_ERROR`, the text it leaves is the interpreter result on entry followed by
its "couldn't read/write JPEG ..." prefix and `msg`, and after the failing call
it makes only the two appending calls and the destroy call (then `fclose` in
`FileWriteJPEG`): no scanline is read, pushed or written to the raster after
the signal. -/
theorem C18_fatal_error_is_reported (interp : String) (cinfo : Decompress)
    (formatString : FormatArg) (destX destY width height srcX srcY : Int)
    (fileName : String) (translated : Except String String) (fopenError : Option String)
    (blockPtr : Tk_PhotoImageBlock) (k : Nat) (msg : String) :
    (k < codecCalls REvent.entersCodec
        (ChnReadJPEG interp cinfo formatString destX destY width height srcX srcY none).trace →
      (ChnReadJPEG interp cinfo formatString destX destY width height srcX srcY
        (some (k, msg))).code = TCL_ERROR ∧
      (ChnReadJPEG interp cinfo formatString destX destY width height srcX srcY
        (some (k, msg))).interp = interp ++ "couldn't read JPEG string: " ++ msg ∧
      FaultHandled REvent.entersCodec "couldn't read JPEG string: " msg [] k
        (ChnReadJPEG interp cinfo formatString destX destY width height srcX srcY none).trace
        (ChnReadJPEG interp cinfo formatString destX destY width height srcX srcY
          (some (k, msg))).trace) ∧
    (k < codecCalls REvent.entersCodec
        (FileReadJPEG interp cinfo fileName formatString destX destY width height srcX srcY
          none).trace →
      (FileReadJPEG interp cinfo fileName formatString destX destY width height srcX srcY
        (some (k, msg))).code = TCL_ERROR ∧
      (FileReadJPEG interp cinfo fileName formatString destX destY width height srcX srcY
        (some (k, msg))).interp
        = interp ++ ("couldn't read JPEG file \"" ++ fileName ++ "\": ") ++ msg ∧
      FaultHandled REvent.entersCodec ("couldn't read JPEG file \"" ++ fileName ++ "\": ")
        msg [] k
        (FileReadJPEG interp cinfo fileName formatString destX destY width height srcX srcY
          none).trace
        (FileReadJPEG interp cinfo fileName formatString destX destY width height srcX srcY
          (some (k, msg))).trace) ∧
    (k < codecCalls REvent.entersCodec
        (ObjReadJPEG interp cinfo formatString destX destY width height srcX srcY none).trace →
      (ObjReadJPEG interp cinfo formatString destX destY width height srcX srcY
        (some (k, msg))).code = TCL_ERROR ∧
      (ObjReadJPEG interp cinfo formatString destX destY width height srcX srcY
        (some (k, msg))).interp = interp ++ "couldn't read JPEG string: " ++ msg ∧
      FaultHandled REvent.entersCodec "couldn't read JPEG string: " msg [] k
        (ObjReadJPEG interp cinfo formatString destX destY width height srcX srcY none).trace
        (ObjReadJPEG interp cinfo formatString destX destY width height srcX srcY
          (some (k, msg))).trace) ∧
    (k < codecCalls WEvent.entersCodec
        (FileWriteJPEG interp fileName translated fopenError formatString blockPtr none).trace →
      (FileWriteJPEG interp fileName translated fopenError formatString blockPtr
        (some (k, msg))).code = TCL_ERROR ∧
      (FileWriteJPEG interp fileName translated fopenError formatString blockPtr
        (some (k, msg))).interp
        = interp ++ ("couldn't write JPEG file \"" ++ fileName ++ "\": ") ++ msg ∧
      FaultHandled WEvent.entersCodec ("couldn't write JPEG file \"" ++ fileName ++ "\": ")
        msg [HEvent.host "fclose"] k
        (FileWriteJPEG interp fileName translated fopenError formatString blockPtr none).trace
        (FileWriteJPEG interp fileName translated fopenError formatString blockPtr
          (some (k, msg))).trace) ∧
    (k < codecCalls WEvent.entersCodec
        (StringWriteJPEG interp formatString blockPtr none).trace →
      (StringWriteJPEG interp formatString blockPtr (some (k, msg))).code = TCL_ERROR ∧
      (StringWriteJPEG interp formatString blockPtr (some (k, msg))).interp
        = interp ++ "couldn't write JPEG string: " ++ msg ∧
      FaultHandled WEvent.entersCodec "couldn't write JPEG string: " msg [] k
        (StringWriteJPEG interp formatString blockPtr none).trace
        (StringWriteJPEG interp formatString blockPtr (some (k, msg))).trace) := by
  obtain ⟨body, tail, ht, hb, htl⟩ := CommonReadJPEG_trace_split interp cinfo formatString
    destX destY width height srcX srcY
  have hnil : ∀ e ∈ ([] : List (HEvent REvent)),
      HEvent.entersCodec REvent.entersCodec e = false := by
    intro e he; cases he
  have hnilw : ∀ e ∈ ([] : List (HEvent WEvent)),
      HEvent.entersCodec WEvent.entersCodec e = false := by
    intro e he; cases he
  have hwb : ∀ e ∈ (CommonWriteJPEG interp formatString blockPtr).trace,
      WEvent.appended e = none := fun _ _ => rfl
  have hwt : ∀ e ∈ ([] : List WEvent), WEvent.entersCodec e = false := by
    intro e he; cases he
  refine ⟨?_, ?_, ?_, ?_, ?_⟩
  · intro hk
    unfold ChnReadJPEG at hk ⊢
    dsimp only at hk ⊢
    rw [ht] at hk ⊢
    exact runHandler_fault _ _ _ _ _ _ _ _ _ body tail k msg hnil hnil hb htl hk
  · intro hk
    unfold FileReadJPEG at hk ⊢
    dsimp only at hk ⊢
    rw [ht] at hk ⊢
    exact runHandler_fault _ _ _ _ _ _ _ _ _ body tail k msg hnil hnil hb htl hk
  · intro hk
    unfold ObjReadJPEG at hk ⊢
    dsimp only at hk ⊢
    rw [ht] at hk ⊢
    exact runHandler_fault _ _ _ _ _ _ _ _ _ body tail k msg hnil hnil hb htl hk
  · intro hk
    cases translated with
    | error err =>
      exfalso
      simp [FileWriteJPEG, codecCalls, HEvent.entersCodec] at hk
    | ok fullName =>
      cases fopenError with
      | some posixError =>
        exfalso
        simp [FileWriteJPEG, codecCalls, HEvent.entersCodec] at hk
      | none =>
        unfold FileWriteJPEG at hk ⊢
        dsimp only at hk ⊢
        rw [← List.append_nil (CommonWriteJPEG interp formatString blockPtr).trace] at hk ⊢
        refine runHandler_fault _ _ _ _ _ _ _ _ _
          (CommonWriteJPEG interp formatString blockPtr).trace [] k msg ?_ ?_ hwb hwt hk
        · intro e he
          simp only [List.mem_cons, List.mem_singleton, List.not_mem_nil, or_false] at he
          rcases he with rfl | rfl | rfl <;> rfl
        · intro e he
          rw [List.mem_singleton] at he
          subst he
          rfl
  · intro hk
    unfold StringWriteJPEG at hk ⊢
    dsimp only at hk ⊢
    rw [← List.append_nil (CommonWriteJPEG interp formatString blockPtr).trace] at hk ⊢
    exact runHandler_fault _ _ _ _ _ _ _ _ _
      (CommonWriteJPEG interp formatString blockPtr).trace [] k msg hnilw hnilw hwb hwt hk

/-- C18 witness: with an empty interpreter result, the 4x4 RGB stream, the 2x2
RGBA raster and the file name `a.jpg`, each of the five handlers makes more
than one codec call, and a fatal error in codec call number 1 with message
`Bogus marker length` is reported as stated. -/
theorem C18_fatal_error_is_reported_witness :
    (1 < codecCalls REvent.entersCodec
        (ChnReadJPEG "" rgb4x4 FormatArg.null 0 0 2 2 0 0 none).trace ∧
      1 < codecCalls REvent.entersCodec
        (FileReadJPEG "" rgb4x4 "a.jpg" FormatArg.null 0 0 2 2 0 0 none).trace ∧
      1 < codecCalls REvent.entersCodec
        (ObjReadJPEG "" rgb4x4 FormatArg.null 0 0 2 2 0 0 none).trace ∧
      1 < codecCalls WEvent.entersCodec
        (FileWriteJPEG "" "a.jpg" (Except.ok "a.jpg") none FormatArg.null rgba2x2 none).trace ∧
      1 < codecCalls WEvent.entersCodec
        (StringWriteJPEG "" FormatArg.null rgba2x2 none).trace) ∧
    (ChnReadJPEG "" rgb4x4 FormatArg.null 0 0 2 2 0 0
        (some (1, "Bogus marker length"))).code = TCL_ERROR ∧
    (FileReadJPEG "" rgb4x4 "a.jpg" FormatArg.null 0 0 2 2 0 0
        (some (1, "Bogus marker length"))).interp
      = "" ++ ("couldn't read JPEG file \"" ++ "a.jpg" ++ "\": ") ++ "Bogus marker length" ∧
    (ObjReadJPEG "" rgb4x4 FormatArg.null 0 0 2 2 0 0
        (some (1, "Bogus marker length"))).interp
      = "" ++ "couldn't read JPEG string: " ++ "Bogus marker length" ∧
    FaultHandled WEvent.entersCodec ("couldn't write JPEG file \"" ++ "a.jpg" ++ "\": ")
      "Bogus marker length" [HEvent.host "fclose"] 1
      (FileWriteJPEG "" "a.jpg" (Except.ok "a.jpg") none FormatArg.null rgba2x2 none).trace
      (FileWriteJPEG "" "a.jpg" (Except.ok "a.jpg") none FormatArg.null rgba2x2
        (some (1, "Bogus marker length"))).trace ∧
    (StringWriteJPEG "" FormatArg.null rgba2x2
        (some (1, "Bogus marker length"))).interp
      = "" ++ "couldn't write JPEG string: " ++ "Bogus marker length" :=
  ⟨⟨by decide, by decide, by decide, by decide, by decide⟩,
   ((C18_fatal_error_is_reported "" rgb4x4 FormatArg.null 0 0 2 2 0 0 "a.jpg"
      (Except.ok "a.jpg") none rgba2x2 1 "Bogus marker length").1 (by decide)).1,
   ((C18_fatal_error_is_reported "" rgb4x4 FormatArg.null 0 0 2 2 0 0 "a.jpg"
      (Except.ok "a.jpg") none rgba2x2 1 "Bogus marker length").2.1 (by decide)).2.1,
   ((C18_fatal_error_is_reported "" rgb4x4 FormatArg.null 0 0 2 2 0 0 "a.jpg"
      (Except.ok "a.jpg") none rgba2x2 1 "Bogus marker length").2.2.1 (by decide)).2.1,
   ((C18_fatal_error_is_reported "" rgb4x4 FormatArg.null 0 0 2 2 0 0 "a.jpg"
      (Except.ok "a.jpg") none rgba2x2 1 "Bogus marker length").2.2.2.1 (by decide)).2.2,
   ((C18_fatal_error_is_reported "" rgb4x4 FormatArg.null 0 0 2 2 0 0 "a.jpg"
      (Except.ok "a.jpg") none rgba2x2 1 "Bogus marker length").2.2.2.2 (by decide)).2.1⟩

/-! ### Blocks handed to the raster by `CommonReadJPEG` -/

/-- Every raster write the scanline loop adds hands over the row just decoded,
as a block one row high. -/
theorem scanLoop_blocks (cinfo : Decompress) (block : List Byte → Tk_PhotoImageBlock)
    (destX outW srcY : Int) (n : Nat) (curY outY : Int) (st : RState)
    (hH : st.output_scanline + n ≤ cinfo.output_height) :
    ∀ w ∈ rasterWrites (scanLoop cinfo block destX outW srcY n curY outY st).trace,
      w ∈ rasterWrites st.trace ∨
      ∃ k, k < cinfo.output_height ∧ w.block = block (cinfo.scanline k) ∧ w.x = destX ∧
        w.width = outW ∧ w.height = 1 := by
  induction n generalizing curY outY st with
  | zero =>
    intro w hw
    exact Or.inl hw
  | succ n ih =>
    have hlt : st.output_scanline < cinfo.output_height := by omega
    have hnext := jpeg_read_scanlines_next cinfo st hlt
    rw [scanLoop_succ]
    split_ifs with hc
    · intro w hw
      rcases ih (curY + 1) (wrapInt (outY + 1)) _ (by rw [hnext]; dsimp only; omega) w hw with h | h
      · rw [hnext] at h
        dsimp only at h
        rw [rasterWrites_append, rasterWrites_append, List.mem_append, List.mem_append] at h
        rcases h with (h | h) | h
        · exact Or.inl h
        · simp [rasterWrites, REvent.put?] at h
        · right
          simp only [rasterWrites, List.filterMap_cons, List.filterMap_nil, REvent.put?,
            List.mem_singleton] at h
          subst h
          exact ⟨st.output_scanline, hlt, rfl, rfl, rfl, rfl⟩
      · exact Or.inr h
    · intro w hw
      rcases ih (curY + 1) outY _ (by rw [hnext]; dsimp only; omega) w hw with h | h
      · rw [hnext] at h
        dsimp only at h
        rw [rasterWrites_append, List.mem_append] at h
        rcases h with h | h
        · exact Or.inl h
        · simp [rasterWrites, REvent.put?] at h
      · exact Or.inr h

/-- The trace of `CommonReadJPEG` either holds no scanline read and no raster
write, or it is the trace of the scanline loop, run for `srcY + outHeight`
iterations on a region that passed the emptiness check, followed by the
finish or abort call. -/
theorem CommonReadJPEG_shape (interp : String) (cinfo : Decompress)
    (formatString : FormatArg) (destX destY width height srcX srcY : Int) :
    (∀ e ∈ (CommonReadJPEG interp cinfo formatString destX destY width height srcX srcY).trace,
      e.readsScanline = false ∧ e.put? = none) ∨
    (∃ layout tr2 last, blockLayout cinfo.out_color_space = some layout ∧
      ¬ (outWidth cinfo.output_width width srcX ≤ 0 ∨
          outHeight cinfo.output_height height srcY ≤ 0 ∨
          srcX ≥ cinfo.output_width ∨ srcY ≥ cinfo.output_height) ∧
      (∀ e ∈ tr2, e.readsScanline = false ∧ e.put? = none) ∧
      last.readsScanline = false ∧ last.put? = none ∧
      (CommonReadJPEG interp cinfo formatString destX destY width height srcX srcY).trace
        = (scanLoop cinfo
            (readBlock layout cinfo.output_width (outWidth cinfo.output_width width srcX) srcX)
            destX (outWidth cinfo.output_width width srcX) srcY
            (wrapInt (srcY + outHeight cinfo.output_height height srcY)).toNat 0 destY
            { output_scanline := 0, buffer := [], trace := tr2 }).trace ++ [last]) := by
  have hplain : ∀ (l : List REvent),
      (l.all fun e => !e.readsScanline && (REvent.put? e).isNone) = true →
      ∀ e ∈ l, e.readsScanline = false ∧ e.put? = none := by
    intro l hl e he
    rw [List.all_eq_true] at hl
    have := hl e he
    simpa using this
  cases formatString with
  | notList err =>
    left
    unfold CommonReadJPEG
    dsimp only
    by_cases hp : (cinfo.data_precision ≠ 8 ∨ sizeof_JSAMPLE ≠ sizeof_unsigned_char)
    · rw [if_pos hp]
      exact hplain _ rfl
    · rw [if_neg hp]
      exact hplain _ rfl
  | null =>
    unfold CommonReadJPEG
    dsimp only
    by_cases hp : (cinfo.data_precision ≠ 8 ∨ sizeof_JSAMPLE ≠ sizeof_unsigned_char)
    · rw [if_pos hp]
      exact Or.inl (hplain _ rfl)
    · rw [if_neg hp]
      by_cases hcond : (outWidth cinfo.output_width width srcX ≤ 0 ∨
          outHeight cinfo.output_height height srcY ≤ 0 ∨
          srcX ≥ cinfo.output_width ∨ srcY ≥ cinfo.output_height)
      · rw [if_pos hcond]
        exact Or.inl (hplain _ rfl)
      · rw [if_neg hcond]
        have hfe : (if FormatArg.null ≠ FormatArg.null then [REvent.listObjGetElements] else [])
            = ([] : List REvent) := by simp
        rw [hfe]
        cases hl : blockLayout cinfo.out_color_space with
        | none => exact Or.inl (hplain _ rfl)
        | some layout =>
          right
          dsimp only
          split_ifs
          · refine ⟨layout, _, REvent.finish_decompress, rfl, hcond, ?_, rfl, rfl, rfl⟩
            exact hplain _ rfl
          · refine ⟨layout, _, REvent.abort_decompress, rfl, hcond, ?_, rfl, rfl, rfl⟩
            exact hplain _ rfl
  | list args =>
    unfold CommonReadJPEG
    dsimp only
    by_cases hp : (cinfo.data_precision ≠ 8 ∨ sizeof_JSAMPLE ≠ sizeof_unsigned_char)
    · rw [if_pos hp]
      exact Or.inl (hplain _ rfl)
    · rw [if_neg hp]
      by_cases hcond : (outWidth cinfo.output_width width srcX ≤ 0 ∨
          outHeight cinfo.output_height height srcY ≤ 0 ∨
          srcX ≥ cinfo.output_width ∨ srcY ≥ cinfo.output_height)
      · rw [if_pos hcond]
        exact Or.inl (hplain _ rfl)
      · rw [if_neg hcond]
        have hfe : (if FormatArg.list args ≠ FormatArg.null then [REvent.listObjGetElements]
            else []) = [REvent.listObjGetElements] := by simp
        rw [hfe]
        cases hl : blockLayout cinfo.out_color_space with
        | none => exact Or.inl (hplain _ rfl)
        | some layout =>
          right
          dsimp only
          split_ifs
          · refine ⟨layout, _, REvent.finish_decompress, rfl, hcond, ?_, rfl, rfl, rfl⟩
            exact hplain _ rfl
          · refine ⟨layout, _, REvent.abort_decompress, rfl, hcond, ?_, rfl, rfl, rfl⟩
            exact hplain _ rfl
/-- Every block `CommonReadJPEG` hands to the raster describes a decoded row
in the layout chosen by the colour-space switch, for a region that passed the
emptiness check. -/
theorem CommonReadJPEG_puts (interp : String) (cinfo : Decompress)
    (formatString : FormatArg) (destX destY width height srcX srcY : Int) :
    ∀ w ∈ rasterWrites
        (CommonReadJPEG interp cinfo formatString destX destY width height srcX srcY).trace,
      ∃ layout k, blockLayout cinfo.out_color_space = some layout ∧
        ¬ (outWidth cinfo.output_width width srcX ≤ 0 ∨
            outHeight cinfo.output_height height srcY ≤ 0 ∨
            srcX ≥ cinfo.output_width ∨ srcY ≥ cinfo.output_height) ∧
        k < cinfo.output_height ∧
        w.block = readBlock layout cinfo.output_width (outWidth cinfo.output_width width srcX)
          srcX (cinfo.scanline k) ∧
        w.x = destX ∧ w.width = outWidth cinfo.output_width width srcX ∧ w.height = 1 := by
  have hnone : ∀ (l : List REvent), (∀ e ∈ l, e.readsScanline = false ∧ e.put? = none) →
      rasterWrites l = [] := by
    intro l hl
    unfold rasterWrites
    rw [List.filterMap_eq_nil_iff]
    intro e he
    exact (hl e he).2
  intro w hw
  rcases CommonReadJPEG_shape interp cinfo formatString destX destY width height srcX srcY
    with h | ⟨layout, tr2, last, hl, hcond, htr2, _, hlast, htr⟩
  · rw [hnone _ h] at hw
    cases hw
  · rw [htr, rasterWrites_append, List.mem_append] at hw
    rcases hw with hw | hw
    · have hH : (0 : Nat) + (wrapInt (srcY + outHeight cinfo.output_height height srcY)).toNat
          ≤ cinfo.output_height := by
        have h1 := stopY_le cinfo.output_height height srcY
        omega
      rcases scanLoop_blocks cinfo _ destX _ srcY _ 0 destY
        { output_scanline := 0, buffer := [], trace := tr2 } hH w hw with h | ⟨k, hk, hb, h1, h2, h3⟩
      · rw [hnone _ htr2] at h
        cases h
      · exact ⟨layout, k, hl, hcond, hk, hb, h1, h2, h3⟩
    · have : rasterWrites [last] = [] := by
        unfold rasterWrites
        rw [List.filterMap_cons, hlast]
        rfl
      rw [this] at hw
      cases hw

/-- The number of scanlines `CommonReadJPEG` asks of the decoder never exceeds the
image height. -/
theorem CommonReadJPEG_reads_le (interp : String) (cinfo : Decompress)
    (formatString : FormatArg) (destX destY width height srcX srcY : Int) :
    scanlineReads
        (CommonReadJPEG interp cinfo formatString destX destY width height srcX srcY).trace
      ≤ cinfo.output_height := by
  have hzero : ∀ (l : List REvent), (∀ e ∈ l, e.readsScanline = false ∧ e.put? = none) →
      scanlineReads l = 0 := by
    intro l hl
    unfold scanlineReads
    rw [List.countP_eq_zero]
    intro e he
    rw [(hl e he).1]
    simp
  rcases CommonReadJPEG_shape interp cinfo formatString destX destY width height srcX srcY
    with h | ⟨layout, tr2, last, hl, hcond, htr2, hlast, _, htr⟩
  · rw [hzero _ h]
    exact Nat.zero_le _
  · have hH : (0 : Nat) + (wrapInt (srcY + outHeight cinfo.output_height height srcY)).toNat
        ≤ cinfo.output_height := by
      have h1 := stopY_le cinfo.output_height height srcY
      omega
    obtain ⟨evs, h1, h2, _, _⟩ := scanLoop_trace cinfo
      (readBlock layout cinfo.output_width (outWidth cinfo.output_width width srcX) srcX)
      destX (outWidth cinfo.output_width width srcX) srcY
      (wrapInt (srcY + outHeight cinfo.output_height height srcY)).toNat 0 destY
      { output_scanline := 0, buffer := [], trace := tr2 } hH
    rw [htr, h1]
    dsimp only
    have e1 : scanlineReads (tr2 ++ evs ++ [last]) =
        scanlineReads tr2 + scanlineReads evs + scanlineReads [last] := by
      unfold scanlineReads
      rw [List.countP_append, List.countP_append]
    have e2 : scanlineReads [last] = 0 := by
      unfold scanlineReads
      rw [List.countP_cons, hlast]
      rfl
    rw [e1, hzero _ htr2, h2, e2]
    omega
/-- C21: every block `CommonReadJPEG` hands to the raster is one row high with
`pitch = pixelSize * fileWidth` and shows a decoded row; for a Grayscale image
it has `pixelSize` 1 and red, green and blue offsets 0, so that every pixel has
red == green == blue == the decoded sample at the pixel's address; for an RGB
image it has `pixelSize` 3 and offsets 0, 1, 2.  No block is handed over for
any other colour space. -/
theorem C21_block_layout (interp : String) (cinfo : Decompress)
    (formatString : FormatArg) (destX destY width height srcX srcY : Int) :
    ∀ w ∈ rasterWrites
        (CommonReadJPEG interp cinfo formatString destX destY width height srcX srcY).trace,
      w.block.height = 1 ∧ w.height = 1 ∧
      w.block.pitch = w.block.pixelSize * cinfo.output_width ∧
      ∃ k, k < cinfo.output_height ∧ w.block.mem = rowMem (cinfo.scanline k) ∧
        ((cinfo.out_color_space = J_COLOR_SPACE.JCS_GRAYSCALE ∧
            w.block.pixelSize = 1 ∧
            w.block.offset0 = 0 ∧ w.block.offset1 = 0 ∧ w.block.offset2 = 0 ∧
            ∀ x y : Int,
              (w.block.pixel x y).1 = (w.block.pixel x y).2.1 ∧
              (w.block.pixel x y).2.1 = (w.block.pixel x y).2.2 ∧
              (w.block.pixel x y).2.2 =
                rowMem (cinfo.scanline k) (w.block.pixelPtr + y * w.block.pitch + x)) ∨
          (cinfo.out_color_space = J_COLOR_SPACE.JCS_RGB ∧
            w.block.pixelSize = 3 ∧
            w.block.offset0 = 0 ∧ w.block.offset1 = 1 ∧ w.block.offset2 = 2)) := by
  intro w hw
  obtain ⟨layout, k, hl, _, hk, hb, _, _, h3⟩ :=
    CommonReadJPEG_puts interp cinfo formatString destX destY width height srcX srcY w hw
  refine ⟨by rw [hb]; rfl, h3, by rw [hb]; rfl, k, hk, by rw [hb]; rfl, ?_⟩
  cases hcs : cinfo.out_color_space <;> rw [hcs] at hl <;>
    simp only [blockLayout, Option.some.injEq, reduceCtorEq] at hl
  · left
    subst hl
    refine ⟨rfl, by rw [hb]; rfl, by rw [hb]; rfl, by rw [hb]; rfl, by rw [hb]; rfl, ?_⟩
    intro x y
    rw [hb]
    simp only [Tk_PhotoImageBlock.pixel, readBlock, mul_one, add_zero, and_self, true_and]
  · right
    subst hl
    exact ⟨rfl, by rw [hb]; rfl, by rw [hb]; rfl, by rw [hb]; rfl, by rw [hb]; rfl⟩

/-- Witness for C21: the first row of the 4x4 Grayscale image, columns 1..2,
handed to the raster. -/
theorem C21_block_layout_witness :
    ∃ w, w ∈ rasterWrites (CommonReadJPEG "" gray4x4 FormatArg.null 0 0 2 2 1 0).trace ∧
      w.block.height = 1 ∧ w.height = 1 ∧
      w.block.pitch = w.block.pixelSize * gray4x4.output_width ∧
      ∃ k, k < gray4x4.output_height ∧ w.block.mem = rowMem (gray4x4.scanline k) ∧
        ((gray4x4.out_color_space = J_COLOR_SPACE.JCS_GRAYSCALE ∧
            w.block.pixelSize = 1 ∧
            w.block.offset0 = 0 ∧ w.block.offset1 = 0 ∧ w.block.offset2 = 0 ∧
            ∀ x y : Int,
              (w.block.pixel x y).1 = (w.block.pixel x y).2.1 ∧
              (w.block.pixel x y).2.1 = (w.block.pixel x y).2.2 ∧
              (w.block.pixel x y).2.2 =
                rowMem (gray4x4.scanline k) (w.block.pixelPtr + y * w.block.pitch + x)) ∨
          (gray4x4.out_color_space = J_COLOR_SPACE.JCS_RGB ∧
            w.block.pixelSize = 3 ∧
            w.block.offset0 = 0 ∧ w.block.offset1 = 1 ∧ w.block.offset2 = 2)) :=
  ⟨{ block := readBlock (1, 0, 0, 0) 4 2 1 (gray4x4.scanline 0),
     x := 0, y := 0, width := 2, height := 1 },
   List.mem_cons_self _ _,
   C21_block_layout "" gray4x4 FormatArg.null 0 0 2 2 1 0 _ (List.mem_cons_self _ _)⟩

/-- C28 as stated fails: on the 4x4 RGB image the request `srcX = 1`,
`srcY = 0`, `width = INT_MAX`, `height = 2` passes the emptiness check, because
the `int` sum `srcX + width` wraps to `INT_MIN` and is not above `fileWidth`;
`outWidth` stays `INT_MAX`, so `srcX + outWidth` exceeds `fileWidth`, and the
two blocks handed to the raster are 2147483647 pixels wide over a row buffer
of 4 pixels. -/
theorem C28_counterexample :
    (0 : Int) ≤ 1 ∧ (0 : Int) ≤ 0 ∧
    ¬ (outWidth rgb4x4.output_width 2147483647 1 ≤ 0 ∨
        outHeight rgb4x4.output_height 2 0 ≤ 0 ∨
        (1 : Int) ≥ rgb4x4.output_width ∨ (0 : Int) ≥ rgb4x4.output_height) ∧
    outWidth rgb4x4.output_width 2147483647 1 = 2147483647 ∧
    ¬ ((1 : Int) + outWidth rgb4x4.output_width 2147483647 1 ≤ rgb4x4.output_width) ∧
    (rasterWrites (CommonReadJPEG "" rgb4x4 FormatArg.null 0 0 2147483647 2 1 0).trace).map
      (fun w => (w.block.width, w.block.pixelSize, w.block.pitch))
      = [(2147483647, 3, 12), (2147483647, 3, 12)] := by
  refine ⟨by decide, by decide, by decide, by decide, by decide, ?_⟩
  decide

/-- C28 (amended): for every request with `srcX >= 0` that passes the
emptiness check (whatever the sign of `srcY`) and in which neither
`srcX + width` nor `srcY + height` overflows the `int` range, `1 <= outWidth`,
`1 <= outHeight`, `srcX + outWidth <= fileWidth` and `srcY + outHeight <=
fileHeight`; every block handed to the raster is one row high, starts at pixel
`srcX` of the one-row decode buffer and ends within its `fileWidth` pixels; and
at most `fileHeight` scanlines are requested from the decoder. -/
theorem C28_region_within_image (interp : String) (cinfo : Decompress)
    (formatString : FormatArg) (destX destY width height srcX srcY : Int)
    (hx0 : 0 ≤ srcX)
    (hpass : ¬ (outWidth cinfo.output_width width srcX ≤ 0 ∨
        outHeight cinfo.output_height height srcY ≤ 0 ∨
        srcX ≥ cinfo.output_width ∨ srcY ≥ cinfo.output_height))
    (hovW : INT_MIN ≤ srcX + width ∧ srcX + width ≤ INT_MAX)
    (hovH : INT_MIN ≤ srcY + height ∧ srcY + height ≤ INT_MAX) :
    1 ≤ outWidth cinfo.output_width width srcX ∧
    1 ≤ outHeight cinfo.output_height height srcY ∧
    srcX + outWidth cinfo.output_width width srcX ≤ cinfo.output_width ∧
    srcY + outHeight cinfo.output_height height srcY ≤ cinfo.output_height ∧
    (∀ w ∈ rasterWrites
        (CommonReadJPEG interp cinfo formatString destX destY width height srcX srcY).trace,
      w.block.height = 1 ∧
      w.block.width = outWidth cinfo.output_width width srcX ∧
      1 ≤ w.block.pixelSize ∧
      w.block.pixelPtr = srcX * w.block.pixelSize ∧
      0 ≤ w.block.pixelPtr ∧
      w.block.pixelPtr + w.block.width * w.block.pixelSize
        ≤ (cinfo.output_width : Int) * w.block.pixelSize) ∧
    scanlineReads
        (CommonReadJPEG interp cinfo formatString destX destY width height srcX srcY).trace
      ≤ cinfo.output_height := by
  have hw1 : outWidth cinfo.output_width width srcX ≤ cinfo.output_width - srcX :=
    outWidth_le cinfo.output_width width srcX (by omega) hovW
  have hh1 : outHeight cinfo.output_height height srcY ≤ cinfo.output_height - srcY :=
    outHeight_le cinfo.output_height height srcY (by omega) hovH
  refine ⟨by omega, by omega, by omega, by omega, ?_,
    CommonReadJPEG_reads_le interp cinfo formatString destX destY width height srcX srcY⟩
  intro w hw
  obtain ⟨layout, k, hl, _, hk, hb, _, _, _⟩ :=
    CommonReadJPEG_puts interp cinfo formatString destX destY width height srcX srcY w hw
  have hps : layout.1 = 1 ∨ layout.1 = 3 := by
    cases hcs : cinfo.out_color_space <;> rw [hcs] at hl <;>
      simp only [blockLayout, Option.some.injEq, reduceCtorEq] at hl
    · left
      rw [← hl]
    · right
      rw [← hl]
  rw [hb]
  simp only [readBlock]
  refine ⟨trivial, trivial, by omega, trivial, ?_, ?_⟩
  · rcases hps with h | h <;> rw [h] <;> omega
  · rcases hps with h | h <;> rw [h] <;> omega

/-- Witness for C28 (amended): rows 1..2, columns 1..3 of the 4x4 RGB image. -/
theorem C28_region_within_image_witness :
    1 ≤ outWidth rgb4x4.output_width 10 1 ∧
    1 ≤ outHeight rgb4x4.output_height 2 1 ∧
    (1 : Int) + outWidth rgb4x4.output_width 10 1 ≤ rgb4x4.output_width ∧
    (1 : Int) + outHeight rgb4x4.output_height 2 1 ≤ rgb4x4.output_height ∧
    (∀ w ∈ rasterWrites (CommonReadJPEG "" rgb4x4 FormatArg.null 5 7 10 2 1 1).trace,
      w.block.height = 1 ∧
      w.block.width = outWidth rgb4x4.output_width 10 1 ∧
      1 ≤ w.block.pixelSize ∧
      w.block.pixelPtr = 1 * w.block.pixelSize ∧
      0 ≤ w.block.pixelPtr ∧
      w.block.pixelPtr + w.block.width * w.block.pixelSize
        ≤ (rgb4x4.output_width : Int) * w.block.pixelSize) ∧
    scanlineReads (CommonReadJPEG "" rgb4x4 FormatArg.null 5 7 10 2 1 1).trace
      ≤ rgb4x4.output_height :=
  C28_region_within_image "" rgb4x4 FormatArg.null 5 7 10 2 1 1 (by decide) (by decide)
    (by decide) (by decide)

/-! ### The direct path of `CommonWriteJPEG` -/

theorem samplesAt_succ (mem : Int → Byte) (p : Int) (n : Nat) :
    samplesAt mem p (n + 1) = mem p :: samplesAt mem (p + 1) n := by
  unfold samplesAt
  rw [List.range_succ_eq_map, List.map_cons, List.map_map]
  congr 1
  · simp
  · apply List.map_congr_left
    intro t _
    simp only [Function.comp, Nat.succ_eq_add_one]
    congr 1
    push_cast
    ring

/-- Without an alpha byte, the per-pixel loop over contiguous 3-byte `R G B`
pixels copies the row byte for byte. -/
theorem reformatRow_contiguous (mem : Int → Byte) (w : Nat) (p : Int) :
    reformatRow mem 0 1 2 3 w p = samplesAt mem p (3 * w) := by
  induction w generalizing p with
  | zero => rfl
  | succ w ih =>
    have e : 3 * (w + 1) = 3 * w + 1 + 1 + 1 := by omega
    rw [e, samplesAt_succ, samplesAt_succ, samplesAt_succ]
    simp only [reformatRow, reformatPixel]
    rw [if_neg (by simp), ih]
    have e3 : p + 1 + 1 + 1 = p + 3 := by ring
    have e2 : p + 1 + 1 = p + 2 := by ring
    rw [e3, e2]
    rfl

theorem directLoop_scanlines (mem : Int → Byte) (samples : Nat) (pitch : Int) (h : Nat)
    (p : Int) :
    pushedScanlines (directLoop mem samples pitch h p) =
      (List.range h).map (fun k : Nat => samplesAt mem (p + (k : Int) * pitch) samples) := by
  induction h generalizing p with
  | zero => rfl
  | succ h ih =>
    rw [List.range_succ_eq_map, List.map_cons, List.map_map]
    simp only [directLoop, pushedScanlines, List.filterMap_cons, WEvent.scanline?]
    have := ih (p + pitch)
    unfold pushedScanlines at this
    rw [this]
    congr 1
    · simp
    · apply List.map_congr_left
      intro k _
      simp only [Function.comp, Nat.succ_eq_add_one]
      congr 1
      push_cast
      ring

/-- On the direct path the scanlines pushed are those of the direct loop. -/
theorem CommonWriteJPEG_direct (interp : String) (formatString : FormatArg)
    (blockPtr : Tk_PhotoImageBlock)
    (hfmt : ∀ err, formatString ≠ FormatArg.notList err)
    (hfast : blockPtr.offset1 - blockPtr.offset0 = 1 ∧
      blockPtr.offset2 - blockPtr.offset0 = 2 ∧ blockPtr.pixelSize = 3) :
    (CommonWriteJPEG interp formatString blockPtr).code = TCL_OK ∧
    pushedScanlines (CommonWriteJPEG interp formatString blockPtr).trace =
      pushedScanlines (directLoop blockPtr.mem
        (JDIMENSION_of_int blockPtr.width * 3).toNat blockPtr.pitch
        blockPtr.height.toNat (blockPtr.pixelPtr + blockPtr.offset0)) := by
  cases formatString with
  | notList err => exact absurd rfl (hfmt err)
  | null =>
    unfold CommonWriteJPEG
    dsimp only
    rw [if_pos hfast]
    refine ⟨rfl, ?_⟩
    simp only [pushedScanlines_append]
    split_ifs <;> simp [pushedScanlines, WEvent.scanline?]
  | list args =>
    unfold CommonWriteJPEG
    dsimp only
    rw [if_pos hfast]
    refine ⟨rfl, ?_⟩
    simp only [pushedScanlines_append]
    split_ifs <;> simp [pushedScanlines, WEvent.scanline?]

/-- C22: for every raster with `pixelSize == 3` and channel offsets green =
red + 1, blue = red + 2, `CommonWriteJPEG` (format string `NULL` or a list)
pushes the scanlines of the direct loop, and these are, sample for sample, the
scanlines the per-pixel reformatting loop pushes for the same raster; no pixel
of such a raster is treated as transparent. -/
theorem C22_fast_path_equals_reformat (interp : String) (formatString : FormatArg)
    (blockPtr : Tk_PhotoImageBlock)
    (hraster : blockPtr.isRaster)
    (hfmt : ∀ err, formatString ≠ FormatArg.notList err)
    (hps : blockPtr.pixelSize = 3)
    (hg : blockPtr.offset1 = blockPtr.offset0 + 1)
    (hb : blockPtr.offset2 = blockPtr.offset0 + 2) :
    pushedScanlines (CommonWriteJPEG interp formatString blockPtr).trace =
      pushedScanlines (directLoop blockPtr.mem (blockPtr.width * 3).toNat blockPtr.pitch
        blockPtr.height.toNat (blockPtr.pixelPtr + blockPtr.offset0)) ∧
    pushedScanlines (directLoop blockPtr.mem (blockPtr.width * 3).toNat blockPtr.pitch
        blockPtr.height.toNat (blockPtr.pixelPtr + blockPtr.offset0)) =
      pushedScanlines (reformatLoop blockPtr.mem (alphaOffset blockPtr)
        (blockPtr.offset1 - blockPtr.offset0) (blockPtr.offset2 - blockPtr.offset0)
        blockPtr.pixelSize blockPtr.width.toNat blockPtr.pitch blockPtr.height.toNat
        (blockPtr.pixelPtr + blockPtr.offset0)) ∧
    ((pushedScanlines (CommonWriteJPEG interp formatString blockPtr).trace).length : Int)
      = blockPtr.height ∧
    ∀ k j : Int, ¬ treatedTransparent blockPtr k j := by
  obtain ⟨hw0, hh0, ho0, _, _⟩ := hraster
  have halpha : alphaOffset blockPtr = 0 := by
    unfold alphaOffset
    dsimp only
    rw [hps, hb]
    split_ifs <;> omega
  have hfast : blockPtr.offset1 - blockPtr.offset0 = 1 ∧
      blockPtr.offset2 - blockPtr.offset0 = 2 ∧ blockPtr.pixelSize = 3 :=
    ⟨by omega, by omega, hps⟩
  have hdir := (CommonWriteJPEG_direct interp formatString blockPtr hfmt hfast).2
  rw [JDIMENSION_of_int_nonneg blockPtr.width hw0] at hdir
  refine ⟨hdir, ?_, ?_, ?_⟩
  · rw [directLoop_scanlines, reformatLoop_scanlines, halpha, hfast.1, hfast.2.1, hps]
    apply List.map_congr_left
    intro k _
    rw [reformatRow_contiguous]
    congr 1
    omega
  · rw [hdir, directLoop_scanlines, List.length_map, List.length_range]
    omega
  · intro k j h
    exact h.1 halpha

/-- Witness for C22: the 2x2 raster of 3-byte `R G B` pixels. -/
theorem C22_fast_path_equals_reformat_witness :
    allGray2x2.isRaster ∧
    pushedScanlines (CommonWriteJPEG "" FormatArg.null allGray2x2).trace =
      pushedScanlines (directLoop allGray2x2.mem (allGray2x2.width * 3).toNat allGray2x2.pitch
        allGray2x2.height.toNat (allGray2x2.pixelPtr + allGray2x2.offset0)) ∧
    pushedScanlines (directLoop allGray2x2.mem (allGray2x2.width * 3).toNat allGray2x2.pitch
        allGray2x2.height.toNat (allGray2x2.pixelPtr + allGray2x2.offset0)) =
      pushedScanlines (reformatLoop allGray2x2.mem (alphaOffset allGray2x2)
        (allGray2x2.offset1 - allGray2x2.offset0) (allGray2x2.offset2 - allGray2x2.offset0)
        allGray2x2.pixelSize allGray2x2.width.toNat allGray2x2.pitch allGray2x2.height.toNat
        (allGray2x2.pixelPtr + allGray2x2.offset0)) ∧
    ((pushedScanlines (CommonWriteJPEG "" FormatArg.null allGray2x2).trace).length : Int)
      = allGray2x2.height ∧
    ∀ k j : Int, ¬ treatedTransparent allGray2x2 k j :=
  ⟨⟨by decide, by decide, by decide, by decide, by decide⟩,
   C22_fast_path_equals_reformat "" FormatArg.null allGray2x2
    ⟨by decide, by decide, by decide, by decide, by decide⟩
    (fun err h => by cases h) rfl rfl rfl⟩

/-- On the reformatting path a pixel that is not treated as transparent is
pushed with its own red, green and blue bytes. -/
theorem CommonWriteJPEG_opaque_pixel (interp : String) (formatString : FormatArg)
    (blockPtr : Tk_PhotoImageBlock)
    (hfmt : ∀ err, formatString ≠ FormatArg.notList err)
    (hslow : ¬ (blockPtr.offset1 - blockPtr.offset0 = 1 ∧
      blockPtr.offset2 - blockPtr.offset0 = 2 ∧ blockPtr.pixelSize = 3))
    (k j : Nat) (hk : (k : Int) < blockPtr.height) (hj : (j : Int) < blockPtr.width)
    (htr : ¬ treatedTransparent blockPtr k j) :
    ∃ row, (pushedScanlines (CommonWriteJPEG interp formatString blockPtr).trace)[k]?
        = some row ∧
      row[3 * j]? = some (blockPtr.mem (blockPtr.pixelPtr + (k : Int) * blockPtr.pitch +
        (j : Int) * blockPtr.pixelSize + blockPtr.offset0)) ∧
      row[3 * j + 1]? = some (blockPtr.mem (blockPtr.pixelPtr + (k : Int) * blockPtr.pitch +
        (j : Int) * blockPtr.pixelSize + blockPtr.offset1)) ∧
      row[3 * j + 2]? = some (blockPtr.mem (blockPtr.pixelPtr + (k : Int) * blockPtr.pitch +
        (j : Int) * blockPtr.pixelSize + blockPtr.offset2)) := by
  rw [(CommonWriteJPEG_reformat interp formatString blockPtr hfmt hslow).2]
  have hk2 : k < blockPtr.height.toNat := by omega
  have hj2 : j < blockPtr.width.toNat := by omega
  refine ⟨_, by rw [List.getElem?_map, List.getElem?_range hk2]; rfl, ?_⟩
  have hpix : reformatPixel blockPtr.mem (alphaOffset blockPtr)
      (blockPtr.offset1 - blockPtr.offset0) (blockPtr.offset2 - blockPtr.offset0)
      (blockPtr.pixelPtr + blockPtr.offset0 + (k : Int) * blockPtr.pitch +
        (j : Int) * blockPtr.pixelSize) =
      [blockPtr.mem (blockPtr.pixelPtr + (k : Int) * blockPtr.pitch +
          (j : Int) * blockPtr.pixelSize + blockPtr.offset0),
       blockPtr.mem (blockPtr.pixelPtr + (k : Int) * blockPtr.pitch +
          (j : Int) * blockPtr.pixelSize + blockPtr.offset1),
       blockPtr.mem (blockPtr.pixelPtr + (k : Int) * blockPtr.pitch +
          (j : Int) * blockPtr.pixelSize + blockPtr.offset2)] := by
    have htr2 := htr
    unfold treatedTransparent at htr2
    unfold reformatPixel
    rw [if_neg htr2]
    have e0 : blockPtr.pixelPtr + blockPtr.offset0 + (k : Int) * blockPtr.pitch +
        (j : Int) * blockPtr.pixelSize = blockPtr.pixelPtr + (k : Int) * blockPtr.pitch +
        (j : Int) * blockPtr.pixelSize + blockPtr.offset0 := by ring
    have e1 : blockPtr.pixelPtr + blockPtr.offset0 + (k : Int) * blockPtr.pitch +
        (j : Int) * blockPtr.pixelSize + (blockPtr.offset1 - blockPtr.offset0) =
        blockPtr.pixelPtr + (k : Int) * blockPtr.pitch +
        (j : Int) * blockPtr.pixelSize + blockPtr.offset1 := by ring
    have e2 : blockPtr.pixelPtr + blockPtr.offset0 + (k : Int) * blockPtr.pitch +
        (j : Int) * blockPtr.pixelSize + (blockPtr.offset2 - blockPtr.offset0) =
        blockPtr.pixelPtr + (k : Int) * blockPtr.pitch +
        (j : Int) * blockPtr.pixelSize + blockPtr.offset2 := by ring
    rw [e1, e2, e0]
  have e := fun c hc => reformatRow_getElem blockPtr.mem (alphaOffset blockPtr)
    (blockPtr.offset1 - blockPtr.offset0) (blockPtr.offset2 - blockPtr.offset0)
    blockPtr.pixelSize blockPtr.width.toNat
    (blockPtr.pixelPtr + blockPtr.offset0 + (k : Int) * blockPtr.pitch) j c hj2 hc
  refine ⟨?_, ?_, ?_⟩
  · have := e 0 (by omega)
    rw [hpix] at this
    simpa using this
  · have := e 1 (by omega)
    rw [hpix] at this
    simpa using this
  · have := e 2 (by omega)
    rw [hpix] at this
    simpa using this

/-- C27: `alphaOffset` is computed from `offset[0]`, `offset[2]` and
`pixelSize` alone: it places the alpha byte at `max(offset[0], offset[2]) + 1`
within the pixel when that is below `pixelSize`, and there is none otherwise;
`offset[1]` and `offset[3]` are not consulted.  Hence for a raster with
`pixelSize` 4 and colour offsets red 1, blue 3 (alpha stored at byte 0; green
at 2 or anywhere else) `alphaOffset` is 0, no pixel is treated as transparent, and every pixel,
whatever its alpha byte, is pushed with its own red, green and blue bytes. -/
theorem C27_alpha_located_from_red_and_blue (interp : String) (formatString : FormatArg)
    (blockPtr : Tk_PhotoImageBlock)
    (hfmt : ∀ err, formatString ≠ FormatArg.notList err)
    (hps : blockPtr.pixelSize = 4) (h0 : blockPtr.offset0 = 1) (h2 : blockPtr.offset2 = 3) :
    (∀ b : Tk_PhotoImageBlock, alphaOffset b =
      if max b.offset0 b.offset2 + 1 < b.pixelSize
      then max b.offset0 b.offset2 + 1 - b.offset0 else 0) ∧
    (∀ (b : Tk_PhotoImageBlock) (o1 o3 : Int),
      alphaOffset { b with offset1 := o1, offset3 := o3 } = alphaOffset b) ∧
    alphaOffset blockPtr = 0 ∧
    (∀ k j : Int, ¬ treatedTransparent blockPtr k j) ∧
    ∀ k j : Nat, (k : Int) < blockPtr.height → (j : Int) < blockPtr.width →
      ∃ row, (pushedScanlines (CommonWriteJPEG interp formatString blockPtr).trace)[k]?
          = some row ∧
        row[3 * j]? = some (blockPtr.mem (blockPtr.pixelPtr + (k : Int) * blockPtr.pitch +
          (j : Int) * blockPtr.pixelSize + blockPtr.offset0)) ∧
        row[3 * j + 1]? = some (blockPtr.mem (blockPtr.pixelPtr + (k : Int) * blockPtr.pitch +
          (j : Int) * blockPtr.pixelSize + blockPtr.offset1)) ∧
        row[3 * j + 2]? = some (blockPtr.mem (blockPtr.pixelPtr + (k : Int) * blockPtr.pitch +
          (j : Int) * blockPtr.pixelSize + blockPtr.offset2)) := by
  have halpha : alphaOffset blockPtr = 0 := by
    unfold alphaOffset
    dsimp only
    rw [hps, h0, h2]
    decide
  have hnt : ∀ k j : Int, ¬ treatedTransparent blockPtr k j := fun k j h => h.1 halpha
  have hslow : ¬ (blockPtr.offset1 - blockPtr.offset0 = 1 ∧
      blockPtr.offset2 - blockPtr.offset0 = 2 ∧ blockPtr.pixelSize = 3) := by
    rintro ⟨_, _, h3⟩
    omega
  refine ⟨?_, ?_, halpha, hnt, ?_⟩
  · intro b
    unfold alphaOffset
    dsimp only
    rcases le_total b.offset0 b.offset2 with h | h
    · rw [max_eq_right h]
      split_ifs <;> omega
    · rw [max_eq_left h]
      split_ifs <;> omega
  · intro b o1 o3
    rfl
  · intro k j hk hj
    exact CommonWriteJPEG_opaque_pixel interp formatString blockPtr hfmt hslow k j hk hj
      (hnt k j)

/-- Witness for C27: the 2x2 `A R G B` raster; the pixel in row 0, column 1
has alpha byte 0 (address 4) and is pushed as its bytes at addresses 5, 6, 7. -/
theorem C27_alpha_located_from_red_and_blue_witness :
    argb2x2.mem (argb2x2.pixelPtr + (0 : Int) * argb2x2.pitch + (1 : Int) * argb2x2.pixelSize)
      = 0 ∧
    alphaOffset argb2x2 = 0 ∧
    (∀ k j : Int, ¬ treatedTransparent argb2x2 k j) ∧
    ∀ k j : Nat, (k : Int) < argb2x2.height → (j : Int) < argb2x2.width →
      ∃ row, (pushedScanlines (CommonWriteJPEG "" FormatArg.null argb2x2).trace)[k]?
          = some row ∧
        row[3 * j]? = some (argb2x2.mem (argb2x2.pixelPtr + (k : Int) * argb2x2.pitch +
          (j : Int) * argb2x2.pixelSize + argb2x2.offset0)) ∧
        row[3 * j + 1]? = some (argb2x2.mem (argb2x2.pixelPtr + (k : Int) * argb2x2.pitch +
          (j : Int) * argb2x2.pixelSize + argb2x2.offset1)) ∧
        row[3 * j + 2]? = some (argb2x2.mem (argb2x2.pixelPtr + (k : Int) * argb2x2.pitch +
          (j : Int) * argb2x2.pixelSize + argb2x2.offset2)) :=
  ⟨by decide,
   (C27_alpha_located_from_red_and_blue "" FormatArg.null argb2x2 (fun err h => by cases h)
      rfl rfl rfl).2.2⟩

/-! ### Bounded reads and termination of `CommonMatchJPEG` -/

/-- Reads of 1 to 256 bytes only add log entries that request 1 to 256 bytes
and return no more than requested. -/
theorem Reach.reads_bounded {a b : MState} (h : Reach a b) :
    ∃ extra, b.reads = a.reads ++ extra ∧
      ∀ e ∈ extra, 1 ≤ e.1 ∧ e.1 ≤ 256 ∧ e.2 ≤ e.1 := by
  induction h with
  | refl => exact ⟨[], by simp, by simp⟩
  | read st1 n hn1 hn2 _ ih =>
    obtain ⟨extra, he, hb⟩ := ih
    refine ⟨extra ++ [(n, min n st1.handle.length)], ?_, ?_⟩
    · rw [ImgRead_reads, he, List.append_assoc]
    · intro e hmem
      rw [List.mem_append, List.mem_singleton] at hmem
      rcases hmem with hmem | rfl
      · exact hb e hmem
      · exact ⟨hn1, hn2, Nat.min_le_left _ _⟩
  | setBuf st1 f _ ih => exact ih

/-- The segment skip reaches line 619 exactly when `lastByteIndex` is defined,
and the index is then between 0 and 255. -/
theorem lastByteIndex_spec (st : MState) :
    (∀ k, lastByteIndex st = some k →
      0 ≤ k ∧ k ≤ 255 ∧ ∃ st2, skipSegment st = Loop.done st2) ∧
    (∀ st2, skipSegment st = Loop.done st2 → ∃ k, lastByteIndex st = some k) := by
  unfold lastByteIndex skipSegment
  dsimp only
  by_cases h2 : (ImgRead st 2).1 ≠ 2
  · rw [if_pos h2, if_pos h2]
    refine ⟨?_, ?_⟩ <;> intros <;> contradiction
  · rw [if_neg h2, if_neg h2]
    cases hc : chunkLoop
        (((((((ImgRead st 2).2.buf 0).val <<< 8) + ((ImgRead st 2).2.buf 1).val : Nat) : Int)
          - 1).toNat + 1)
        ((((((ImgRead st 2).2.buf 0).val <<< 8) + ((ImgRead st 2).2.buf 1).val : Nat) : Int) - 1)
        (ImgRead st 2).2 with
    | none => refine ⟨?_, ?_⟩ <;> intros <;> contradiction
    | some p =>
      obtain ⟨i1, s1⟩ := p
      obtain ⟨_, h256, _, _, _⟩ := chunkLoop_reach _ _ _ _ _ hc
      dsimp only
      by_cases hi1 : i1 < 1
      · rw [if_pos hi1, if_pos hi1]
        refine ⟨?_, ?_⟩ <;> intros <;> contradiction
      · rw [if_neg hi1, if_neg hi1]
        by_cases hrd : ((ImgRead s1 i1.toNat).1 : Int) ≠ i1
        · rw [if_pos hrd, if_pos hrd]
          refine ⟨?_, ?_⟩ <;> intros <;> contradiction
        · rw [if_neg hrd, if_neg hrd]
          refine ⟨fun k h => ?_, fun st2 _ => ⟨_, rfl⟩⟩
          rw [Option.some.injEq] at h
          subst h
          exact ⟨by omega, by omega, _, rfl⟩

/-- C23: for every input stream, every read `CommonMatchJPEG` issues requests
between 1 and 256 bytes (and returns no more than requested), so that each read
fits the 256-byte scratch buffer whatever the declared segment lengths; and for
every state in which a segment skip starts, the index `i - 1` used at
`buf[0] = buf[i-1]`, whenever that line is reached, satisfies
`0 <= i-1 <= 255`. -/
theorem C23_reads_within_scratch_buffer (handle : List Byte) (buf0 : Nat → Byte) :
    (∃ r, CommonMatchJPEG handle buf0 = some r ∧
      ∀ e ∈ r.final.reads, 1 ≤ e.1 ∧ e.1 ≤ 256 ∧ e.2 ≤ e.1) ∧
    (∀ st k, lastByteIndex st = some k →
      0 ≤ k ∧ k ≤ 255 ∧ ∃ st2, skipSegment st = Loop.done st2) ∧
    (∀ st st2, skipSegment st = Loop.done st2 → ∃ k, lastByteIndex st = some k) := by
  refine ⟨?_, fun st => (lastByteIndex_spec st).1, fun st => (lastByteIndex_spec st).2⟩
  obtain ⟨r, hr, hreach, _⟩ := CommonMatchJPEG_cases handle buf0
  obtain ⟨extra, he, hb⟩ := hreach.reads_bounded
  refine ⟨r, hr, ?_⟩
  intro e hmem
  rw [he] at hmem
  exact hb e hmem

/-- Witness for C23: a segment of declared length 4 is skipped with one read
of 3 bytes, and the last byte read is fetched at index 2. -/
theorem C23_reads_within_scratch_buffer_witness :
    lastByteIndex segmentState = some 2 ∧
    (0 : Int) ≤ 2 ∧ (2 : Int) ≤ 255 ∧ ∃ st2, skipSegment segmentState = Loop.done st2 :=
  ⟨by decide,
   (C23_reads_within_scratch_buffer [] (fun _ => 0)).2.1 segmentState 2 (by decide)⟩

theorem padLoop_succ (fuel : Nat) (st : MState) :
    padLoop (fuel + 1) st =
      if st.buf 0 = 0xff then
        if (ImgRead st 1).1 ≠ 1 then Loop.return0 (ImgRead st 1).2
        else padLoop fuel (ImgRead st 1).2
      else Loop.done st := rfl

theorem junkLoop_succ (fuel : Nat) (st : MState) :
    junkLoop (fuel + 1) st =
      if st.buf 0 ≠ 0xff then
        if (ImgRead st 1).1 ≠ 1 then Loop.return0 (ImgRead st 1).2
        else junkLoop fuel (ImgRead st 1).2
      else Loop.done st := rfl

theorem chunkLoop_succ (fuel : Nat) (i : Int) (st : MState) :
    chunkLoop (fuel + 1) i st =
      if i > 256 then chunkLoop fuel (i - 256) (ImgRead st 256).2 else some (i, st) := rfl

/-- C24: `CommonMatchJPEG` returns on every finite byte stream.  One
iteration of the padding-FF loop and of the inter-marker junk loop either
returns, leaves the loop, or goes on with one byte less in the stream; one
iteration of the chunk loop either leaves the loop or goes on with the
remaining skip count, still positive, reduced by 256; one iteration of the
marker loop either returns, breaks, or goes on with at least two bytes less in
the stream.  Hence no loop runs out of the fuel it is given. -/
theorem C24_match_terminates (handle : List Byte) (buf0 : Nat → Byte) :
    (∃ r, CommonMatchJPEG handle buf0 = some r) ∧
    (∀ fuel st, (∃ s, padLoop (fuel + 1) st = Loop.return0 s) ∨
      padLoop (fuel + 1) st = Loop.done st ∨
      (padLoop (fuel + 1) st = padLoop fuel (ImgRead st 1).2 ∧
        (ImgRead st 1).2.handle.length + 1 = st.handle.length)) ∧
    (∀ fuel i st, chunkLoop (fuel + 1) i st = some (i, st) ∨
      (chunkLoop (fuel + 1) i st = chunkLoop fuel (i - 256) (ImgRead st 256).2 ∧
        0 < i - 256 ∧ i - 256 < i)) ∧
    (∀ fuel st, (∃ s, junkLoop (fuel + 1) st = Loop.return0 s) ∨
      junkLoop (fuel + 1) st = Loop.done st ∨
      (junkLoop (fuel + 1) st = junkLoop fuel (ImgRead st 1).2 ∧
        (ImgRead st 1).2.handle.length + 1 = st.handle.length)) ∧
    (∀ fuel st, (∃ s, markerLoop (fuel + 1) st = Loop.return0 s) ∨
      (∃ s, markerLoop (fuel + 1) st = Loop.done s) ∨
      (∃ st3, markerLoop (fuel + 1) st = markerLoop fuel st3 ∧
        st3.handle.length + 2 ≤ st.handle.length)) ∧
    (∀ fuel st, st.handle.length < fuel →
      padLoop fuel st ≠ Loop.diverge ∧ junkLoop fuel st ≠ Loop.diverge ∧
      markerLoop fuel st ≠ Loop.diverge) ∧
    (∀ fuel i st, i.toNat < fuel → chunkLoop fuel i st ≠ none) := by
  refine ⟨?_, ?_, ?_, ?_, ?_, ?_, ?_⟩
  · obtain ⟨r, hr, _⟩ := CommonMatchJPEG_cases handle buf0
    exact ⟨r, hr⟩
  · intro fuel st
    rw [padLoop_succ]
    by_cases hb : st.buf 0 = 0xff
    · rw [if_pos hb]
      by_cases hr : (ImgRead st 1).1 ≠ 1
      · rw [if_pos hr]
        exact Or.inl ⟨_, rfl⟩
      · rw [if_neg hr]
        refine Or.inr (Or.inr ⟨rfl, ?_⟩)
        rw [ImgRead_fst] at hr
        rw [ImgRead_length]
        omega
    · rw [if_neg hb]
      exact Or.inr (Or.inl rfl)
  · intro fuel i st
    rw [chunkLoop_succ]
    by_cases hi : i > 256
    · rw [if_pos hi]
      exact Or.inr ⟨rfl, by omega, by omega⟩
    · rw [if_neg hi]
      exact Or.inl rfl
  · intro fuel st
    rw [junkLoop_succ]
    by_cases hb : st.buf 0 ≠ 0xff
    · rw [if_pos hb]
      by_cases hr : (ImgRead st 1).1 ≠ 1
      · rw [if_pos hr]
        exact Or.inl ⟨_, rfl⟩
      · rw [if_neg hr]
        refine Or.inr (Or.inr ⟨rfl, ?_⟩)
        rw [ImgRead_fst] at hr
        rw [ImgRead_length]
        omega
    · rw [if_neg hb]
      exact Or.inr (Or.inl rfl)
  · intro fuel st
    rw [markerLoop_succ]
    cases hp : padLoop (st.handle.length + 1) st with
    | diverge => exact absurd hp (padLoop_total _ _ (by omega))
    | return0 s => exact Or.inl ⟨s, rfl⟩
    | done s1 =>
      have hr1 : Reach st s1 := padLoop_reach _ _ _ (by rw [hp]; rfl)
      dsimp only
      by_cases hsof : s1.buf 0 = 0xc0 ∨ s1.buf 0 = 0xc1 ∨ s1.buf 0 = 0xc2
      · rw [if_pos hsof]
        exact Or.inr (Or.inl ⟨s1, rfl⟩)
      · rw [if_neg hsof]
        cases hs : skipSegment s1 with
        | diverge =>
          rcases skipSegment_cases s1 with ⟨s, hs1, _⟩ | ⟨s, hs1, _, _⟩ <;>
            rw [hs1] at hs <;> cases hs
        | return0 s => exact Or.inl ⟨s, rfl⟩
        | done s2 =>
          have hl2 := skipSegment_done_length _ _ hs
          dsimp only
          cases hj : junkLoop (s2.handle.length + 1) s2 with
          | diverge => exact absurd hj (junkLoop_total _ _ (by omega))
          | return0 s => exact Or.inl ⟨s, rfl⟩
          | done s3 =>
            have hr3 : Reach s2 s3 := junkLoop_reach _ _ _ (by rw [hj]; rfl)
            refine Or.inr (Or.inr ⟨s3, rfl, ?_⟩)
            have h1 := hr1.length_le
            have h3 := hr3.length_le
            omega
  · intro fuel st h
    exact ⟨padLoop_total fuel st h, junkLoop_total fuel st h, markerLoop_total fuel st h⟩
  · intro fuel i st h
    exact chunkLoop_total fuel i st h

/-! ### Termination of the skip routines -/

/-- The refill loop of `skip_input_data` ends, leaving a count that does not
exceed the bytes buffered, so that the final subtraction does not wrap. -/
theorem skip_input_data_no_underflow (fill : SourceMgr → Bool × SourceMgr)
    (hfill : ∀ s, 1 ≤ (fill s).2.bytes_in_buffer)
    (hpub : ∀ (s : SourceMgr) (p : Option Nat) (b : Nat),
      (fill { transport := s.transport, buffer := s.buffer, next_input_byte := p,
              bytes_in_buffer := b, warnings := s.warnings }).2 = (fill s).2)
    (src : SourceMgr) (n : Int) (hn : 0 < n) :
    ∃ (n1 : Int) (s1 s : SourceMgr), skipLoop fill (n.toNat + 1) n src = some (n1, s1) ∧
      0 < n1 ∧ n1 ≤ s1.bytes_in_buffer ∧ skip_input_data fill src n = some s ∧
      (s.bytes_in_buffer : Int) = (s1.bytes_in_buffer : Int) - n1 := by
  obtain ⟨⟨n1, s1⟩, hr⟩ := skipLoop_total fill hfill (n.toNat + 1) n src hn
    (by split_ifs <;> omega)
  obtain ⟨h1, h2, _⟩ := skipLoop_advance fill hfill hpub _ _ _ _ _ hn hr
  refine ⟨n1, s1,
    { transport := s1.transport, buffer := s1.buffer,
      next_input_byte := s1.next_input_byte.map (fun p => p + n1.toNat),
      bytes_in_buffer := size_t_sub s1.bytes_in_buffer n1.toNat,
      warnings := s1.warnings }, hr, h1, h2, ?_, ?_⟩
  · unfold skip_input_data
    rw [if_pos hn, hr]
  · dsimp only
    unfold size_t_sub
    rw [if_pos (by omega)]
    omega

/-- C25: `str_skip_input_data` and `chan_skip_input_data` return for every
`num_bytes` and every source state: each refill leaves at least one byte
buffered (two when the transport is exhausted); for `num_bytes <= 0` the source
is returned unchanged; for `num_bytes > 0` the refill loop ends with a count
that is positive and does not exceed `bytes_in_buffer`, so the subtraction
`bytes_in_buffer -= num_bytes` does not underflow. -/
theorem C25_skip_terminates (src : SourceMgr) (n : Int) :
    (∀ s, 1 ≤ (str_fill_input_buffer s).2.bytes_in_buffer ∧
      (s.transport = [] → (str_fill_input_buffer s).2.bytes_in_buffer = 2)) ∧
    (∀ s, 1 ≤ (chan_fill_input_buffer s).2.bytes_in_buffer ∧
      (s.transport = [] → (chan_fill_input_buffer s).2.bytes_in_buffer = 2)) ∧
    ((n ≤ 0 ∧ str_skip_input_data src n = some src ∧ chan_skip_input_data src n = some src) ∨
     (0 < n ∧
      (∃ (n1 : Int) (s1 s : SourceMgr),
        skipLoop str_fill_input_buffer (n.toNat + 1) n src = some (n1, s1) ∧
        0 < n1 ∧ n1 ≤ s1.bytes_in_buffer ∧ str_skip_input_data src n = some s ∧
        (s.bytes_in_buffer : Int) = (s1.bytes_in_buffer : Int) - n1) ∧
      (∃ (n1 : Int) (s1 s : SourceMgr),
        skipLoop chan_fill_input_buffer (n.toNat + 1) n src = some (n1, s1) ∧
        0 < n1 ∧ n1 ≤ s1.bytes_in_buffer ∧ chan_skip_input_data src n = some s ∧
        (s.bytes_in_buffer : Int) = (s1.bytes_in_buffer : Int) - n1))) := by
  refine ⟨?_, ?_, ?_⟩
  · intro s
    refine ⟨str_fill_props.1 s, ?_⟩
    intro h
    unfold str_fill_input_buffer
    dsimp only
    rw [h, strFillLoop_nil, if_pos (le_refl 0)]
  · intro s
    refine ⟨chan_fill_props.1 s, ?_⟩
    intro h
    unfold chan_fill_input_buffer
    dsimp only
    rw [h]
    have : (Tcl_Read [] s.buffer STRING_BUF_SIZE).1 ≤ 0 := by simp [Tcl_Read]
    rw [if_pos this]
  · by_cases hn : 0 < n
    · right
      exact ⟨hn,
        skip_input_data_no_underflow str_fill_input_buffer str_fill_props.1 str_fill_props.2
          src n hn,
        skip_input_data_no_underflow chan_fill_input_buffer chan_fill_props.1
          chan_fill_props.2 src n hn⟩
    · left
      refine ⟨by omega, ?_, ?_⟩
      · unfold str_skip_input_data skip_input_data
        rw [if_neg (by omega)]
      · unfold chan_skip_input_data skip_input_data
        rw [if_neg (by omega)]

/-- Witness for C25: on an exhausted transport each refill supplies two bytes. -/
theorem C25_skip_terminates_witness :
    (freshSource []).transport = [] ∧
    (str_fill_input_buffer (freshSource [])).2.bytes_in_buffer = 2 ∧
    (chan_fill_input_buffer (freshSource [])).2.bytes_in_buffer = 2 :=
  ⟨rfl,
   ((C25_skip_terminates (freshSource []) 5).1 (freshSource [])).2 rfl,
   ((C25_skip_terminates (freshSource []) 5).2.1 (freshSource [])).2 rfl⟩

/-! ### The result of `CommonMatchJPEG` depends on the bytes consumed only -/

/-- A read that is served in full delivers the same bytes whatever follows
them in the stream. -/
theorem ImgRead_frame (st : MState) (n : Nat) (r' : List Byte)
    (h : n ≤ st.handle.length) :
    ImgRead (st.withHandle (st.handle.take n ++ r')) n =
      (n, (ImgRead st n).2.withHandle r') := by
  have hl : (st.handle.take n).length = n := by
    rw [List.length_take]
    omega
  have hm : min n (st.handle.take n ++ r').length = n := by
    rw [List.length_append, hl]
    omega
  have hm2 : min n st.handle.length = n := by omega
  unfold ImgRead MState.withHandle
  dsimp only
  rw [hm, hm2, List.drop_left' hl]
  congr 2
  funext j
  by_cases hj : j < n
  · rw [if_pos hj, if_pos hj, List.getD_append _ _ _ _ (by omega)]
    rw [List.getD_eq_getElem?_getD, List.getD_eq_getElem?_getD, List.getElem?_take_of_lt hj]
  · rw [if_neg hj, if_neg hj]

theorem ImgRead_full_split (st : MState) (n : Nat) (h : (ImgRead st n).1 = n) :
    n ≤ st.handle.length ∧ st.handle = st.handle.take n ++ (ImgRead st n).2.handle := by
  rw [ImgRead_fst] at h
  have hn : n ≤ st.handle.length := by omega
  refine ⟨hn, ?_⟩
  rw [ImgRead_handle, Nat.min_eq_left hn, List.take_append_drop]
theorem padLoop_frame (fuel : Nat) (st st1 : MState)
    (h : padLoop fuel st = Loop.done st1) :
    ∃ c, st.handle = c ++ st1.handle ∧
      ∀ r' fuel', c.length < fuel' →
        padLoop fuel' (st.withHandle (c ++ r')) = Loop.done (st1.withHandle r') := by
  induction fuel generalizing st with
  | zero => cases h
  | succ fuel ih =>
    rw [padLoop_succ] at h
    by_cases hb : st.buf 0 = 0xff
    · rw [if_pos hb] at h
      by_cases hr : (ImgRead st 1).1 ≠ 1
      · rw [if_pos hr] at h
        cases h
      · rw [if_neg hr] at h
        obtain ⟨c, hc, hf⟩ := ih _ h
        obtain ⟨hlen, hsplit⟩ := ImgRead_full_split st 1 (not_not.mp hr)
        refine ⟨st.handle.take 1 ++ c, ?_, ?_⟩
        · rw [List.append_assoc, ← hc]
          exact hsplit
        · intro r' fuel' hfuel
          have hl1 : (st.handle.take 1).length = 1 := by
            rw [List.length_take]
            omega
          rw [List.length_append, hl1] at hfuel
          obtain ⟨f, rfl⟩ : ∃ f, fuel' = f + 1 := ⟨fuel' - 1, by omega⟩
          have hb' : (st.withHandle (st.handle.take 1 ++ c ++ r')).buf 0 = 0xff := hb
          rw [padLoop_succ, if_pos hb', List.append_assoc, ImgRead_frame st 1 (c ++ r') hlen]
          dsimp only
          rw [if_neg (by simp)]
          exact hf r' f (by omega)
    · rw [if_neg hb] at h
      cases h
      refine ⟨[], rfl, ?_⟩
      intro r' fuel' hfuel
      obtain ⟨f, rfl⟩ : ∃ f, fuel' = f + 1 := ⟨fuel' - 1, by simp at hfuel; omega⟩
      have hb' : ¬ (st1.withHandle ([] ++ r')).buf 0 = 0xff := hb
      rw [padLoop_succ, if_neg hb']
      rfl

theorem junkLoop_frame (fuel : Nat) (st st1 : MState)
    (h : junkLoop fuel st = Loop.done st1) :
    ∃ c, st.handle = c ++ st1.handle ∧
      ∀ r' fuel', c.length < fuel' →
        junkLoop fuel' (st.withHandle (c ++ r')) = Loop.done (st1.withHandle r') := by
  induction fuel generalizing st with
  | zero => cases h
  | succ fuel ih =>
    rw [junkLoop_succ] at h
    by_cases hb : st.buf 0 ≠ 0xff
    · rw [if_pos hb] at h
      by_cases hr : (ImgRead st 1).1 ≠ 1
      · rw [if_pos hr] at h
        cases h
      · rw [if_neg hr] at h
        obtain ⟨c, hc, hf⟩ := ih _ h
        obtain ⟨hlen, hsplit⟩ := ImgRead_full_split st 1 (not_not.mp hr)
        refine ⟨st.handle.take 1 ++ c, ?_, ?_⟩
        · rw [List.append_assoc, ← hc]
          exact hsplit
        · intro r' fuel' hfuel
          have hl1 : (st.handle.take 1).length = 1 := by
            rw [List.length_take]
            omega
          rw [List.length_append, hl1] at hfuel
          obtain ⟨f, rfl⟩ : ∃ f, fuel' = f + 1 := ⟨fuel' - 1, by omega⟩
          have hb' : (st.withHandle (st.handle.take 1 ++ c ++ r')).buf 0 ≠ 0xff := hb
          rw [junkLoop_succ, if_pos hb', List.append_assoc, ImgRead_frame st 1 (c ++ r') hlen]
          dsimp only
          rw [if_neg (by simp)]
          exact hf r' f (by omega)
    · rw [if_neg hb] at h
      cases h
      refine ⟨[], rfl, ?_⟩
      intro r' fuel' hfuel
      obtain ⟨f, rfl⟩ : ∃ f, fuel' = f + 1 := ⟨fuel' - 1, by simp at hfuel; omega⟩
      have hb' : ¬ (st1.withHandle ([] ++ r')).buf 0 ≠ 0xff := hb
      rw [junkLoop_succ, if_neg hb']
      rfl

theorem chunkLoop_frame (fuel : Nat) (i i1 : Int) (st st1 : MState)
    (h : chunkLoop fuel i st = some (i1, st1)) (hne : st1.handle ≠ []) :
    ∃ c, st.handle = c ++ st1.handle ∧
      ∀ r', chunkLoop fuel i (st.withHandle (c ++ r')) = some (i1, st1.withHandle r') := by
  induction fuel generalizing i st with
  | zero => cases h
  | succ fuel ih =>
    rw [chunkLoop_succ] at h
    by_cases hi : i > 256
    · rw [if_pos hi] at h
      obtain ⟨c, hc, hf⟩ := ih _ _ h
      have hlen : 256 ≤ st.handle.length := by
        by_contra hlt
        have h0 : (ImgRead st 256).2.handle = [] := by
          rw [ImgRead_handle, Nat.min_eq_right (by omega), List.drop_length]
        rw [h0] at hc
        have := congrArg List.length hc
        rw [List.length_append, List.length_nil] at this
        exact hne (List.length_eq_zero.mp (by omega))
      have hsplit : st.handle = st.handle.take 256 ++ (ImgRead st 256).2.handle := by
        rw [ImgRead_handle, Nat.min_eq_left hlen, List.take_append_drop]
      refine ⟨st.handle.take 256 ++ c, ?_, ?_⟩
      · rw [List.append_assoc, ← hc]
        exact hsplit
      · intro r'
        rw [chunkLoop_succ, if_pos hi, List.append_assoc, ImgRead_frame st 256 (c ++ r') hlen]
        exact hf r'
    · rw [if_neg hi] at h
      cases h
      refine ⟨[], rfl, ?_⟩
      intro r'
      rw [chunkLoop_succ, if_neg hi]
      rfl
/-- The segment skip is left normally exactly when the length is read in
full, the count left by the chunk loop is at least 1 and the last read is
served in full. -/
theorem skipSegment_done_iff (st st2 : MState) :
    skipSegment st = Loop.done st2 ↔
      ∃ i1 s1, (ImgRead st 2).1 = 2 ∧
        chunkLoop
          (((((((ImgRead st 2).2.buf 0).val <<< 8) + ((ImgRead st 2).2.buf 1).val : Nat) : Int)
            - 1).toNat + 1)
          ((((((ImgRead st 2).2.buf 0).val <<< 8) + ((ImgRead st 2).2.buf 1).val : Nat) : Int)
            - 1)
          (ImgRead st 2).2 = some (i1, s1) ∧
        ¬ i1 < 1 ∧ ((ImgRead s1 i1.toNat).1 : Int) = i1 ∧
        st2 = (ImgRead s1 i1.toNat).2.setBuf0 ((ImgRead s1 i1.toNat).2.buf (i1 - 1).toNat) := by
  unfold skipSegment
  dsimp only
  by_cases h2 : (ImgRead st 2).1 ≠ 2
  · rw [if_pos h2]
    constructor
    · intro h
      cases h
    · rintro ⟨_, _, h, _⟩
      exact absurd h h2
  · rw [if_neg h2]
    cases hc : chunkLoop
        (((((((ImgRead st 2).2.buf 0).val <<< 8) + ((ImgRead st 2).2.buf 1).val : Nat) : Int)
          - 1).toNat + 1)
        ((((((ImgRead st 2).2.buf 0).val <<< 8) + ((ImgRead st 2).2.buf 1).val : Nat) : Int) - 1)
        (ImgRead st 2).2 with
    | none =>
      constructor
      · intro h
        cases h
      · rintro ⟨_, _, _, h, _⟩
        cases h
    | some p =>
      obtain ⟨i1, s1⟩ := p
      dsimp only
      by_cases hi1 : i1 < 1
      · rw [if_pos hi1]
        constructor
        · intro h
          cases h
        · rintro ⟨i, s, _, h, hi, _⟩
          rw [Option.some.injEq, Prod.mk.injEq] at h
          rw [← h.1] at hi
          exact absurd hi1 hi
      · rw [if_neg hi1]
        by_cases hrd : ((ImgRead s1 i1.toNat).1 : Int) ≠ i1
        · rw [if_pos hrd]
          constructor
          · intro h
            cases h
          · rintro ⟨i, s, _, h, _, hr, _⟩
            rw [Option.some.injEq, Prod.mk.injEq] at h
            rw [← h.1, ← h.2] at hr
            exact absurd hr hrd
        · rw [if_neg hrd]
          constructor
          · intro h
            rw [Loop.done.injEq] at h
            exact ⟨i1, s1, not_not.mp h2, rfl, hi1, not_not.mp hrd, h.symm⟩
          · rintro ⟨i, s, _, h, _, _, hst⟩
            rw [Option.some.injEq, Prod.mk.injEq] at h
            rw [hst, ← h.1, ← h.2]

theorem skipSegment_frame (st st2 : MState) (h : skipSegment st = Loop.done st2) :
    ∃ c, st.handle = c ++ st2.handle ∧ 2 ≤ c.length ∧
      ∀ r', skipSegment (st.withHandle (c ++ r')) = Loop.done (st2.withHandle r') := by
  obtain ⟨i1, s1, h2, hc, hi1, hrd, hst2⟩ := (skipSegment_done_iff st st2).mp h
  obtain ⟨hlen2, hsplit2⟩ := ImgRead_full_split st 2 h2
  have hrd' : (ImgRead s1 i1.toNat).1 = i1.toNat := by omega
  obtain ⟨hlen3, hsplit3⟩ := ImgRead_full_split s1 i1.toNat hrd'
  have hne : s1.handle ≠ [] := by
    intro h0
    rw [h0, List.length_nil] at hlen3
    omega
  obtain ⟨c2, hc2, hf2⟩ := chunkLoop_frame _ _ _ _ _ hc hne
  have hl2 : (st.handle.take 2).length = 2 := by
    rw [List.length_take]
    omega
  have hh2 : st2.handle = (ImgRead s1 i1.toNat).2.handle := by
    rw [hst2]
    rfl
  refine ⟨st.handle.take 2 ++ (c2 ++ s1.handle.take i1.toNat), ?_, ?_, ?_⟩
  · rw [hh2, List.append_assoc, List.append_assoc, ← hsplit3, ← hc2]
    exact hsplit2
  · rw [List.length_append, hl2]
    omega
  · intro r'
    have e1 : ImgRead (st.withHandle (st.handle.take 2 ++ (c2 ++ s1.handle.take i1.toNat) ++ r')) 2
        = (2, (ImgRead st 2).2.withHandle (c2 ++ (s1.handle.take i1.toNat ++ r'))) := by
      rw [List.append_assoc, List.append_assoc]
      exact ImgRead_frame st 2 _ hlen2
    have e3 : ImgRead (s1.withHandle (s1.handle.take i1.toNat ++ r')) i1.toNat
        = (i1.toNat, (ImgRead s1 i1.toNat).2.withHandle r') :=
      ImgRead_frame s1 i1.toNat r' hlen3
    refine (skipSegment_done_iff _ _).mpr
      ⟨i1, s1.withHandle (s1.handle.take i1.toNat ++ r'), ?_, ?_, hi1, ?_, ?_⟩
    · rw [e1]
    · rw [e1]
      exact hf2 _
    · rw [e3]
      dsimp only
      omega
    · rw [e3, hst2]
      rfl
theorem markerLoop_frame (fuel : Nat) (st st1 : MState)
    (h : markerLoop fuel st = Loop.done st1) :
    ∃ c, st.handle = c ++ st1.handle ∧
      ∀ r' fuel', c.length < fuel' →
        markerLoop fuel' (st.withHandle (c ++ r')) = Loop.done (st1.withHandle r') := by
  induction fuel generalizing st with
  | zero => cases h
  | succ fuel ih =>
    rw [markerLoop_succ] at h
    cases hp : padLoop (st.handle.length + 1) st with
    | diverge =>
      rw [hp] at h
      cases h
    | return0 s =>
      rw [hp] at h
      cases h
    | done s1 =>
      rw [hp] at h
      dsimp only at h
      obtain ⟨c1, hc1, hf1⟩ := padLoop_frame _ _ _ hp
      by_cases hsof : s1.buf 0 = 0xc0 ∨ s1.buf 0 = 0xc1 ∨ s1.buf 0 = 0xc2
      · rw [if_pos hsof] at h
        cases h
        refine ⟨c1, hc1, ?_⟩
        intro r' fuel' hfuel
        obtain ⟨f, rfl⟩ : ∃ f, fuel' = f + 1 := ⟨fuel' - 1, by omega⟩
        have hlen : c1.length < (st.withHandle (c1 ++ r')).handle.length + 1 := by
          show c1.length < (c1 ++ r').length + 1
          rw [List.length_append]
          omega
        rw [markerLoop_succ, hf1 r' _ hlen]
        dsimp only
        have hsof' : (st1.withHandle r').buf 0 = 0xc0 ∨ (st1.withHandle r').buf 0 = 0xc1 ∨
            (st1.withHandle r').buf 0 = 0xc2 := hsof
        rw [if_pos hsof']
      · rw [if_neg hsof] at h
        cases hs : skipSegment s1 with
        | diverge =>
          rw [hs] at h
          cases h
        | return0 s =>
          rw [hs] at h
          cases h
        | done s2 =>
          rw [hs] at h
          dsimp only at h
          obtain ⟨c2, hc2, hl2, hf2⟩ := skipSegment_frame _ _ hs
          cases hj : junkLoop (s2.handle.length + 1) s2 with
          | diverge =>
            rw [hj] at h
            cases h
          | return0 s =>
            rw [hj] at h
            cases h
          | done s3 =>
            rw [hj] at h
            dsimp only at h
            obtain ⟨c3, hc3, hf3⟩ := junkLoop_frame _ _ _ hj
            obtain ⟨c4, hc4, hf4⟩ := ih _ h
            refine ⟨c1 ++ (c2 ++ (c3 ++ c4)), ?_, ?_⟩
            · rw [List.append_assoc, List.append_assoc, List.append_assoc, ← hc4, ← hc3, ← hc2]
              exact hc1
            · intro r' fuel' hfuel
              simp only [List.length_append] at hfuel
              obtain ⟨f, rfl⟩ : ∃ f, fuel' = f + 1 := ⟨fuel' - 1, by omega⟩
              have e : c1 ++ (c2 ++ (c3 ++ c4)) ++ r' = c1 ++ (c2 ++ (c3 ++ (c4 ++ r'))) := by
                simp only [List.append_assoc]
              have hlen1 : c1.length <
                  (st.withHandle (c1 ++ (c2 ++ (c3 ++ (c4 ++ r'))))).handle.length + 1 := by
                show c1.length < (c1 ++ (c2 ++ (c3 ++ (c4 ++ r')))).length + 1
                rw [List.length_append]
                omega
              have hlen3 : c3.length <
                  (s2.withHandle (c3 ++ (c4 ++ r'))).handle.length + 1 := by
                show c3.length < (c3 ++ (c4 ++ r')).length + 1
                rw [List.length_append]
                omega
              have hsof' : ¬ ((s1.withHandle (c2 ++ (c3 ++ (c4 ++ r')))).buf 0 = 0xc0 ∨
                  (s1.withHandle (c2 ++ (c3 ++ (c4 ++ r')))).buf 0 = 0xc1 ∨
                  (s1.withHandle (c2 ++ (c3 ++ (c4 ++ r')))).buf 0 = 0xc2) := hsof
              rw [e, markerLoop_succ, hf1 _ _ hlen1]
              dsimp only
              rw [if_neg hsof', hf2 (c3 ++ (c4 ++ r'))]
              dsimp only
              rw [hf3 _ _ hlen3]
              dsimp only
              exact hf4 r' f (by omega)
theorem sofState_eq_some_iff (handle : List Byte) (buf0 : Nat → Byte) (st1 : MState) :
    sofState handle buf0 = some st1 ↔
      (ImgRead (initState handle buf0) 3).1 = 3 ∧
      strncmp_ne (ImgRead (initState handle buf0) 3).2.buf soiSignature 0 3 = false ∧
      markerLoop
        (((ImgRead (initState handle buf0) 3).2.setBuf0
          ((ImgRead (initState handle buf0) 3).2.buf 2)).handle.length + 1)
        ((ImgRead (initState handle buf0) 3).2.setBuf0
          ((ImgRead (initState handle buf0) 3).2.buf 2)) = Loop.done st1 := by
  unfold sofState
  dsimp only
  by_cases hbad : (ImgRead (initState handle buf0) 3).1 ≠ 3 ∨
      strncmp_ne (ImgRead (initState handle buf0) 3).2.buf soiSignature 0 3 = true
  · rw [if_pos hbad]
    constructor
    · intro h
      cases h
    · rintro ⟨h1, h2, _⟩
      rcases hbad with hb | hb
      · exact absurd h1 hb
      · rw [h2] at hb
        cases hb
  · rw [if_neg hbad]
    have h1 : (ImgRead (initState handle buf0) 3).1 = 3 := by
      by_contra hne
      exact hbad (Or.inl hne)
    have h2 : strncmp_ne (ImgRead (initState handle buf0) 3).2.buf soiSignature 0 3 = false := by
      cases hs : strncmp_ne (ImgRead (initState handle buf0) 3).2.buf soiSignature 0 3 with
      | false => rfl
      | true => exact absurd (Or.inr hs) hbad
    cases hm : markerLoop
        (((ImgRead (initState handle buf0) 3).2.setBuf0
          ((ImgRead (initState handle buf0) 3).2.buf 2)).handle.length + 1)
        ((ImgRead (initState handle buf0) 3).2.setBuf0
          ((ImgRead (initState handle buf0) 3).2.buf 2)) with
    | diverge =>
      constructor
      · intro h
        cases h
      · rintro ⟨_, _, h⟩
        cases h
    | return0 s =>
      constructor
      · intro h
        cases h
      · rintro ⟨_, _, h⟩
        cases h
    | done s =>
      constructor
      · intro h
        rw [Option.some.injEq] at h
        rw [h]
        exact ⟨h1, h2, rfl⟩
      · rintro ⟨_, _, h⟩
        rw [Loop.done.injEq] at h
        rw [h]

/-- The run up to the start-of-frame marker depends only on the bytes it
consumes: whatever follows them, it ends in the same state. -/
theorem sofState_frame (handle : List Byte) (buf0 : Nat → Byte) (st1 : MState)
    (h : sofState handle buf0 = some st1) :
    ∃ c, handle = c ++ st1.handle ∧ 3 ≤ c.length ∧
      ∀ r', sofState (c ++ r') buf0 = some (st1.withHandle r') := by
  obtain ⟨h1, h2, hm⟩ := (sofState_eq_some_iff handle buf0 st1).mp h
  obtain ⟨hlen, hsplit⟩ := ImgRead_full_split (initState handle buf0) 3 h1
  obtain ⟨c2, hc2, hf2⟩ := markerLoop_frame _ _ _ hm
  have hl3 : (handle.take 3).length = 3 := by
    rw [List.length_take]
    exact Nat.min_eq_left hlen
  refine ⟨handle.take 3 ++ c2, ?_, ?_, ?_⟩
  · rw [List.append_assoc, ← hc2]
    exact hsplit
  · rw [List.length_append, hl3]
    omega
  · intro r'
    have e1 : ImgRead (initState (handle.take 3 ++ c2 ++ r') buf0) 3 =
        (3, (ImgRead (initState handle buf0) 3).2.withHandle (c2 ++ r')) := by
      rw [List.append_assoc]
      exact ImgRead_frame (initState handle buf0) 3 (c2 ++ r') hlen
    refine (sofState_eq_some_iff _ _ _).mpr ⟨?_, ?_, ?_⟩
    · rw [e1]
    · rw [e1]
      exact h2
    · rw [e1]
      have hlen2 : c2.length < (c2 ++ r').length + 1 := by
        rw [List.length_append]
        omega
      exact hf2 r' _ hlen2

/-- From the start-of-frame marker on, the result is decided by the 7-byte
read alone. -/
theorem CommonMatchJPEG_of_sofState (handle : List Byte) (buf0 : Nat → Byte) (st1 : MState)
    (h : sofState handle buf0 = some st1) :
    CommonMatchJPEG handle buf0 =
      if (ImgRead st1 7).1 ≠ 7 then
        some { ret := 0, width := none, height := none, final := (ImgRead st1 7).2 }
      else
        some { ret := 1,
               width := some (((((ImgRead st1 7).2.buf 5).val <<< 8) +
                 ((ImgRead st1 7).2.buf 6).val : Nat) : Int),
               height := some (((((ImgRead st1 7).2.buf 3).val <<< 8) +
                 ((ImgRead st1 7).2.buf 4).val : Nat) : Int),
               final := (ImgRead st1 7).2 } := by
  obtain ⟨h1, h2, hm⟩ := (sofState_eq_some_iff handle buf0 st1).mp h
  unfold CommonMatchJPEG
  dsimp only
  have hgood : ¬ ((ImgRead (initState handle buf0) 3).1 ≠ 3 ∨
      strncmp_ne (ImgRead (initState handle buf0) 3).2.buf soiSignature 0 3 = true) := by
    rintro (hb | hb)
    · exact hb h1
    · rw [h2] at hb
      cases hb
  rw [if_neg hgood, hm]

/-- A stream is accepted only if the run reaches a start-of-frame marker. -/
theorem CommonMatchJPEG_accept_sofState (handle : List Byte) (buf0 : Nat → Byte)
    (r : MatchResult) (h : CommonMatchJPEG handle buf0 = some r) (hret : r.ret = 1) :
    ∃ st1, sofState handle buf0 = some st1 ∧ (ImgRead st1 7).1 = 7 := by
  cases hs : sofState handle buf0 with
  | some st1 =>
    refine ⟨st1, rfl, ?_⟩
    rw [CommonMatchJPEG_of_sofState handle buf0 st1 hs] at h
    by_contra hne
    rw [if_pos hne, Option.some.injEq] at h
    rw [← h] at hret
    cases hret
  | none =>
    exfalso
    unfold sofState at hs
    unfold CommonMatchJPEG at h
    dsimp only at hs h
    by_cases hbad : (ImgRead (initState handle buf0) 3).1 ≠ 3 ∨
        strncmp_ne (ImgRead (initState handle buf0) 3).2.buf soiSignature 0 3 = true
    · rw [if_pos hbad, Option.some.injEq] at h
      rw [← h] at hret
      cases hret
    · rw [if_neg hbad] at h hs
      cases hm : markerLoop
          (((ImgRead (initState handle buf0) 3).2.setBuf0
            ((ImgRead (initState handle buf0) 3).2.buf 2)).handle.length + 1)
          ((ImgRead (initState handle buf0) 3).2.setBuf0
            ((ImgRead (initState handle buf0) 3).2.buf 2)) with
      | diverge =>
        rw [hm] at h
        cases h
      | return0 s =>
        rw [hm] at h
        dsimp only at h
        rw [Option.some.injEq] at h
        rw [← h] at hret
        cases hret
      | done s =>
        rw [hm] at hs
        cases hs

/-- On a stream in marker-segment form the run reaches the start-of-frame
marker with the handle standing at the frame header. -/
theorem sofState_jpegStream (segs : List Segment) (s : Byte) (frame : List Byte)
    (buf0 : Nat → Byte)
    (hsegs : ∀ g ∈ segs, g.wellFormed) (hs : s = 0xc0 ∨ s = 0xc1 ∨ s = 0xc2) :
    ∃ st1, sofState (jpegStream segs s frame) buf0 = some st1 ∧ st1.handle = frame := by
  have hstream : jpegStream segs s frame = 0xff :: 0xd8 :: 0xff :: afterFF s frame segs := by
    unfold jpegStream
    rw [afterFF_eq]
    rfl
  obtain ⟨r1, r2, r3⟩ := ImgRead_full (initState (jpegStream segs s frame) buf0) 3
    (by rw [hstream]; simp [initState])
  have hinit : (initState (jpegStream segs s frame) buf0).handle =
      0xff :: 0xd8 :: 0xff :: afterFF s frame segs := hstream
  have hb0 : (ImgRead (initState (jpegStream segs s frame) buf0) 3).2.buf 0 = 0xff := by
    rw [r3 0 (by omega), hinit]; rfl
  have hb1 : (ImgRead (initState (jpegStream segs s frame) buf0) 3).2.buf 1 = 0xd8 := by
    rw [r3 1 (by omega), hinit]; rfl
  have hb2 : (ImgRead (initState (jpegStream segs s frame) buf0) 3).2.buf 2 = 0xff := by
    rw [r3 2 (by omega), hinit]; rfl
  have hcmp : strncmp_ne (ImgRead (initState (jpegStream segs s frame) buf0) 3).2.buf
      soiSignature 0 3 = false := by
    simp [strncmp_ne, hb0, hb1, hb2, soiSignature]
  obtain ⟨st1, hm, hh1⟩ := markerLoop_segments s frame hs segs hsegs
    (((ImgRead (initState (jpegStream segs s frame) buf0) 3).2.setBuf0
      ((ImgRead (initState (jpegStream segs s frame) buf0) 3).2.buf 2)).handle.length + 1)
    ((ImgRead (initState (jpegStream segs s frame) buf0) 3).2.setBuf0
      ((ImgRead (initState (jpegStream segs s frame) buf0) 3).2.buf 2))
    (by simp [MState.setBuf0, hb2])
    (by show (ImgRead (initState (jpegStream segs s frame) buf0) 3).2.handle = _
        rw [r2, hinit]; rfl)
    (by show segs.length < (ImgRead (initState (jpegStream segs s frame) buf0) 3).2.handle.length + 1
        rw [r2, hinit]
        have := afterFF_length s frame segs
        simp only [List.drop_succ_cons, List.drop_zero]
        omega)
  exact ⟨st1, (sofState_eq_some_iff _ _ _).mpr ⟨r1, hcmp, hm⟩, hh1⟩

/-- A stream in marker-segment form whose frame header has at least 7 bytes is
accepted, whatever those bytes are. -/
theorem CommonMatchJPEG_accepts_jpegStream (segs : List Segment) (s : Byte)
    (frame : List Byte) (buf0 : Nat → Byte)
    (hsegs : ∀ g ∈ segs, g.wellFormed) (hs : s = 0xc0 ∨ s = 0xc1 ∨ s = 0xc2)
    (h7 : 7 ≤ frame.length) :
    ∃ r, CommonMatchJPEG (jpegStream segs s frame) buf0 = some r ∧ r.ret = 1 := by
  obtain ⟨st1, hsof, hh⟩ := sofState_jpegStream segs s frame buf0 hsegs hs
  rw [CommonMatchJPEG_of_sofState _ buf0 st1 hsof]
  have hfull : ¬ (ImgRead st1 7).1 ≠ 7 := by
    rw [ImgRead_fst, hh]
    omega
  rw [if_neg hfull]
  exact ⟨_, rfl, rfl⟩

/-- C26: if `CommonMatchJPEG` returns 1 on the stream `s`, reporting some
width and height, then on `s` followed by any bytes `t` it returns 1 with the
same width and height, having consumed the same bytes (`t` is left unread). -/
theorem C26_accept_stable_under_extension (s t : List Byte) (buf0 : Nat → Byte)
    (r : MatchResult) (h : CommonMatchJPEG s buf0 = some r) (hret : r.ret = 1) :
    ∃ r', CommonMatchJPEG (s ++ t) buf0 = some r' ∧ r'.ret = 1 ∧
      r'.width = r.width ∧ r'.height = r.height ∧
      r'.final.handle = r.final.handle ++ t := by
  obtain ⟨st1, hs, h7⟩ := CommonMatchJPEG_accept_sofState s buf0 r h hret
  obtain ⟨c, hc, _, hf⟩ := sofState_frame s buf0 st1 hs
  obtain ⟨hlen7, hsplit7⟩ := ImgRead_full_split st1 7 h7
  have hs' : sofState (s ++ t) buf0 = some (st1.withHandle (st1.handle ++ t)) := by
    have := hf (st1.handle ++ t)
    rw [← List.append_assoc, ← hc] at this
    exact this
  have e7 : ImgRead (st1.withHandle (st1.handle ++ t)) 7 =
      (7, (ImgRead st1 7).2.withHandle ((ImgRead st1 7).2.handle ++ t)) := by
    have := ImgRead_frame st1 7 ((ImgRead st1 7).2.handle ++ t) hlen7
    rw [← List.append_assoc, ← hsplit7] at this
    exact this
  rw [CommonMatchJPEG_of_sofState s buf0 st1 hs, if_neg (not_not.mpr h7),
    Option.some.injEq] at h
  rw [CommonMatchJPEG_of_sofState (s ++ t) buf0 _ hs', e7]
  dsimp only
  rw [if_neg (by simp), ← h]
  exact ⟨_, rfl, rfl, rfl, rfl, rfl⟩

/-- C29: let `k` be the number of bytes `CommonMatchJPEG` has consumed when it
finds the start-of-frame marker, so that byte `k + 2` of the stream, the third
of the 7 bytes read next, is the sample precision.  Replacing that byte by any
other value changes neither the return value nor the width and height
reported.  And streams whose precision is not 8 are accepted: on every stream
`FF D8`, well-formed segments, `FF s` with `s` a start-of-frame type, then a
frame header `b0 b1 p b3 b4 b5 b6`, the call returns 1 whatever the precision
byte `p` is. -/
theorem C29_precision_byte_ignored (handle : List Byte) (buf0 : Nat → Byte) (k : Nat)
    (p' : Byte) (hk : sofOffset handle buf0 = some k) :
    sofOffset (handle.set (k + 2) p') buf0 = some k ∧
    (∃ r r', CommonMatchJPEG handle buf0 = some r ∧
      CommonMatchJPEG (handle.set (k + 2) p') buf0 = some r' ∧
      r'.ret = r.ret ∧ r'.width = r.width ∧ r'.height = r.height) ∧
    (∀ (segs : List Segment) (s b0 b1 p b3 b4 b5 b6 : Byte) (rest : List Byte),
      (∀ g ∈ segs, g.wellFormed) → (s = 0xc0 ∨ s = 0xc1 ∨ s = 0xc2) →
      ∃ r, CommonMatchJPEG (jpegStream segs s ([b0, b1, p, b3, b4, b5, b6] ++ rest)) buf0
          = some r ∧ r.ret = 1) := by
  refine and_assoc.mp ⟨?_, fun segs s b0 b1 p b3 b4 b5 b6 rest hsegs hs =>
    CommonMatchJPEG_accepts_jpegStream segs s _ buf0 hsegs hs (by simp)⟩
  unfold sofOffset at hk
  cases hs : sofState handle buf0 with
  | none =>
    rw [hs] at hk
    cases hk
  | some st1 =>
    rw [hs, Option.map_some', Option.some.injEq] at hk
    obtain ⟨c, hc, _, hf⟩ := sofState_frame handle buf0 st1 hs
    have hkc : k = c.length := by
      rw [← hk]
      conv_lhs => rw [hc]
      rw [List.length_append]
      omega
    have hset : handle.set (k + 2) p' = c ++ st1.handle.set 2 p' := by
      conv_lhs => rw [hc]
      rw [List.set_append_right _ _ (by omega), hkc]
      congr 2
      omega
    have hs' := hf (st1.handle.set 2 p')
    have hfst : (ImgRead (st1.withHandle (st1.handle.set 2 p')) 7).1 = (ImgRead st1 7).1 := by
      rw [ImgRead_fst, ImgRead_fst]
      show min 7 (st1.handle.set 2 p').length = _
      rw [List.length_set]
    have hbuf : ∀ j, j ≠ 2 →
        (ImgRead (st1.withHandle (st1.handle.set 2 p')) 7).2.buf j = (ImgRead st1 7).2.buf j := by
      intro j hj
      rw [ImgRead_buf, ImgRead_buf]
      show (if j < min 7 (st1.handle.set 2 p').length then (st1.handle.set 2 p').getD j 0
        else st1.buf j) = _
      rw [List.length_set, List.getD_eq_getElem?_getD, List.getElem?_set_ne (Ne.symm hj),
        ← List.getD_eq_getElem?_getD]
    rw [hset]
    constructor
    · unfold sofOffset
      rw [hs', Option.map_some', Option.some.injEq]
      show (c ++ st1.handle.set 2 p').length - (st1.handle.set 2 p').length = k
      rw [List.length_append]
      omega
    · rw [CommonMatchJPEG_of_sofState handle buf0 st1 hs,
        CommonMatchJPEG_of_sofState _ buf0 _ hs']
      by_cases h7 : (ImgRead st1 7).1 ≠ 7
      · rw [if_pos h7, if_pos (by rw [hfst]; exact h7)]
        exact ⟨_, _, rfl, rfl, rfl, rfl, rfl⟩
      · rw [if_neg h7, if_neg (by rw [hfst]; exact h7)]
        refine ⟨_, _, rfl, rfl, rfl, ?_, ?_⟩
        · dsimp only
          rw [hbuf 5 (by omega), hbuf 6 (by omega)]
        · dsimp only
          rw [hbuf 3 (by omega), hbuf 4 (by omega)]
/-- Witness for C26: a stream holding `FF D8 FF C0` and a frame header for a
3x2 image is accepted, and so is the same stream followed by `01 02 03`. -/
theorem C26_accept_stable_under_extension_witness :
    ∃ r, CommonMatchJPEG [0xff, 0xd8, 0xff, 0xc0, 0, 11, 8, 0, 2, 0, 3] (fun _ => 0) = some r ∧
      r.ret = 1 ∧
      ∃ r', CommonMatchJPEG ([0xff, 0xd8, 0xff, 0xc0, 0, 11, 8, 0, 2, 0, 3] ++ [1, 2, 3])
          (fun _ => 0) = some r' ∧ r'.ret = 1 ∧
        r'.width = r.width ∧ r'.height = r.height ∧
        r'.final.handle = r.final.handle ++ [1, 2, 3] :=
  ⟨_, rfl, rfl,
   C26_accept_stable_under_extension [0xff, 0xd8, 0xff, 0xc0, 0, 11, 8, 0, 2, 0, 3] [1, 2, 3]
     (fun _ => 0) _ rfl rfl⟩

/-- Witness for C29: in the stream `FF D8 FF C0 00 0B 08 00 02 00 03` the
start-of-frame marker is found after 4 bytes; with the precision byte (index
6) changed from 8 to 12 the result is the same, and the stream with precision
12 is accepted. -/
theorem C29_precision_byte_ignored_witness :
    sofOffset [0xff, 0xd8, 0xff, 0xc0, 0, 11, 8, 0, 2, 0, 3] (fun _ => 0) = some 4 ∧
    sofOffset ([0xff, 0xd8, 0xff, 0xc0, 0, 11, 8, 0, 2, 0, 3].set (4 + 2) 12) (fun _ => 0)
      = some 4 ∧
    (∃ r r', CommonMatchJPEG [0xff, 0xd8, 0xff, 0xc0, 0, 11, 8, 0, 2, 0, 3] (fun _ => 0)
        = some r ∧
      CommonMatchJPEG ([0xff, 0xd8, 0xff, 0xc0, 0, 11, 8, 0, 2, 0, 3].set (4 + 2) 12)
        (fun _ => 0) = some r' ∧
      r'.ret = r.ret ∧ r'.width = r.width ∧ r'.height = r.height) ∧
    ∃ r', CommonMatchJPEG ([0xff, 0xd8, 0xff, 0xc0, 0, 11, 8, 0, 2, 0, 3].set (4 + 2) 12)
        (fun _ => 0) = some r' ∧ r'.ret = 1 :=
  ⟨by decide,
   (C29_precision_byte_ignored [0xff, 0xd8, 0xff, 0xc0, 0, 11, 8, 0, 2, 0, 3] (fun _ => 0) 4 12
     (by decide)).1,
   (C29_precision_byte_ignored [0xff, 0xd8, 0xff, 0xc0, 0, 11, 8, 0, 2, 0, 3] (fun _ => 0) 4 12
     (by decide)).2.1,
   (C29_precision_byte_ignored [0xff, 0xd8, 0xff, 0xc0, 0, 11, 8, 0, 2, 0, 3] (fun _ => 0) 4 12
     (by decide)).2.2 [] 0xc0 0 11 12 0 2 0 3 []
     (fun g hg => by cases hg) (Or.inl rfl)⟩

end TkJPEG
